import Mathlib

/-!
# bee run: reload hub, build supervisor, process manager and watcher

A shallow embedding of `cmd/commands/run/reload.go` and
`cmd/commands/run/watch.go`.  Go channels, maps, goroutines and external
commands are modelled by explicit state, outcome records and effect traces.
-/

namespace Bee

/-! ## Go channels (`chan []byte`) -/

/-- A message (`[]byte`), read as text. -/
abbrev Message := String

/-- A buffered Go channel of messages: pending elements (head is the oldest),
capacity and the closed flag. -/
structure Chan where
  buf : List Message
  cap : Nat
  closed : Bool
deriving DecidableEq, Repr

/-- The Go expression `make(chan []byte, n)`. -/
def makeChan (n : Nat) : Chan := { buf := [], cap := n, closed := false }

/-- The channel with `m` appended at the tail of its buffer. -/
def Chan.push (ch : Chan) (m : Message) : Chan := { ch with buf := ch.buf ++ [m] }

/-- The channel marked closed; its buffered elements stay. -/
def Chan.shut (ch : Chan) : Chan := { ch with closed := true }

/-- The statement `select { case ch <- m: ... default: ... }`: `none` is the
run-time panic "send on closed channel"; otherwise the channel afterwards and
whether the send case was taken. -/
def Chan.trySend (ch : Chan) (m : Message) : Option (Chan × Bool) :=
  if ch.closed then none
  else if ch.buf.length < ch.cap then some (ch.push m, true)
  else some (ch, false)

/-- The statement `close(ch)`: `none` is the panic "close of closed channel". -/
def Chan.close (ch : Chan) : Option Chan :=
  if ch.closed then none else some ch.shut

/-! ## reload.go: the broker -/

/-- A `*wsClient` value: the identity of a heap-allocated client. -/
abbrev wsClient := Nat

/-- Capacity of the `send` channel made by `handleWsRequest`
(`make(chan []byte, 256)`). -/
def sendCap : Nat := 256

/-- The state the broker loop works on: the keys of `br.clients`
(`map[*wsClient]bool`, in the order one `range` visits them) and the heap
field `c.send` of every client. -/
structure HubState where
  clients : List wsClient
  send : wsClient → Chan

/-- What arrives on the three channels of `wsBroker`. -/
inductive Intent where
  | register (c : wsClient)
  | unregister (c : wsClient)
  | broadcast (m : Message)
deriving DecidableEq, Repr

/-- The Go builtin `delete(br.clients, c)`. -/
def deleteClient (cs : List wsClient) (c : wsClient) : List wsClient :=
  cs.filter (fun x => x != c)

/-- The body of `for client := range br.clients` in the broadcast case
(reload.go lines 45-50). -/
def broadcastTo (m : Message) (h : HubState) (c : wsClient) : Option HubState :=
  match (h.send c).trySend m with
  | none => none
  | some (ch, true) => some { h with send := Function.update h.send c ch }
  | some (_, false) =>
    match (h.send c).close with
    | none => none
    | some ch =>
      some { clients := deleteClient h.clients c, send := Function.update h.send c ch }

/-- One iteration of the `for { select { ... } }` loop of `wsBroker.run`
(reload.go lines 35-52) on the intent it received. -/
def wsBroker.runStep (h : HubState) : Intent → Option HubState
  | .register c =>
    some { h with clients := if c ∈ h.clients then h.clients else h.clients ++ [c] }
  | .unregister c =>
    if c ∈ h.clients then
      let cs := deleteClient h.clients c
      match (h.send c).close with
      | none => none
      | some ch => some { clients := cs, send := Function.update h.send c ch }
    else some h
  | .broadcast m => h.clients.foldlM (broadcastTo m) h

/-- The broker loop `wsBroker.run` on a finite sequence of intents, in arrival
order. -/
def wsBroker.run (h : HubState) (is : List Intent) : Option HubState :=
  is.foldlM wsBroker.runStep h

/-- The client `handleWsRequest` creates (reload.go lines 191-195): a fresh
open `send` channel of capacity 256. -/
def handleWsRequest.newSend : Chan := makeChan sendCap

/-- Registered clients are distinct map keys and, as made by
`handleWsRequest`, have an open queue of capacity 256. -/
def HubState.Registered (h : HubState) : Prop :=
  h.clients.Nodup ∧
    ∀ c ∈ h.clients, (h.send c).closed = false ∧ (h.send c).cap = sendCap

/-- The closed form of the broadcast loop over the clients `l`. -/
def broadcastAll (m : Message) (h : HubState) (l : List wsClient) : HubState :=
  { clients := h.clients.filter
      (fun c => !(decide (c ∈ l) && !decide ((h.send c).buf.length < sendCap))),
    send := fun c =>
      if c ∈ l then
        if (h.send c).buf.length < sendCap then (h.send c).push m else (h.send c).shut
      else h.send c }

/-! ## Example hub states -/

/-- A full queue: 256 pending (empty) messages, open, capacity 256. -/
def fullChan : Chan := { buf := List.replicate 256 "", cap := 256, closed := false }

/-- Three registered clients `0`, `1`, `2`; client `1` has a full queue. -/
def hubOneFull : HubState :=
  { clients := [0, 1, 2],
    send := fun c => if c = 1 then fullChan else handleWsRequest.newSend }


/-! ## Strings and regular expressions

Go strings are read as text (valid UTF-8); the `regexp` patterns of watch.go
are written as lists of alternatives, each a sequence of atoms, and matched
leftmost-first with greedy repetition as Go's `regexp` does. -/

/-- Library function `strings.HasSuffix(s, suffix)`. -/
def HasSuffix (s suffix : String) : Bool := suffix.data.isSuffixOf s.data

/-- Library function `strings.Contains(s, substr)`. -/
def Contains (s substr : String) : Bool :=
  s.data.tails.any (fun t => substr.data.isPrefixOf t)

/-- Library function `unicode.IsSpace`. -/
def isSpace (c : Char) : Bool :=
  c = '\t' || c = '\n' || c.toNat = 11 || c.toNat = 12 || c = '\r' || c = ' ' ||
  c.toNat = 0x85 || c.toNat = 0xA0 || c.toNat = 0x1680 ||
  (0x2000 ≤ c.toNat && c.toNat ≤ 0x200A) || c.toNat = 0x2028 || c.toNat = 0x2029 ||
  c.toNat = 0x202F || c.toNat = 0x205F || c.toNat = 0x3000

/-- Library function `bytes.TrimSpace`: leading and trailing white space
removed. -/
def TrimSpace (s : String) : String :=
  String.mk ((s.data.dropWhile isSpace).reverse.dropWhile isSpace).reverse

/-- One element of a pattern: a single character of a class, one or more
characters of a class (`x+`, greedy), or the end of the text (`$`). -/
inductive Atom where
  | one (p : Char → Bool)
  | many1 (p : Char → Bool)
  | eot

/-- The class `.`: any character but a newline. -/
def reAny (c : Char) : Bool := c != '\n'

/-- The class `\w`: `[0-9A-Za-z_]`. -/
def reWord (c : Char) : Bool :=
  ('0' ≤ c && c ≤ '9') || ('A' ≤ c && c ≤ 'Z') || ('a' ≤ c && c ≤ 'z') || c = '_'

/-- The class `\S`: anything but `[\t\n\f\r ]`. -/
def reNonSpace (c : Char) : Bool :=
  !(c = '\t' || c = '\n' || c.toNat = 12 || c = '\r' || c = ' ')

/-- A literal character. -/
def reLit (a : Char) : Atom := .one (fun c => c = a)

/-- A literal string. -/
def reLits (s : String) : List Atom := s.data.map reLit

/-- Greedy `x+` followed by the continuation `k`: take as many characters as
possible, giving back one at a time until `k` succeeds. -/
def matchMany1 (p : Char → Bool) (k : List Char → Option (List Char)) :
    List Char → Option (List Char)
  | [] => none
  | c :: s =>
    if p c then
      match matchMany1 p k s with
      | some r => some r
      | none => k s
    else none

/-- Match a sequence of atoms at the start of the text; the result is the text
left after the match. -/
def matchSeq : List Atom → List Char → Option (List Char)
  | [] => fun s => some s
  | .one p :: as => fun s =>
    match s with
    | [] => none
    | c :: s2 => if p c then matchSeq as s2 else none
  | .many1 p :: as => matchMany1 p (matchSeq as)
  | .eot :: as => fun s => if s.isEmpty then matchSeq as s else none

/-- A pattern: alternatives tried in order. -/
abbrev Regexp := List (List Atom)

/-- Match the pattern at the start of the text: the first alternative that
matches wins. -/
def matchAt (re : Regexp) (s : List Char) : Option (List Char) :=
  re.findSome? (fun alt => matchSeq alt s)

/-- Library function `(*Regexp).MatchString`: the pattern matches somewhere in
the text. -/
def MatchString (re : Regexp) (s : String) : Bool :=
  s.data.tails.any (fun t => (matchAt re t).isSome)

/-- The scan of `FindAllString`: `skip` characters still belong to the match
found last. -/
def findAllFrom (re : Regexp) : List Char → Nat → List String
  | [], _ => []
  | _ :: s, skip + 1 => findAllFrom re s skip
  | c :: s, 0 =>
    match matchAt re (c :: s) with
    | some r =>
      let n := (c :: s).length - r.length
      if n = 0 then findAllFrom re s 0
      else String.mk ((c :: s).take n) :: findAllFrom re s (n - 1)
    | none => findAllFrom re s 0

/-- Library function `(*Regexp).FindAllString(s, -1)` for a pattern that
matches no empty text:
the successive leftmost matches. -/
def FindAllString (re : Regexp) (s : String) : List String :=
  findAllFrom re s.data 0

/-- The package variable `ignoredFilesRegExps` (watch.go lines 41-47):
`.#(\w+).go$`, `.(\w+).go.swp$`, `(\w+).go~$`, `(\w+).tmp$`,
`commentsRouter_controllers.go$`. -/
def ignoredFilesRegExps : List Regexp :=
  [ [[.one reAny, reLit '#', .many1 reWord, .one reAny] ++ reLits "go" ++ [.eot]],
    [[.one reAny, .many1 reWord, .one reAny] ++ reLits "go" ++ [.one reAny] ++
      reLits "swp" ++ [.eot]],
    [[.many1 reWord, .one reAny] ++ reLits "go~" ++ [.eot]],
    [[.many1 reWord, .one reAny] ++ reLits "tmp" ++ [.eot]],
    [reLits "commentsRouter_controllers" ++ [.one reAny] ++ reLits "go" ++ [.eot]] ]

/-- The pattern of `Start` (watch.go line 262): `'.+'|".+"|\S+`. -/
def runargsRegexp : Regexp :=
  [ [reLit '\'', .many1 reAny, reLit '\''],
    [reLit '"', .many1 reAny, reLit '"'],
    [.many1 reNonSpace] ]

/-! ## Configuration, package variables and effects -/

/-- The fields of `config.Conf` that package `run` reads, as they stand when the
command runs, that is after `config.LoadConfig()` (main.go line 79). -/
structure Conf where
  GoInstall : Bool
  EnableReload : Bool
  CmdArgs : List String
  Envs : List String
  WatchExts : List String
  WatchExtsStatic : List String
deriving DecidableEq, Repr

/-- The value `config.Conf` is declared with (conf.go lines 34-65), before
`LoadConfig` runs. -/
def Conf.initial : Conf :=
  { GoInstall := true, EnableReload := false, CmdArgs := [], Envs := [],
    WatchExts := [".go"], WatchExtsStatic := [".html", ".tpl", ".js", ".css"] }

/-- The configuration file `LoadConfig` finds in the directory (conf.go lines
114-133): none, a `Beefile` decoded by `yaml.Unmarshal`, or a `bee.json` decoded
by `json.Unmarshal`. -/
inductive ConfigFile where
  | absent
  | Beefile
  | beeJSON
deriving DecidableEq, Repr

/-- What a package variable declared as `x = config.Conf.F` for a slice field `F`
(watch.go lines 39-40) holds after `LoadConfig`. The declaration is evaluated
when the package is initialised, before `main` and so before `LoadConfig`: the
variable is a slice header of its own, of the length of the declared value
`declared`, over the array of that value. `yaml.Unmarshal` puts a new slice
into the field and leaves the array alone. `json.Unmarshal` decodes the
elements into the slice of the field in place for as long as the array has room,
so the first elements of the decoded list `loaded` show through the variable. A
key the file does not hold leaves the field as declared. -/
def packageCopy (f : ConfigFile) (declared loaded : List String) : List String :=
  match f with
  | .beeJSON => loaded.take declared.length ++ declared.drop loaded.length
  | _ => declared

/-- The package variables of `run` the watcher and the builds read, with
`runtime.GOOS` and `os.Environ()`. `watchExts` and `watchExtsStatic` are the
variables of watch.go lines 39-40, copies of the lists of `config.Conf` taken
when the package was initialised. -/
structure Vars where
  appname : String
  currpath : String
  buildTags : String
  buildLDFlags : String
  runargs : String
  GOOS : String
  environ : List String
  watchExts : List String
  watchExtsStatic : List String

/-- An `fsnotify.Event`: the path, the operation bits and the text `e.String()`
gives for it. -/
structure FsEvent where
  Name : String
  Op : Nat
  desc : String
deriving DecidableEq, Repr

/-- What a `go` statement of watch.go starts. -/
inductive Task where
  /-- The closure of watch.go lines 96-110. -/
  | delayedBuild (files : List String) (isgenerate : Bool) (e : FsEvent)
  /-- Statement `go Start(appname)` (line 248). -/
  | Start (appname : String)
  /-- Statement `go cmd.Run()` (line 270), for the command made at `addr`. -/
  | cmdRun (addr : Nat) (path : String)
  /-- The closure of lines 225-228: `cmd.Wait()`, then a send on `ch`. -/
  | cmdWait (pid : Nat)
deriving DecidableEq, Repr

/-- The observable actions of watch.go, in the order they are performed.
Durations are in milliseconds. -/
inductive Effect where
  /-- Entry into a function of the package. -/
  | call (fn : String) (args : List String)
  /-- Call `state.Lock()`. -/
  | lock
  /-- The deferred `state.Unlock()`. -/
  | unlock
  /-- Call `os.Chdir`. -/
  | chdir (dir : String)
  /-- Method `Run` of an external command to its end; `failed` says that it returned
  an error. -/
  | run (name : String) (args : List String) (env : List String) (failed : Bool)
  /-- Call `utils.Notify(text, title)`. -/
  | notify (text title : String)
  /-- A call of `beeLogger.Log`: level and message (colour codes left out). -/
  | log (level text : String)
  /-- Call `cmd.Process.Signal`. -/
  | signal (pid : Nat) (sig : String)
  /-- The case `<-ch` of `Kill`: the process was gone `after` ms. -/
  | exited (pid : Nat) (after : Nat)
  /-- The case `<-time.After(...)` of `Kill`. -/
  | timeout (ms : Nat)
  /-- Call `cmd.Process.Kill()`; `failed` says that it returned an error. -/
  | processKill (pid : Nat) (failed : Bool)
  /-- A `go` statement. -/
  | go (t : Task)
  /-- The send `started <- true`. -/
  | started
  /-- The assignment to `scheduleTime`. -/
  | schedule (at_ : Nat)
  /-- Call `time.Sleep`. -/
  | sleep (ms : Nat)
  /-- The send `broker.broadcast <- message`. -/
  | broadcast (m : Message)
deriving DecidableEq, Repr

/-! ## The tracked child process -/

/-- An `*exec.Cmd`: the address `exec.Command` allocated it at, path,
arguments, environment and, once its program has been started, the pid of its
process (`cmd.Process`). -/
structure ExecCmd where
  addr : Nat
  Path : String
  Args : List String
  Env : List String
  Process : Option Nat
deriving DecidableEq, Repr

/-- A child process as the operating system has it: whether it still runs,
how many ms after the graceful signal it exits (`none`: it ignores the
signal), whether `Process.Kill()` returns an error on it, and whether it still
runs at the moment `Kill` returns after the forced kill. `Kill` does not wait
on that path, so the last is the operating system's doing and is not tied to
the result of `Process.Kill()`. -/
structure Proc where
  alive : Bool
  exitAfter : Option Nat
  killFails : Bool
  survives : Bool
deriving DecidableEq, Repr

/-- The package variable `cmd`, the child processes started so far (the pid of
a process is its position) and the number of commands `exec.Command` has made
(the address of the next one). -/
structure RunState where
  cmd : Option ExecCmd
  procs : List Proc
  made : Nat
deriving DecidableEq, Repr

/-- The state when `RunApp` begins: `cmd` is nil and no child process exists. -/
def RunState.initial : RunState := { cmd := none, procs := [], made := 0 }

/-- The process with pid `pid`; an unknown pid is a process that is gone. -/
def RunState.proc (st : RunState) (pid : Nat) : Proc :=
  st.procs[pid]?.getD
    { alive := false, exitAfter := none, killFails := false, survives := false }

/-- The number of child processes that are running. -/
def RunState.live (st : RunState) : Nat := (st.procs.filter (fun p => p.alive)).length

/-- The state in which process `pid` runs or not as `b` says. -/
def RunState.setAlive (st : RunState) (pid : Nat) (b : Bool) : RunState :=
  { st with procs := st.procs.modify (fun p => { p with alive := b }) pid }

/-- The wait of `Kill` for the process to exit: 10 seconds. -/
def killWait : Nat := 10 * 1000

/-- The pid `Kill` acts on: `cmd != nil && cmd.Process != nil`. -/
def RunState.tracked (st : RunState) : Option Nat :=
  match st.cmd with
  | none => none
  | some c => c.Process

/-- No child process but the tracked one runs. -/
def RunState.OnlyTracked (st : RunState) : Prop :=
  ∀ pid, (st.proc pid).alive = true → st.tracked = some pid

/-- When the signalled process is gone, in ms after the signal (`none`:
never). A process that is gone already makes `Signal` fail (ignored by the
code) and `Wait` return at once; on Windows the signal is the forced kill. -/
def Kill.gone (v : Vars) (p : Proc) : Option Nat :=
  if !p.alive then some 0
  else if v.GOOS = "windows" then (if p.killFails then none else some 0)
  else p.exitAfter

/-- The `select` of `Kill`: `some d` when `cmd.Wait()` returns after `d` ms,
before the 10 seconds are over; `none` when the timer fires. -/
def Kill.inTime (v : Vars) (p : Proc) : Option Nat :=
  match Kill.gone v p with
  | some d => if d < killWait then some d else none
  | none => none

/-- Function `Kill` (watch.go lines 210-242). Nothing in the body panics in this
model, so the deferred `recover` does nothing. No variable of the package is
assigned. On the path `<-ch` the process has ended, `cmd.Wait()` having
returned. On the timeout path `Kill` returns right after `Process.Kill()`
without waiting: whether the process is still there at that moment is what the
process record says (`survives`), whatever `Process.Kill()` returned. -/
def Kill (v : Vars) (st : RunState) : RunState × List Effect :=
  match st.tracked with
  | none => (st, [.call "Kill" []])
  | some pid =>
    let sig := if v.GOOS = "windows" then "kill" else "interrupt"
    let p := st.proc pid
    let pre : List Effect := [.call "Kill" [], .signal pid sig, .go (.cmdWait pid)]
    match Kill.inTime v p with
    | some d => (st.setAlive pid false, pre ++ [.exited pid d])
    | none =>
      (st.setAlive pid p.survives,
        pre ++ [.timeout killWait, .log "Info" "Timeout. Force kill cmd process",
          .processKill pid p.killFails] ++
        (if p.killFails then [.log "Error" "Error while killing cmd process"] else []))

/-- Function `Restart` (watch.go lines 245-249): `Kill()`, then
`go Start(appname)`. -/
def Restart (v : Vars) (st : RunState) (appname : String) : RunState × List Effect :=
  let k := Kill v st
  (k.1, [.call "Restart" [appname], .log "Debug" "Kill running process"] ++ k.2 ++
    [.go (.Start appname)])

/-- Function `Start` (watch.go lines 252-273), the body of the goroutine `Restart`
starts: `cmd` is assigned a new command, whose `Process` is nil, and the
program is left to the goroutine `go cmd.Run()`. -/
def Start (v : Vars) (conf : Conf) (st : RunState) (appname : String) :
    RunState × List Effect :=
  let path := if !Contains appname "./" then "./" ++ appname else appname
  let args :=
    if v.runargs ≠ "" then [path] ++ FindAllString runargsRegexp v.runargs
    else [path] ++ conf.CmdArgs
  let c : ExecCmd := { addr := st.made, Path := path, Args := args,
                       Env := v.environ ++ conf.Envs, Process := none }
  ({ st with cmd := some c, made := st.made + 1 },
    [.call "Start" [appname], .log "Info" ("Restarting '" ++ appname ++ "'..."),
     .go (.cmdRun st.made path), .log "Success" ("'" ++ path ++ "' is running..."),
     .started])

/-- The goroutine `go cmd.Run()` (watch.go line 270) of the command made at `addr`,
as far as starting the program goes. `spawn` is the new process, or `none` when
the program could not be started (`Process` stays nil). The field `Process` is
set in the command the goroutine was started for: it shows through `cmd` only
while `cmd` still points to that command. -/
def cmdRun (spawn : Option Proc) (st : RunState) (addr : Nat) : RunState :=
  match spawn with
  | none => st
  | some p =>
    { st with
      cmd := st.cmd.map
        (fun c => if c.addr = addr then { c with Process := some st.procs.length } else c),
      procs := st.procs ++ [p] }

/-! ## AutoBuild -/

/-- How the external commands of one `AutoBuild` run end. -/
structure BuildOutcome where
  installErr : Bool
  docsErr : Bool
  buildErr : Bool
  stderr : String
deriving DecidableEq, Repr

/-- The name given to `-o` and to `Restart` (watch.go lines 177-182). -/
def binaryName (v : Vars) : String :=
  if v.GOOS = "windows" then v.appname ++ ".exe" else v.appname

/-- The argument vector of the compile step (watch.go lines 184-192). -/
def buildArgs (v : Vars) (files : List String) : List String :=
  let args := ["build"]
  let args := args ++ ["-o", binaryName v]
  let args := if v.buildTags ≠ "" then args ++ ["-tags", v.buildTags] else args
  let args := if v.buildLDFlags ≠ "" then args ++ ["-ldflags", v.buildLDFlags] else args
  args ++ files

/-- The statements of `AutoBuild` after `state.Lock()` (watch.go lines
140-206): the state of the tracked process afterwards and the effects in
order. -/
def AutoBuild.body (v : Vars) (conf : Conf) (o : BuildOutcome) (st : RunState)
    (files : List String) (isgenerate : Bool) : RunState × List Effect :=
  let env := v.environ ++ ["GOGC=off"]
  let t0 : List Effect := [.chdir v.currpath]
  let t1 :=
    if conf.GoInstall then t0 ++ [.run "go" ["install", "-v"] env o.installErr] else t0
  let err := if isgenerate then o.docsErr else false
  if isgenerate && err then
    (st, t1 ++ [.log "Info" "Generating the docs...", .run "bee" ["generate", "docs"] env true,
      .notify "" "Failed to generate the docs.", .log "Error" "Failed to generate the docs."])
  else
    let t2 :=
      if isgenerate then
        t1 ++ [.log "Info" "Generating the docs...",
          .run "bee" ["generate", "docs"] env false, .log "Success" "Docs generated!"]
      else t1
    if !err then
      if o.buildErr then
        (st, t2 ++ [.run "go" (buildArgs v files) env true, .notify o.stderr "Build Failed",
          .log "Error" ("Failed to build the application: " ++ o.stderr)])
      else
        let r := Restart v st (binaryName v)
        (r.1, t2 ++ [.run "go" (buildArgs v files) env false,
          .log "Success" "Built Successfully!"] ++ r.2)
    else
      let r := Restart v st v.appname
      (r.1, t2 ++ [.log "Success" "Built Successfully!"] ++ r.2)

/-- Function `AutoBuild` (watch.go lines 135-207): `state.Lock()`, the body, and the
deferred `state.Unlock()` when the body returns, on whichever path. -/
def AutoBuild (v : Vars) (conf : Conf) (o : BuildOutcome) (st : RunState)
    (files : List String) (isgenerate : Bool) : RunState × List Effect :=
  let b := AutoBuild.body v conf o st files isgenerate
  (b.1, [.call "AutoBuild" [], .lock] ++ b.2 ++ [.unlock])

/-! ## reload.go: sendReload -/

/-- Function `sendReload` (reload.go lines 175-178). -/
def sendReload (payload : String) : List Effect :=
  [.call "sendReload" [payload], .broadcast (TrimSpace payload)]

/-! ## The watcher -/

/-- The package variable `eventTime` (`map[string]int64`): the value stored
for a path, if any. -/
abbrev EventTime := String → Option Int

/-- The index expression `eventTime[name]`: an absent key reads as 0. -/
def EventTime.get (t : EventTime) (name : String) : Int := (t name).getD 0

/-- The assignment `eventTime[name] = mt`. -/
def EventTime.set (t : EventTime) (name : String) (mt : Int) : EventTime :=
  Function.update t name (some mt)

/-- Function `ifStaticFile` (watch.go lines 275-282): the loop is over the
package variable `watchExtsStatic`. -/
def ifStaticFile (v : Vars) (filename : String) : Bool :=
  v.watchExtsStatic.any (fun s => HasSuffix filename s)

/-- Function `shouldIgnoreFile` (watch.go lines 286-298). -/
def shouldIgnoreFile (filename : String) : Bool :=
  ignoredFilesRegExps.any (fun r => MatchString r filename)

/-- Function `shouldWatchFileWithExtension` (watch.go lines 302-309): the loop is
over the package variable `watchExts`. -/
def shouldWatchFileWithExtension (v : Vars) (name : String) : Bool :=
  v.watchExts.any (fun s => HasSuffix name s)

/-- The case `e := <-watcher.Events` of the loop in `NewWatcher` (watch.go
lines 63-111): the table afterwards and the effects. The lists of extensions
are those of the package variables `v`; `config.Conf.EnableReload` is read from
the configuration `conf` at the time of the event. `modTime` is
`utils.GetFileModTime` at the time of the event. -/
def NewWatcher.onEvent (v : Vars) (conf : Conf) (files : List String) (isgenerate : Bool)
    (modTime : String → Int) (eventTime : EventTime) (e : FsEvent) :
    EventTime × List Effect :=
  if ifStaticFile v e.Name && conf.EnableReload then (eventTime, sendReload e.desc)
  else if shouldIgnoreFile e.Name then (eventTime, [])
  else if !shouldWatchFileWithExtension v e.Name then (eventTime, [])
  else
    let mt := modTime e.Name
    let isBuild := !(mt == eventTime.get e.Name)
    let eventTime2 := eventTime.set e.Name mt
    if isBuild then
      (eventTime2, [.log "Hint" ("Event fired: " ++ e.desc),
        .go (.delayedBuild files isgenerate e)])
    else (eventTime2, [.log "Hint" ("Skipping: " ++ e.desc)])

/-- The goroutine of watch.go lines 96-110, started at time `now`: wait one
second, `AutoBuild`, then the reload when live-reload is enabled. -/
def NewWatcher.delayedBuild (v : Vars) (conf : Conf) (o : BuildOutcome) (now : Nat)
    (st : RunState) (files : List String) (isgenerate : Bool) (e : FsEvent) :
    RunState × List Effect :=
  let scheduleTime := now + 1 * 1000
  let b := AutoBuild v conf o st files isgenerate
  (b.1, [.schedule scheduleTime, .sleep (scheduleTime - now)] ++ b.2 ++
    (if conf.EnableReload then [.sleep 100] ++ sendReload e.desc else []))

/-- What running a task started by `go` does, given the outcomes it meets. -/
def Task.run (v : Vars) (conf : Conf) (o : BuildOutcome) (spawn : Option Proc) (now : Nat)
    (st : RunState) : Task → RunState × List Effect
  | .delayedBuild files isgenerate e =>
    NewWatcher.delayedBuild v conf o now st files isgenerate e
  | .Start appname => Bee.Start v conf st appname
  | .cmdRun addr _ => (Bee.cmdRun spawn st addr, [])
  | .cmdWait _ => (st, [])

/-! ## The goroutines around the tracked process -/

/-- The tasks the `go` statements of a trace start, in order. -/
def goTasks : List Effect → List Task
  | [] => []
  | .go t :: es => t :: goTasks es
  | _ :: es => goTasks es

/-- The tracked-process state together with the goroutines that were started
and have not run yet. -/
structure ProcSys where
  st : RunState
  pending : List Task
deriving DecidableEq, Repr

/-- The pending goroutine `t` runs to its end; the goroutines it starts become
pending. `none`: `t` is not pending. -/
def ProcSys.step (v : Vars) (conf : Conf) (o : BuildOutcome) (spawn : Option Proc)
    (now : Nat) (s : ProcSys) (t : Task) : Option ProcSys :=
  if t ∈ s.pending then
    let r := Task.run v conf o spawn now s.st t
    some { st := r.1, pending := s.pending.erase t ++ goTasks r.2 }
  else none

/-- Pending goroutines run one after the other in the order given. -/
def ProcSys.run (v : Vars) (conf : Conf) (o : BuildOutcome) (spawn : Option Proc)
    (now : Nat) (s : ProcSys) (ts : List Task) : Option ProcSys :=
  ts.foldlM (ProcSys.step v conf o spawn now) s

/-! ## Goroutines contending for the build lock -/

/-- The mutex `state` and, for every goroutine, the effects it has still to
perform. -/
structure Sys where
  locked : Bool
  rest : Nat → List Effect

/-- Goroutine `i` performs its next effect. `none`: it has finished, or it is
blocked in `state.Lock()` because the mutex is held. -/
def Sys.step (s : Sys) (i : Nat) : Option Sys :=
  match s.rest i with
  | [] => none
  | .lock :: t =>
    if s.locked then none else some { locked := true, rest := Function.update s.rest i t }
  | .unlock :: t => some { locked := false, rest := Function.update s.rest i t }
  | _ :: t => some { s with rest := Function.update s.rest i t }

/-- Nothing left touches the mutex: the goroutine is past its build. -/
def quiet (t : List Effect) : Bool := t.all (fun e => e != .lock && e != .unlock)

/-- The goroutine is inside `AutoBuild`, holding the lock: an unlock is still
to come, and no lock before it. -/
def building : List Effect → Bool
  | [] => false
  | e :: t => if e = .unlock then quiet t else e != .lock && building t

/-- The goroutine has a build still to do: its lock is still to come. -/
def waiting : List Effect → Bool
  | [] => false
  | e :: t => if e = .lock then building t else e != .unlock && waiting t

/-- The programs that run a build: `AutoBuild` called directly (the initial
build of `RunApp`) and the delayed-build task. -/
def IsBuildRun (t : List Effect) : Prop :=
  (∃ v conf o st files isgenerate, t = (AutoBuild v conf o st files isgenerate).2) ∨
  (∃ v conf o now st files isgenerate e,
    t = (NewWatcher.delayedBuild v conf o now st files isgenerate e).2)

/-- The states the goroutines can reach from an unlocked mutex, each goroutine
either idle or about to run a build. -/
inductive Reachable : Sys → Prop where
  | init (rest : Nat → List Effect) (h : ∀ i, rest i = [] ∨ IsBuildRun (rest i)) :
    Reachable { locked := false, rest := rest }
  | step (s s2 : Sys) (i : Nat) (hs : Reachable s) (h : s.step i = some s2) : Reachable s2

/-- The invariant of the goroutines that build: each is before, inside or past
its build; nobody is inside while the mutex is free; at most one is inside. -/
def LockInv (s : Sys) : Prop :=
  (∀ i, quiet (s.rest i) = true ∨ building (s.rest i) = true ∨ waiting (s.rest i) = true) ∧
  (s.locked = false → ∀ i, building (s.rest i) = false) ∧
  (∀ i j, building (s.rest i) = true → building (s.rest j) = true → i = j)


/-! ## Predicates on effects -/

/-- The effect is an entry into `Restart`. -/
def isRestartCall : Effect → Bool
  | .call fn _ => fn = "Restart"
  | _ => false

/-- The effect belongs to the process manager: an entry into `Restart`, `Kill`
or `Start`, a signal, a forced kill, or the `go Start(...)` statement. -/
def touchesProcess : Effect → Bool
  | .call fn _ => fn = "Restart" || fn = "Kill" || fn = "Start"
  | .signal _ _ => true
  | .processKill _ _ => true
  | .go (.Start _) => true
  | _ => false

/-- The kinds of effect `Kill` has. -/
def isKillEffect : Effect → Bool
  | .call fn _ => fn = "Kill"
  | .signal _ _ => true
  | .go (.cmdWait _) => true
  | .exited _ _ => true
  | .timeout _ => true
  | .log _ _ => true
  | .processKill _ _ => true
  | _ => false

/-- The effect is a run of the compile step (`go build ...`). -/
def isCompile : Effect → Bool
  | .run name args _ _ => name = "go" && args.head? = some "build"
  | _ => false

/-- The effect starts a goroutine (`go` statement). -/
def isGo : Effect → Bool
  | .go _ => true
  | _ => false

/-- The effect is a reload: a call of `sendReload` or a send to the hub. -/
def isReload : Effect → Bool
  | .call fn _ => fn = "sendReload"
  | .broadcast _ => true
  | _ => false

/-- The effect is a send to the hub. -/
def isBroadcast : Effect → Bool
  | .broadcast _ => true
  | _ => false

/-! ## Example configurations and states -/

/-- Package variables of a build of `app` on Linux; the lists of extensions
are the copies taken from the declared value of `config.Conf`. -/
def exVars : Vars :=
  { appname := "app", currpath := "/w", buildTags := "", buildLDFlags := "",
    runargs := "", GOOS := "linux", environ := [],
    watchExts := Conf.initial.WatchExts, watchExtsStatic := Conf.initial.WatchExtsStatic }

/-- The configuration as declared, but for live-reload switched on and the
pre-install step switched off. -/
def exConf : Conf :=
  { GoInstall := false, EnableReload := true, CmdArgs := [], Envs := [],
    WatchExts := [".go"], WatchExtsStatic := [".html", ".tpl", ".js", ".css"] }

/-- A tracked process that runs and exits at once when signalled. -/
def exRunning : RunState :=
  { cmd := some { addr := 0, Path := "./app", Args := ["./app"], Env := [],
                  Process := some 0 },
    procs := [{ alive := true, exitAfter := some 0, killFails := false, survives := false }],
    made := 1 }

/-- A tracked process that ignores the graceful signal, on which the forced
kill fails and which is still there afterwards. -/
def exStubborn : RunState :=
  { cmd := some { addr := 0, Path := "./app", Args := ["./app"], Env := [],
                  Process := some 0 },
    procs := [{ alive := true, exitAfter := none, killFails := true, survives := true }],
    made := 1 }

/-- A well-behaved new process. -/
def exProc : Proc :=
  { alive := true, exitAfter := some 0, killFails := false, survives := false }

/-- The compile step fails. -/
def exCompileFails : BuildOutcome :=
  { installErr := false, docsErr := false, buildErr := true, stderr := "main.go:1: error" }

/-- The documentation step fails. -/
def exDocsFail : BuildOutcome :=
  { installErr := false, docsErr := true, buildErr := false, stderr := "" }

/-- Every step succeeds. -/
def exAllGood : BuildOutcome :=
  { installErr := false, docsErr := false, buildErr := false, stderr := "" }

/-- A table that has recorded time 7 for `main.go`. -/
def exTable : EventTime := fun p => if p = "main.go" then some 7 else none

/-- A `.go` source event. -/
def exEvent : FsEvent := { Name := "main.go", Op := 2, desc := "\"main.go\": WRITE" }

/-- A static-file event. -/
def exStaticEvent : FsEvent := { Name := "index.html", Op := 2, desc := "\"index.html\": WRITE" }

/-- Two goroutines about to build. -/
def exSys0 : Sys :=
  { locked := false,
    rest := fun i => if i < 2 then (AutoBuild exVars exConf exCompileFails exRunning [] false).2
                     else [] }

/-- Goroutine 0 has entered `AutoBuild`. -/
def exSys1 : Sys := (exSys0.step 0).getD exSys0

/-- Goroutine 0 has taken the lock. -/
def exSys2 : Sys := (exSys1.step 0).getD exSys1

/-- Goroutine 1 has entered `AutoBuild` too and stands at `state.Lock()`. -/
def exSys3 : Sys := (exSys2.step 1).getD exSys2

/-! ## Further examples for the watcher -/

/-- The configuration after `LoadConfig` decoded a `bee.json` holding
`"watch_ext_static": [".tmp"]` and `"enable_reload": true`. -/
def exConfTmp : Conf :=
  { Conf.initial with WatchExtsStatic := [".tmp"], EnableReload := true }

/-- The package variables after that `bee.json` was decoded: `.tmp` was written
into the first place of the array `watchExtsStatic` shares with the
configuration. -/
def exVarsTmp : Vars :=
  { exVars with
    watchExts := packageCopy .beeJSON Conf.initial.WatchExts exConfTmp.WatchExts,
    watchExtsStatic :=
      packageCopy .beeJSON Conf.initial.WatchExtsStatic exConfTmp.WatchExtsStatic }

/-- The configuration after `LoadConfig` decoded a `Beefile` holding
`watch_ext: [".go", ".tmpl"]`, `watch_ext_static: [".vue"]` and
`enable_reload: true`. -/
def exConfBeefile : Conf :=
  { Conf.initial with
    WatchExts := [".go", ".tmpl"], WatchExtsStatic := [".vue"], EnableReload := true }

/-- The package variables after that `Beefile` was decoded: the lists of the
watcher are still the declared ones. -/
def exVarsBeefile : Vars :=
  { exVars with
    watchExts := packageCopy .Beefile Conf.initial.WatchExts exConfBeefile.WatchExts,
    watchExtsStatic :=
      packageCopy .Beefile Conf.initial.WatchExtsStatic exConfBeefile.WatchExtsStatic }

/-- An event on a file with the configured static extension `.vue`. -/
def exVueEvent : FsEvent := { Name := "app.vue", Op := 2, desc := "\"app.vue\": WRITE" }

/-- An event on a file with the configured watched extension `.tmpl`. -/
def exTmplEvent : FsEvent :=
  { Name := "views/index.tmpl", Op := 2, desc := "\"views/index.tmpl\": WRITE" }

/-- An event on an editor temp file. -/
def exTmpEvent : FsEvent := { Name := "a.tmp", Op := 2, desc := "\"a.tmp\": WRITE" }

/-- The build of one `AutoBuild` run succeeded: neither the documentation step
(when enabled) nor the compile step failed. -/
def buildSucceeded (o : BuildOutcome) (isgenerate : Bool) : Bool :=
  !(isgenerate && o.docsErr) && !o.buildErr

/-! ## Further examples for the process manager -/

/-- A tracked process that takes 12 seconds to react to the interrupt. -/
def exSlow : RunState :=
  { cmd := some { addr := 0, Path := "./app", Args := ["./app"], Env := [],
                  Process := some 0 },
    procs := [{ alive := true, exitAfter := some 12000, killFails := false,
                survives := false }],
    made := 1 }

/-- A second source event. -/
def exEventB : FsEvent := { Name := "b.go", Op := 2, desc := "\"b.go\": WRITE" }

/-- The watcher has started a delayed build for each of two events; no child
process exists yet. -/
def exProcSys : ProcSys :=
  { st := RunState.initial,
    pending := [.delayedBuild ["main.go"] false exEvent,
                .delayedBuild ["main.go"] false exEventB] }

/-- A schedule of the goroutines: the first build, the `Start` it launched, the
second build, and only then the `cmd.Run()` of the first `Start`; the second
`Start` and its `cmd.Run()` follow. -/
def exRace : List Task :=
  [.delayedBuild ["main.go"] false exEvent, .Start "app",
   .delayedBuild ["main.go"] false exEventB, .cmdRun 0 "./app",
   .Start "app", .cmdRun 1 "./app"]

/-! ## reload.go: the outbound pump -/

/-- The bytes `writePump` writes between the messages of one frame:
`[]byte("/n")` (reload.go line 113). -/
def writePump.separator : Message := "/n"

/-- The loop of reload.go lines 112-115: `n` times, write the separator and
the next message received from the queue, after `w` already written. `none`: a
receive finds the queue empty, which cannot happen while only the pump
receives and `n` is the length read before. -/
def writePump.drain : Nat → List Message → String → Option (String × List Message)
  | 0, buf, w => some (w, buf)
  | _ + 1, [], _ => none
  | n + 1, x :: buf, w => writePump.drain n buf (w ++ writePump.separator ++ x)

/-- The case `message, ok := <-c.send` of `writePump` with a message (reload.go
lines 97-119), every write succeeding: the payload of the text frame and the
queue afterwards. `arrived` are the messages the broker enqueues after
`len(c.send)` was read. `none`: the queue is empty (no message to take). -/
def wsClient.writePump (ch : Chan) (arrived : List Message) : Option (String × Chan) :=
  match ch.buf with
  | [] => none
  | m :: queued =>
    match writePump.drain queued.length (queued ++ arrived) m with
    | none => none
    | some (payload, left) => some (payload, { ch with buf := left })

/-- The messages of a frame after the first, each with the separator before
it. -/
def writePump.framed (ms : List Message) : String :=
  ms.foldr (fun x acc => writePump.separator ++ x ++ acc) ""

/-- The plain concatenation of messages, in order. -/
def concatMessages (ms : List Message) : String := ms.foldr (fun x acc => x ++ acc) ""

/-- A queue holding the two messages `a` and `b`. -/
def exQueueAB : Chan := { buf := ["a", "b"], cap := 256, closed := false }

/-! ## The hub together with the pumps that empty the queues -/

/-- The channel after a receive (`<-ch`) that found an element: the oldest
element is gone. -/
def Chan.pop (ch : Chan) : Chan := { ch with buf := ch.buf.tail }

/-- What happens to the queues: the broker loop handles an intent, or the pump
of a client receives the oldest message of its queue (`<-c.send`). -/
inductive HubEvent where
  | intent (i : Intent)
  | recv (c : wsClient)
deriving DecidableEq, Repr

/-- The hub state and, for every client, the messages its pump has received
so far, oldest first. -/
structure HubRun where
  hub : HubState
  taken : wsClient → List Message

/-- One event. `none`: the broker loop panics, or the receive finds the queue
empty. -/
def HubRun.step (s : HubRun) : HubEvent → Option HubRun
  | .intent i =>
    match wsBroker.runStep s.hub i with
    | none => none
    | some h => some { s with hub := h }
  | .recv c =>
    match (s.hub.send c).buf with
    | [] => none
    | m :: _ =>
      some { hub := { clients := s.hub.clients,
                      send := Function.update s.hub.send c (s.hub.send c).pop },
             taken := Function.update s.taken c (s.taken c ++ [m]) }

/-- A sequence of events, in order. -/
def HubRun.run (s : HubRun) (evs : List HubEvent) : Option HubRun :=
  evs.foldlM HubRun.step s

/-- Every message placed on the queue of `c` so far: those its pump received,
then those still queued. -/
def HubRun.placed (s : HubRun) (c : wsClient) : List Message :=
  s.taken c ++ (s.hub.send c).buf

/-- The messages broadcast by a sequence of events, in order. -/
def broadcastsOf : List HubEvent → List Message
  | [] => []
  | .intent (.broadcast m) :: evs => m :: broadcastsOf evs
  | _ :: evs => broadcastsOf evs

/-- Two registered clients with fresh queues, nothing received yet. -/
def exHubRun : HubRun :=
  { hub := { clients := [0, 1], send := fun _ => handleWsRequest.newSend },
    taken := fun _ => [] }

/-- Two broadcasts, with a receive by client 0 and the departure of client 1
in between. -/
def exEvents : List HubEvent :=
  [.intent (.broadcast "a"), .recv 0, .intent (.unregister 1), .intent (.broadcast "b")]

/-- The state after `exEvents`. -/
def exHubRunEnd : HubRun := (exHubRun.run exEvents).getD exHubRun

/-! ## Library functions on strings used by the utilities

Indexing a Go string yields bytes; the delimiters searched for below are all
ASCII, and an ASCII byte never occurs inside the UTF-8 encoding of another
character, so the searches are written over the characters of the text. -/

/-- Library function `strings.HasPrefix(s, prefix)`. -/
def HasPrefix (s pre : String) : Bool := pre.data.isPrefixOf s.data

/-- The scan of `strings.Replace(s, old, new, -1)` for a non-empty `old`:
matches are taken leftmost and do not overlap; `skip` counts the characters of
the current match still to be passed over. -/
def Replace.scan (old new : List Char) : List Char → Nat → List Char
  | [], _ => []
  | _ :: s, skip + 1 => Replace.scan old new s skip
  | c :: s, 0 =>
    if old.isPrefixOf (c :: s) then new ++ Replace.scan old new s (old.length - 1)
    else c :: Replace.scan old new s 0

/-- Library function `strings.Replace(s, old, new, -1)`; an empty `old` matches
before every character and at the end. -/
def Replace (s old new : String) : String :=
  if old = "" then String.mk (new.data ++ s.data.flatMap (fun c => c :: new.data))
  else String.mk (Replace.scan old.data new.data s.data 0)

/-- The scan of `strings.Split(s, sep)` for a non-empty `sep`; `cur` holds the
characters of the current piece, newest first. -/
def Split.scan (sep : List Char) : List Char → Nat → List Char → List String
  | [], _, cur => [String.mk cur.reverse]
  | _ :: s, skip + 1, cur => Split.scan sep s skip cur
  | c :: s, 0, cur =>
    if sep.isPrefixOf (c :: s) then
      String.mk cur.reverse :: Split.scan sep s (sep.length - 1) []
    else Split.scan sep s 0 (c :: cur)

/-- Library function `strings.Split(s, sep)`; an empty `sep` splits after every
character. -/
def Split (s sep : String) : List String :=
  if sep = "" then s.data.map (fun c => String.mk [c])
  else Split.scan sep.data s.data 0 []

/-- Library function `strings.TrimLeft(s, cutset)`: the leading characters that
occur in `cutset` are removed. -/
def TrimLeft (s cutset : String) : String :=
  String.mk (s.data.dropWhile (fun c => cutset.data.contains c))

/-- The comparison of `strings.Compare` on the remaining characters. -/
def Compare.chars : List Char → List Char → Int
  | [], [] => 0
  | [], _ :: _ => -1
  | _ :: _, [] => 1
  | a :: s, b :: t =>
    if a.toNat < b.toNat then -1
    else if b.toNat < a.toNat then 1
    else Compare.chars s t

/-- Library function `strings.Compare(a, b)`: lexicographic, `-1`, `0` or `1` (the
order of the bytes of UTF-8 text is the order of its characters). -/
def Compare (a b : String) : Int := Compare.chars a.data b.data

/-- The value of a decimal digit. -/
def digitVal (c : Char) : Option Nat :=
  if 48 ≤ c.toNat ∧ c.toNat ≤ 57 then some (c.toNat - 48) else none

/-- The value of a non-empty run of decimal digits; `none` is the syntax
error of `strconv`. -/
def parseDigits (ds : List Char) : Option Nat :=
  if ds = [] then none
  else ds.foldlM (fun acc c => (digitVal c).map (fun d => 10 * acc + d)) 0

/-- Library function `strconv.Atoi(s)`, the value only (every caller here drops
the error): an optional sign and decimal digits; `0` on a syntax error and the
nearest 64-bit value on a range error. -/
def Atoi (s : String) : Int :=
  match s.data with
  | '-' :: ds =>
    match parseDigits ds with
    | some n => - (Int.ofNat (min n (2 ^ 63)))
    | none => 0
  | '+' :: ds =>
    match parseDigits ds with
    | some n => Int.ofNat (min n (2 ^ 63 - 1))
    | none => 0
  | ds =>
    match parseDigits ds with
    | some n => Int.ofNat (min n (2 ^ 63 - 1))
    | none => 0

/-- The decimal digits of `n`, most significant first, using at most `fuel`
divisions. -/
def decimalDigits : Nat → Nat → List Char
  | 0, _ => []
  | fuel + 1, n =>
    if n < 10 then [Char.ofNat (48 + n)]
    else decimalDigits fuel (n / 10) ++ [Char.ofNat (48 + n % 10)]

/-- The text `s` padded on the left with `0` to `width` characters. -/
def zeroPad (width : Nat) (s : List Char) : List Char :=
  List.replicate (width - s.length) '0' ++ s

/-- Formatting verb `%04d` of `fmt.Sprintf`: at least four characters, zeros
after the sign. -/
def fmt04d (n : Int) : String :=
  if n < 0 then String.mk ('-' :: zeroPad 3 (decimalDigits 20 n.natAbs))
  else String.mk (zeroPad 4 (decimalDigits 20 n.natAbs))

/-! ## internal/pkg/command/cmd.go: VerCompare -/

/-- The loops `for _, v := range p { iv, _ := strconv.Atoi(v); ver =
fmt.Sprintf("%s%04d", ver, iv) }` of `VerCompare`, starting from `ver = ""`. -/
def VerCompare.pad (p : List String) : String :=
  p.foldl (fun ver v => ver ++ fmt04d (Atoi v)) ""

/-- Function `VerCompare` (cmd.go lines 49-69). -/
def VerCompare (ver1 ver2 : String) : Int :=
  let ver1 := TrimLeft ver1 "ver"
  let ver2 := TrimLeft ver2 "ver"
  let p1 := Split ver1 "."
  let p2 := Split ver2 "."
  Compare (VerCompare.pad p1) (VerCompare.pad p2)

/-! ## cmd/commands/command.go: SetOutput and Out -/

/-- The dynamic value held by a non-nil `io.Writer`: the standard error
stream, the colour writer made by `colors.NewColorWriter` around a writer, or
some other writer. -/
inductive Writer where
  | stderr
  | colorWriter (w : Writer)
  | other (id : Nat)
deriving DecidableEq, Repr

/-- The field `output *io.Writer` of a `Command`: the outer `none` is the nil
pointer, the inner `none` the nil interface value it may point to. The other
fields of `Command` are not read by `SetOutput` and `Out`. -/
structure Command where
  output : Option (Option Writer)
deriving DecidableEq, Repr

/-- A command as declared: `output` is the zero value, a nil pointer. -/
def Command.zero : Command := { output := none }

/-- Method `SetOutput` (command.go lines 61-66): `c.output = &output`, the address
of the parameter, whatever it holds. -/
def Command.SetOutput (_c : Command) (output : Option Writer) : Command :=
  { output := some output }

/-- Method `Out` (command.go lines 68-77); the result is an `io.Writer`, `none`
being the nil interface. -/
def Command.Out (c : Command) : Option Writer :=
  match c.output with
  | some w => w
  | none => some (.colorWriter .stderr)

/-! ## utils/notification.go: MacOSVersionSupport -/

/-- Function `MacOSVersionSupport` (notification.go lines 83-94) on the output
`check` of `sw_vers -productVersion`; `none` is the index-out-of-range panic
of `version[1]`. -/
def MacOSVersionSupport (check : String) : Option Bool :=
  let version := Split check "."
  match version[0]?, version[1]? with
  | some v0, some v1 =>
    let major := Atoi v0
    let minor := Atoi v1
    if major < 10 ∨ (major = 10 ∧ minor < 9) then some false else some true
  | _, _ => none

/-! ## cmd/commands/run/run.go: isExcluded -/

/-- The loop of `isExcluded` (run.go lines 272-291) over the remaining
excluded paths; `abs` is `filepath.Abs`, `none` being its error. The log lines
are left out. -/
def isExcluded (abs : String → Option String) :
    List String → String → Bool
  | [], _ => false
  | p :: rest, filePath =>
    match abs p with
    | none => isExcluded abs rest filePath
    | some absP =>
      match abs filePath with
      | none => false
      | some absFilePath =>
        if HasPrefix absFilePath absP then true
        else isExcluded abs rest filePath

/-- On a path that is already absolute and clean `filepath.Abs` returns it
unchanged. -/
def absOfClean (p : String) : Option String := some p

/-! ## cmd/commands/bale/bale.go: resource names -/

/-- The name conversion of `walkFn` (bale.go lines 171-180). -/
def walkFn.convert (GOOS : String) (resPath : String) : String :=
  let resPath := Replace resPath "_" "_0_"
  let resPath := Replace resPath "." "_1_"
  let resPath := Replace resPath "-" "_2_"
  let resPath := Replace resPath " " "_3_"
  let sep := if GOOS = "windows" then "\\" else "/"
  Replace resPath sep "_4_"

/-- Function `getFilePath` of the generated unpack code (bale.go lines
131-138, inside `BaleHeader`). -/
def getFilePath (name : String) : String :=
  let name := Replace name "_4_" "/"
  let name := Replace name "_3_" " "
  let name := Replace name "_2_" "-"
  let name := Replace name "_1_" "."
  let name := Replace name "_0_" "_"
  name

/-! ## internal/pkg/utils/dsn.go: ParseDSN -/

/-- The struct `DSN` (dsn.go lines 11-19); `Params` is `none` while the map is
nil and otherwise lists the keys with their values. -/
structure DSN where
  User : String := ""
  Passwd : String := ""
  Net : String := ""
  Addr : String := ""
  DBName : String := ""
  Params : Option (List (String × String)) := none
deriving DecidableEq, Repr

/-- The errors `ParseDSN` returns: the three declared in dsn.go lines 22-29 and
the one handed on from `url.QueryUnescape`. -/
inductive DSNError where
  | errInvalidDSNUnescaped
  | errInvalidDSNAddr
  | errInvalidDSNNoSlash
  | escapeError
deriving DecidableEq, Repr

/-- A downward loop `for i := n - 1; i >= 0; i-- { if dsn[i] == c { ... break } }`:
the index at which it stops, `none` when it runs down to `-1`. -/
def scanDown (s : List Char) (c : Char) : Nat → Option Nat
  | 0 => none
  | n + 1 => if s[n]? = some c then some n else scanDown s c n

/-- An upward loop `for k = lo; k < hi; k++ { if dsn[k] == c { ... break } }` with
`fuel = hi - lo` iterations left: the value of `k` when it ends. -/
def scanUp (s : List Char) (c : Char) : Nat → Nat → Nat
  | 0, k => k
  | fuel + 1, k => if s[k]? = some c then k else scanUp s c fuel (k + 1)

/-- The slice `dsn[lo:hi]`. -/
def slice (s : List Char) (lo hi : Nat) : String :=
  String.mk ((s.drop lo).take (hi - lo))

/-- The assignment `m[k] = v` on a map. -/
def mapSet (m : List (String × String)) (k v : String) : List (String × String) :=
  if m.any (fun e => e.1 = k) then m.map (fun e => if e.1 = k then (k, v) else e)
  else m ++ [(k, v)]

/-- Library call `strings.SplitN(v, "=", 2)` when it yields two pieces: the text
before the first `=` and the text after it. -/
def splitEq : List Char → List Char → Option (String × String)
  | [], _ => none
  | c :: s, cur =>
    if c = '=' then some (String.mk cur.reverse, String.mk s) else splitEq s (c :: cur)

/-- The loop of `parseDSNParams` (dsn.go lines 104-119) over the remaining
pieces: the configuration afterwards and the error returned, if any.
`unescape` is `url.QueryUnescape`, `none` being its error (the value it then
returns is empty). -/
def parseDSNParams.loop (unescape : String → Option String) :
    DSN → List String → DSN × Option DSNError
  | cfg, [] => (cfg, none)
  | cfg, v :: rest =>
    match splitEq v.data [] with
    | none => parseDSNParams.loop unescape cfg rest
    | some (key, value) =>
      let m := cfg.Params.getD []
      match unescape value with
      | none => ({ cfg with Params := some (mapSet m key "") }, some .escapeError)
      | some val =>
        parseDSNParams.loop unescape { cfg with Params := some (mapSet m key val) } rest

/-- Function `parseDSNParams` (dsn.go lines 104-119). -/
def parseDSNParams (unescape : String → Option String) (cfg : DSN) (params : String) :
    DSN × Option DSNError :=
  parseDSNParams.loop unescape cfg (Split params "&")

/-- The part of `ParseDSN` left of the slash at index `i > 0` (dsn.go lines
46-80): user, password, network and address, or the error returned. -/
def ParseDSN.left (s : List Char) (i : Nat) : Except DSNError DSN :=
  -- for j = i; j >= 0; j--  (lines 49-63); j1 is j + 1 after the loop
  let r : DSN × Nat :=
    match scanDown s '@' (i + 1) with
    | some j =>
      -- for k = 0; k < j; k++  (lines 53-58)
      let k := scanUp s ':' j 0
      let cfg : DSN := if k < j then { Passwd := slice s (k + 1) j } else {}
      ({ cfg with User := slice s 0 k }, j + 1)
    | none => ({}, 0)
  let cfg := r.1
  let j1 := r.2
  -- for k = j + 1; k < i; k++  (lines 67-78)
  let k := scanUp s '(' (i - j1) j1
  if k < i then
    if s[i - 1]? ≠ some ')' then
      if Contains (slice s (k + 1) i) ")" then .error .errInvalidDSNUnescaped
      else .error .errInvalidDSNAddr
    else .ok { cfg with Addr := slice s (k + 1) (i - 1), Net := slice s j1 k }
  else .ok { cfg with Net := slice s j1 k }

/-- Function `ParseDSN` (dsn.go lines 32-101): the two results `cfg` (`none` is nil)
and `err` (`none` is nil). `unescape` is `url.QueryUnescape`. -/
def ParseDSN (unescape : String → Option String) (dsn : String) :
    Option DSN × Option DSNError :=
  let s := dsn.data
  -- for i := len(dsn) - 1; i >= 0; i--  (line 37)
  match scanDown s '/' s.length with
  | none =>
    if s.length > 0 then (none, some .errInvalidDSNNoSlash) else (some {}, none)
  | some i =>
    match (if i > 0 then ParseDSN.left s i else .ok {}) with
    | .error e => (none, some e)
    | .ok cfg =>
      -- for j = i + 1; j < len(dsn); j++  (lines 83-91)
      let j := scanUp s '?' (s.length - (i + 1)) (i + 1)
      if j < s.length then
        match parseDSNParams unescape cfg (slice s (j + 1) s.length) with
        | (cfg, some e) => (some cfg, some e)
        | (cfg, none) => (some { cfg with DBName := slice s (i + 1) j }, none)
      else (some { cfg with DBName := slice s (i + 1) j }, none)

/-- A decoder standing for `url.QueryUnescape` in the examples: it accepts
every text without `%` unchanged but for `+`, which becomes a space. -/
def exUnescape (v : String) : Option String :=
  if v.data.contains '%' then none
  else some (String.mk (v.data.map (fun c => if c = '+' then ' ' else c)))

/-! ## reload.go: the hub over a whole run -/

/-- The clients registered by a sequence of intents, in order. -/
def registersOf : List Intent → List wsClient
  | [] => []
  | .register c :: is => c :: registersOf is
  | _ :: is => registersOf is

/-- Every registered client is a distinct key with an open queue of capacity
256 holding at most 256 messages. -/
def HubState.Safe (h : HubState) : Prop :=
  h.clients.Nodup ∧
    ∀ c ∈ h.clients, (h.send c).closed = false ∧ (h.send c).cap = sendCap ∧
      (h.send c).buf.length ≤ sendCap

/-- The hub `startReloadServer` makes (`clients: make(map[*wsClient]bool)`), with
every client that will connect holding the queue `handleWsRequest` gives it. -/
def hubStart : HubState := { clients := [], send := fun _ => handleWsRequest.newSend }

/-- Three clients come, a broadcast reaches them, one leaves, and leaves again. -/
def exIntents : List Intent :=
  [.register 0, .register 1, .broadcast "a", .unregister 1, .register 2,
    .broadcast "b", .unregister 1]

/-- The intents `is` may follow the state `h`: the registered clients are safe,
no client is registered twice by `is` or is registered already, and every
client `is` registers holds an open queue of capacity 256. -/
def HubState.Admits (h : HubState) (is : List Intent) : Prop :=
  h.Safe ∧ (registersOf is).Nodup ∧
    ∀ c ∈ registersOf is, c ∉ h.clients ∧ (h.send c).closed = false ∧
      (h.send c).cap = sendCap ∧ (h.send c).buf.length ≤ sendCap

/-! # Theorems -/

/-! ## Lemmas on the broadcast loop -/

theorem mem_deleteClient (cs : List wsClient) (c x : wsClient) :
    x ∈ deleteClient cs c ↔ x ∈ cs ∧ x ≠ c := by
  simp [deleteClient]

/-- The outcome of the broadcast loop body for a client with an open queue of
capacity 256. -/
theorem broadcastTo_open (m : Message) (h : HubState) (c : wsClient)
    (ho : (h.send c).closed = false) (hc : (h.send c).cap = sendCap) :
    broadcastTo m h c =
      if (h.send c).buf.length < sendCap then
        some { h with send := Function.update h.send c ((h.send c).push m) }
      else
        some { clients := deleteClient h.clients c,
               send := Function.update h.send c (h.send c).shut } := by
  unfold broadcastTo Chan.trySend Chan.close
  simp only [ho, hc]
  by_cases hl : (h.send c).buf.length < sendCap <;> simp [hl]

theorem foldlM_broadcastTo (m : Message) (l : List wsClient) :
    ∀ h : HubState, l.Nodup →
      (∀ c ∈ l, (h.send c).closed = false ∧ (h.send c).cap = sendCap) →
      l.foldlM (broadcastTo m) h = some (broadcastAll m h l) := by
  induction l with
  | nil =>
    intro h _ _
    simp [broadcastAll]
  | cons c l ih =>
    intro h hnd hop
    have hcl : c ∉ l := (List.nodup_cons.mp hnd).1
    have hnd2 : l.Nodup := (List.nodup_cons.mp hnd).2
    have hc := hop c (List.mem_cons_self c l)
    rw [List.foldlM_cons, broadcastTo_open m h c hc.1 hc.2]
    by_cases hl : (h.send c).buf.length < sendCap
    · simp only [hl, if_true, Option.some_bind, Option.bind_eq_bind]
      rw [ih _ hnd2]
      · simp only [broadcastAll, Option.some.injEq, HubState.mk.injEq]
        constructor
        · apply List.filter_congr
          intro x _
          by_cases hx : x = c
          · subst hx; simp [hcl, hl]
          · simp [Function.update_noteq hx, hx]
        · funext x
          by_cases hx : x = c
          · subst hx; simp [hcl, hl]
          · simp [Function.update_noteq hx, hx]
      · intro x hx
        have hxc : x ≠ c := fun e => hcl (e ▸ hx)
        simpa [Function.update_noteq hxc] using hop x (List.mem_cons_of_mem c hx)
    · simp only [hl, if_false, Option.some_bind, Option.bind_eq_bind]
      rw [ih _ hnd2]
      · simp only [broadcastAll, Option.some.injEq, HubState.mk.injEq]
        constructor
        · simp only [deleteClient, List.filter_filter]
          apply List.filter_congr
          intro x _
          by_cases hx : x = c
          · subst hx; simp [hl]
          · simp [Function.update_noteq hx, hx]
        · funext x
          by_cases hx : x = c
          · subst hx; simp [hcl, hl]
          · simp [Function.update_noteq hx, hx]
      · intro x hx
        have hxc : x ≠ c := fun e => hcl (e ▸ hx)
        simpa [Function.update_noteq hxc] using hop x (List.mem_cons_of_mem c hx)

theorem length_deleteClient (cs : List wsClient) (c : wsClient) (hnd : cs.Nodup)
    (hc : c ∈ cs) : (deleteClient cs c).length + 1 = cs.length := by
  have he : deleteClient cs c = cs.erase c := by
    rw [hnd.erase_eq_filter]
    rfl
  rw [he, List.length_erase_of_mem hc]
  have : 0 < cs.length := List.length_pos_of_mem hc
  omega

theorem hubOneFull_registered : hubOneFull.Registered := by
  refine ⟨by decide, ?_⟩
  intro c _
  by_cases h1 : c = 1
  · subst h1
    exact ⟨rfl, rfl⟩
  · have hs : hubOneFull.send c = handleWsRequest.newSend := by simp [hubOneFull, h1]
    rw [hs]
    exact ⟨rfl, rfl⟩

/-! ## Theorems on the broker -/

/-- C1: processing a broadcast of `m` appends `m` to the tail of the queue of
every registered client holding fewer than 256 messages and keeps it
registered; every registered client whose queue holds 256 messages is removed
from the set and its queue is closed without `m`; when exactly one of the `N`
clients is full, it alone is unregistered and the other `N-1` receive `m`. -/
theorem broadcast_fans_out (h : HubState) (m : Message) (hreg : h.Registered) :
    ∃ h2, wsBroker.runStep h (.broadcast m) = some h2 ∧
      (∀ c ∈ h.clients, (h.send c).buf.length < 256 →
        c ∈ h2.clients ∧ (h2.send c).buf = (h.send c).buf ++ [m] ∧
          (h2.send c).closed = false) ∧
      (∀ c ∈ h.clients, (h.send c).buf.length = 256 →
        c ∉ h2.clients ∧ (h2.send c).closed = true ∧
          (h2.send c).buf = (h.send c).buf) ∧
      (∀ c, c ∈ h2.clients → c ∈ h.clients) ∧
      (∀ c, c ∉ h.clients → h2.send c = h.send c) ∧
      (∀ C ∈ h.clients, (h.send C).buf.length = 256 →
        (∀ c ∈ h.clients, c ≠ C → (h.send c).buf.length < 256) →
        C ∉ h2.clients ∧ h2.clients.length + 1 = h.clients.length ∧
          ∀ c ∈ h.clients, c ≠ C →
            c ∈ h2.clients ∧ (h2.send c).buf = (h.send c).buf ++ [m]) := by
  obtain ⟨hnd, hop⟩ := hreg
  refine ⟨broadcastAll m h h.clients, foldlM_broadcastTo m h.clients h hnd hop,
    ?_, ?_, ?_, ?_, ?_⟩
  · intro c hc hl
    have hl2 : (h.send c).buf.length < sendCap := hl
    simp [broadcastAll, hc, hl2, Chan.push, (hop c hc).1]
  · intro c hc hl
    have hl2 : ¬ (h.send c).buf.length < sendCap := by simp [sendCap, hl]
    simp [broadcastAll, hc, hl2, Chan.shut]
  · intro c hc
    exact (List.mem_filter.mp hc).1
  · intro c hc
    simp [broadcastAll, hc]
  · intro C hC hfull hrest
    have hC2 : ¬ (h.send C).buf.length < sendCap := by simp [sendCap, hfull]
    have hcl : (broadcastAll m h h.clients).clients = deleteClient h.clients C := by
      simp only [broadcastAll, deleteClient]
      apply List.filter_congr
      intro x hx
      by_cases hxC : x = C
      · subst hxC; simp [hx, hC2]
      · have : (h.send x).buf.length < sendCap := hrest x hx hxC
        simp [hx, hxC, this]
    refine ⟨?_, ?_, ?_⟩
    · rw [hcl, mem_deleteClient]; simp
    · rw [hcl]; exact length_deleteClient h.clients C hnd hC
    · intro c hc hcC
      have hl2 : (h.send c).buf.length < sendCap := hrest c hc hcC
      refine ⟨?_, ?_⟩
      · rw [hcl, mem_deleteClient]; exact ⟨hc, hcC⟩
      · simp [broadcastAll, hc, hl2, Chan.push]

/-- Witness of `broadcast_fans_out` on three clients of which client `1` is
full. -/
theorem broadcast_fans_out_witness :
    hubOneFull.Registered ∧
    ∃ h2, wsBroker.runStep hubOneFull (.broadcast "r") = some h2 ∧
      (∀ c ∈ hubOneFull.clients, (hubOneFull.send c).buf.length < 256 →
        c ∈ h2.clients ∧ (h2.send c).buf = (hubOneFull.send c).buf ++ ["r"] ∧
          (h2.send c).closed = false) ∧
      (∀ c ∈ hubOneFull.clients, (hubOneFull.send c).buf.length = 256 →
        c ∉ h2.clients ∧ (h2.send c).closed = true ∧
          (h2.send c).buf = (hubOneFull.send c).buf) ∧
      (∀ c, c ∈ h2.clients → c ∈ hubOneFull.clients) ∧
      (∀ c, c ∉ hubOneFull.clients → h2.send c = hubOneFull.send c) ∧
      (∀ C ∈ hubOneFull.clients, (hubOneFull.send C).buf.length = 256 →
        (∀ c ∈ hubOneFull.clients, c ≠ C → (hubOneFull.send c).buf.length < 256) →
        C ∉ h2.clients ∧ h2.clients.length + 1 = hubOneFull.clients.length ∧
          ∀ c ∈ hubOneFull.clients, c ≠ C →
            c ∈ h2.clients ∧ (h2.send c).buf = (hubOneFull.send c).buf ++ ["r"]) :=
  ⟨hubOneFull_registered, broadcast_fans_out hubOneFull "r" hubOneFull_registered⟩

/-- C2: processing `unregister(c)` for a registered `c` removes `c`, closes its
queue (contents kept) and leaves the membership and the queue of every other
client unchanged; for an unregistered `c` the hub state is unchanged; so
unregistering twice is the same as unregistering once. -/
theorem unregister_frame (h : HubState) (c : wsClient)
    (hopen : c ∈ h.clients → (h.send c).closed = false) :
    (c ∈ h.clients →
      ∃ h2, wsBroker.runStep h (.unregister c) = some h2 ∧
        c ∉ h2.clients ∧ (h2.send c).closed = true ∧
        (h2.send c).buf = (h.send c).buf ∧
        ∀ d, d ≠ c → (d ∈ h2.clients ↔ d ∈ h.clients) ∧ h2.send d = h.send d) ∧
    (c ∉ h.clients → wsBroker.runStep h (.unregister c) = some h) ∧
    wsBroker.run h [.unregister c, .unregister c] = wsBroker.run h [.unregister c] := by
  by_cases hc : c ∈ h.clients
  · have ho := hopen hc
    have hstep : wsBroker.runStep h (.unregister c) =
        some { clients := deleteClient h.clients c,
               send := Function.update h.send c (h.send c).shut } := by
      simp [wsBroker.runStep, hc, Chan.close, ho]
    refine ⟨fun _ => ⟨_, hstep, ?_, ?_, ?_, ?_⟩, fun hn => absurd hc hn, ?_⟩
    · simp [mem_deleteClient]
    · simp [Chan.shut]
    · simp [Chan.shut]
    · intro d hd
      simp [mem_deleteClient, hd, Function.update_noteq hd]
    · have hstep2 : wsBroker.runStep
          { clients := deleteClient h.clients c,
            send := Function.update h.send c (h.send c).shut } (.unregister c) =
          some { clients := deleteClient h.clients c,
                 send := Function.update h.send c (h.send c).shut } := by
        simp [wsBroker.runStep, mem_deleteClient]
      simp only [wsBroker.run, List.foldlM_cons, List.foldlM_nil, hstep, hstep2,
        Option.bind_eq_bind, Option.some_bind, Option.pure_def]
  · have hstep : wsBroker.runStep h (.unregister c) = some h := by
      simp [wsBroker.runStep, hc]
    refine ⟨fun hin => absurd hin hc, fun _ => hstep, ?_⟩
    simp [wsBroker.run, hstep]

/-- Witness of `unregister_frame`: unregistering the full client `1`. -/
theorem unregister_frame_witness :
    (1 ∈ hubOneFull.clients → (hubOneFull.send 1).closed = false) ∧
    ((1 ∈ hubOneFull.clients →
      ∃ h2, wsBroker.runStep hubOneFull (.unregister 1) = some h2 ∧
        1 ∉ h2.clients ∧ (h2.send 1).closed = true ∧
        (h2.send 1).buf = (hubOneFull.send 1).buf ∧
        ∀ d, d ≠ 1 → (d ∈ h2.clients ↔ d ∈ hubOneFull.clients) ∧
          h2.send d = hubOneFull.send d) ∧
    (1 ∉ hubOneFull.clients → wsBroker.runStep hubOneFull (.unregister 1) = some hubOneFull) ∧
    wsBroker.run hubOneFull [.unregister 1, .unregister 1] =
      wsBroker.run hubOneFull [.unregister 1]) :=
  ⟨fun _ => rfl, unregister_frame hubOneFull 1 (fun _ => rfl)⟩

/-! ## AutoBuild -/

theorem Kill_untracked (v : Vars) (st : RunState) (h : st.tracked = none) :
    Kill v st = (st, [.call "Kill" []]) := by
  simp [Kill, h]

theorem Kill_exited (v : Vars) (st : RunState) (pid d : Nat) (h : st.tracked = some pid)
    (hd : Kill.inTime v (st.proc pid) = some d) :
    Kill v st = (st.setAlive pid false,
      [.call "Kill" [], .signal pid (if v.GOOS = "windows" then "kill" else "interrupt"),
        .go (.cmdWait pid), .exited pid d]) := by
  simp [Kill, h, hd]

theorem Kill_timeout (v : Vars) (st : RunState) (pid : Nat) (h : st.tracked = some pid)
    (hd : Kill.inTime v (st.proc pid) = none) :
    Kill v st = (st.setAlive pid (st.proc pid).survives,
      [.call "Kill" [], .signal pid (if v.GOOS = "windows" then "kill" else "interrupt"),
        .go (.cmdWait pid), .timeout killWait, .log "Info" "Timeout. Force kill cmd process",
        .processKill pid (st.proc pid).killFails] ++
      (if (st.proc pid).killFails then
        [.log "Error" "Error while killing cmd process"] else [])) := by
  simp [Kill, h, hd]

theorem Kill_effects (v : Vars) (st : RunState) :
    ∀ e ∈ (Kill v st).2, isKillEffect e = true := by
  cases h : st.tracked with
  | none => simp [Kill_untracked v st h, isKillEffect]
  | some pid =>
    cases hd : Kill.inTime v (st.proc pid) with
    | some d => simp [Kill_exited v st pid d h hd, isKillEffect]
    | none =>
      rw [Kill_timeout v st pid h hd]
      cases (st.proc pid).killFails <;> simp [isKillEffect]

/-- C3: when the compile step fails, `AutoBuild` reports the captured standard
error through `Notify` with title "Build Failed" and returns (the deferred
unlock is its last effect) without `Restart`: no effect of `Restart`, `Kill`
or `Start` occurs and the tracked process state is the one before the run. -/
theorem autobuild_compile_failure (v : Vars) (conf : Conf) (o : BuildOutcome) (st : RunState)
    (files : List String) (isgenerate : Bool)
    (hdocs : isgenerate = true → o.docsErr = false) (hbuild : o.buildErr = true) :
    Effect.run "go" (buildArgs v files) (v.environ ++ ["GOGC=off"]) true ∈
        (AutoBuild v conf o st files isgenerate).2 ∧
    Effect.notify o.stderr "Build Failed" ∈ (AutoBuild v conf o st files isgenerate).2 ∧
    (AutoBuild v conf o st files isgenerate).2.getLast? = some Effect.unlock ∧
    (∀ e ∈ (AutoBuild v conf o st files isgenerate).2, touchesProcess e = false) ∧
    (AutoBuild v conf o st files isgenerate).1 = st ∧
    (AutoBuild v conf o st files isgenerate).1.cmd = st.cmd := by
  cases isgenerate with
  | false =>
    cases hg : conf.GoInstall <;>
      simp [AutoBuild, AutoBuild.body, hbuild, hg, touchesProcess]
  | true =>
    have hd := hdocs rfl
    cases hg : conf.GoInstall <;>
      simp [AutoBuild, AutoBuild.body, hbuild, hd, hg, touchesProcess]

/-- Witness of `autobuild_compile_failure`: a failing compile while a process
runs. -/
theorem autobuild_compile_failure_witness :
    (false = true → exCompileFails.docsErr = false) ∧ exCompileFails.buildErr = true ∧
    (Effect.run "go" (buildArgs exVars ["main.go"]) (exVars.environ ++ ["GOGC=off"]) true ∈
        (AutoBuild exVars exConf exCompileFails exRunning ["main.go"] false).2 ∧
    Effect.notify exCompileFails.stderr "Build Failed" ∈
        (AutoBuild exVars exConf exCompileFails exRunning ["main.go"] false).2 ∧
    (AutoBuild exVars exConf exCompileFails exRunning ["main.go"] false).2.getLast? =
        some Effect.unlock ∧
    (∀ e ∈ (AutoBuild exVars exConf exCompileFails exRunning ["main.go"] false).2,
        touchesProcess e = false) ∧
    (AutoBuild exVars exConf exCompileFails exRunning ["main.go"] false).1 = exRunning ∧
    (AutoBuild exVars exConf exCompileFails exRunning ["main.go"] false).1.cmd =
        exRunning.cmd) :=
  ⟨(fun h => nomatch h), rfl,
    autobuild_compile_failure exVars exConf exCompileFails exRunning ["main.go"] false
      (fun h => nomatch h) rfl⟩

/-- C4: with documentation generation enabled, a failing documentation step
ends the job before the compile step: `go build` is not run, no effect of
`Restart`, `Kill` or `Start` occurs, and the tracked process state is
unchanged; the failure is reported through `Notify`. -/
theorem autobuild_docs_failure (v : Vars) (conf : Conf) (o : BuildOutcome) (st : RunState)
    (files : List String) (hdocs : o.docsErr = true) :
    Effect.run "bee" ["generate", "docs"] (v.environ ++ ["GOGC=off"]) true ∈
        (AutoBuild v conf o st files true).2 ∧
    Effect.notify "" "Failed to generate the docs." ∈ (AutoBuild v conf o st files true).2 ∧
    (∀ e ∈ (AutoBuild v conf o st files true).2, isCompile e = false) ∧
    (∀ e ∈ (AutoBuild v conf o st files true).2, touchesProcess e = false) ∧
    (AutoBuild v conf o st files true).2.getLast? = some Effect.unlock ∧
    (AutoBuild v conf o st files true).1 = st := by
  cases hg : conf.GoInstall <;>
    simp [AutoBuild, AutoBuild.body, hdocs, hg, touchesProcess, isCompile]

/-- Witness of `autobuild_docs_failure`. -/
theorem autobuild_docs_failure_witness :
    exDocsFail.docsErr = true ∧
    (Effect.run "bee" ["generate", "docs"] (exVars.environ ++ ["GOGC=off"]) true ∈
        (AutoBuild exVars exConf exDocsFail exRunning ["main.go"] true).2 ∧
    Effect.notify "" "Failed to generate the docs." ∈
        (AutoBuild exVars exConf exDocsFail exRunning ["main.go"] true).2 ∧
    (∀ e ∈ (AutoBuild exVars exConf exDocsFail exRunning ["main.go"] true).2,
        isCompile e = false) ∧
    (∀ e ∈ (AutoBuild exVars exConf exDocsFail exRunning ["main.go"] true).2,
        touchesProcess e = false) ∧
    (AutoBuild exVars exConf exDocsFail exRunning ["main.go"] true).2.getLast? =
        some Effect.unlock ∧
    (AutoBuild exVars exConf exDocsFail exRunning ["main.go"] true).1 = exRunning) :=
  ⟨rfl, autobuild_docs_failure exVars exConf exDocsFail exRunning ["main.go"] rfl⟩

theorem buildArgs_head (v : Vars) (files : List String) :
    ∃ more, buildArgs v files = "build" :: "-o" :: binaryName v :: more := by
  unfold buildArgs
  by_cases ht : v.buildTags = "" <;> by_cases hl : v.buildLDFlags = "" <;> simp [ht, hl]

theorem Restart_restartCalls (v : Vars) (st : RunState) (n : String) :
    (Restart v st n).2.filter isRestartCall = [.call "Restart" [n]] := by
  have hk : (Kill v st).2.filter isRestartCall = [] := by
    rw [List.filter_eq_nil_iff]
    intro e he
    have h := Kill_effects v st e he
    cases e <;> simp_all [isKillEffect, isRestartCall]
  simp [Restart, List.filter_append, hk, isRestartCall, List.filter_cons]

/-- C5: when the documentation step (if enabled) and the compile step succeed,
`Restart` is entered exactly once, with the name given to `-o` (`appname`,
with ".exe" appended on Windows), and the pre-install step (run or not,
failed or not) changes neither that nor the resulting process state. -/
theorem autobuild_success_restarts_once (v : Vars) (conf : Conf) (o : BuildOutcome)
    (st : RunState) (files : List String) (isgenerate : Bool)
    (hdocs : isgenerate = true → o.docsErr = false) (hbuild : o.buildErr = false) :
    (AutoBuild v conf o st files isgenerate).2.filter isRestartCall =
        [.call "Restart" [binaryName v]] ∧
    (∃ more, buildArgs v files = "build" :: "-o" :: binaryName v :: more) ∧
    Effect.run "go" (buildArgs v files) (v.environ ++ ["GOGC=off"]) false ∈
        (AutoBuild v conf o st files isgenerate).2 ∧
    binaryName v = (if v.GOOS = "windows" then v.appname ++ ".exe" else v.appname) ∧
    (AutoBuild v conf o st files isgenerate).1 = (Restart v st (binaryName v)).1 ∧
    (∀ (b g : Bool),
      (AutoBuild v { conf with GoInstall := g } { o with installErr := b } st files
          isgenerate).2.filter isRestartCall =
        (AutoBuild v conf o st files isgenerate).2.filter isRestartCall ∧
      (AutoBuild v { conf with GoInstall := g } { o with installErr := b } st files
          isgenerate).1 = (AutoBuild v conf o st files isgenerate).1) := by
  have key : ∀ (g : Bool) (b : Bool),
      (AutoBuild v { conf with GoInstall := g } { o with installErr := b } st files
          isgenerate).2.filter isRestartCall = [.call "Restart" [binaryName v]] ∧
      Effect.run "go" (buildArgs v files) (v.environ ++ ["GOGC=off"]) false ∈
        (AutoBuild v { conf with GoInstall := g } { o with installErr := b } st files
          isgenerate).2 ∧
      (AutoBuild v { conf with GoInstall := g } { o with installErr := b } st files
          isgenerate).1 = (Restart v st (binaryName v)).1 := by
    intro g b
    cases isgenerate with
    | false =>
      cases g <;>
        simp [AutoBuild, AutoBuild.body, hbuild, List.filter_append, Restart_restartCalls,
          isRestartCall,
          List.filter_cons]
    | true =>
      have hd := hdocs rfl
      cases g <;>
        simp [AutoBuild, AutoBuild.body, hbuild, hd, List.filter_append, Restart_restartCalls,
          isRestartCall,
          List.filter_cons]
  have self := key conf.GoInstall o.installErr
  refine ⟨self.1, buildArgs_head v files, self.2.1, rfl, self.2.2, ?_⟩
  intro b g
  exact ⟨(key g b).1.trans self.1.symm, (key g b).2.2.trans self.2.2.symm⟩

/-- Witness of `autobuild_success_restarts_once`. -/
theorem autobuild_success_restarts_once_witness :
    (false = true → exAllGood.docsErr = false) ∧ exAllGood.buildErr = false ∧
    ((AutoBuild exVars exConf exAllGood exRunning ["main.go"] false).2.filter isRestartCall =
        [.call "Restart" [binaryName exVars]] ∧
    (∃ more, buildArgs exVars ["main.go"] = "build" :: "-o" :: binaryName exVars :: more) ∧
    Effect.run "go" (buildArgs exVars ["main.go"]) (exVars.environ ++ ["GOGC=off"]) false ∈
        (AutoBuild exVars exConf exAllGood exRunning ["main.go"] false).2 ∧
    binaryName exVars =
        (if exVars.GOOS = "windows" then exVars.appname ++ ".exe" else exVars.appname) ∧
    (AutoBuild exVars exConf exAllGood exRunning ["main.go"] false).1 =
        (Restart exVars exRunning (binaryName exVars)).1 ∧
    (∀ (b g : Bool),
      (AutoBuild exVars { exConf with GoInstall := g } { exAllGood with installErr := b }
          exRunning ["main.go"] false).2.filter isRestartCall =
        (AutoBuild exVars exConf exAllGood exRunning ["main.go"] false).2.filter
          isRestartCall ∧
      (AutoBuild exVars { exConf with GoInstall := g } { exAllGood with installErr := b }
          exRunning ["main.go"] false).1 =
        (AutoBuild exVars exConf exAllGood exRunning ["main.go"] false).1)) :=
  ⟨(fun h => nomatch h), rfl,
    autobuild_success_restarts_once exVars exConf exAllGood exRunning ["main.go"] false
      (fun h => nomatch h) rfl⟩

/-! ## Restart -/

theorem live_eq_zero (st : RunState) (h : ∀ pid, (st.proc pid).alive = false) :
    st.live = 0 := by
  unfold RunState.live
  rw [List.length_eq_zero, List.filter_eq_nil_iff]
  intro p hp
  obtain ⟨i, hi⟩ := List.mem_iff_getElem?.mp hp
  have := h i
  simp [RunState.proc, hi] at this
  simp [this]

theorem proc_setAlive (st : RunState) (pid i : Nat) (b : Bool) :
    ((st.setAlive pid b).proc i).alive =
      if pid = i ∧ i < st.procs.length then b else (st.proc i).alive := by
  unfold RunState.proc RunState.setAlive
  simp only [List.getElem?_modify]
  by_cases hi : i < st.procs.length
  · rw [List.getElem?_eq_getElem hi]
    by_cases hp : pid = i <;> simp [hp, hi]
  · rw [List.getElem?_eq_none (by omega)]
    simp [hi]

theorem live_le_one (st : RunState) (h : st.OnlyTracked) : st.live ≤ 1 := by
  have key : ∀ (l : List Proc),
      (∀ (i j : Nat) (p q : Proc), l[i]? = some p → l[j]? = some q →
        p.alive = true → q.alive = true → i = j) →
      (l.filter (fun p => p.alive)).length ≤ 1 := by
    intro l
    induction l with
    | nil => intro _; simp
    | cons a t ih =>
      intro hu
      by_cases ha : a.alive = true
      · have ht : t.filter (fun p => p.alive) = [] := by
          rw [List.filter_eq_nil_iff]
          intro q hq hqa
          obtain ⟨j, hj⟩ := List.mem_iff_getElem?.mp hq
          have := hu 0 (j + 1) a q (by simp) (by simpa using hj) ha hqa
          omega
        simp [List.filter_cons, ha, ht]
      · have hstep := ih (fun i j p q hi hj hp hq => by
          have := hu (i + 1) (j + 1) p q (by simpa using hi) (by simpa using hj) hp hq
          omega)
        simpa [List.filter_cons, ha] using hstep
  apply key
  intro i j p q hi hj hp hq
  have h1 := h i (by simp [RunState.proc, hi, hp])
  have h2 := h j (by simp [RunState.proc, hj, hq])
  rw [h1] at h2
  exact Option.some.inj h2

/-- When no process but the tracked one runs and the tracked one, if any, is
gone within the 10 seconds, no process runs when `Kill` returns. -/
theorem Kill_graceful_dead (v : Vars) (st : RunState) (honly : st.OnlyTracked)
    (hgrace : ∀ pid, st.tracked = some pid → (Kill.inTime v (st.proc pid)).isSome = true) :
    ∀ i, ((Kill v st).1.proc i).alive = false := by
  intro i
  cases h : st.tracked with
  | none =>
    rw [Kill_untracked v st h]
    by_contra hc
    have := honly i (by simpa using hc)
    rw [h] at this
    exact Option.noConfusion this
  | some pid =>
    have hother : pid ≠ i → (st.proc i).alive = false := by
      intro hne
      by_contra hc
      have := honly i (by simpa using hc)
      rw [h] at this
      exact hne (Option.some.inj this)
    obtain ⟨d, hd⟩ := Option.isSome_iff_exists.mp (hgrace pid h)
    rw [Kill_exited v st pid d h hd]
    simp only [proc_setAlive]
    by_cases hp : pid = i ∧ i < st.procs.length
    · simp [hp]
    · by_cases hpi : pid = i
      · have hlen : ¬ i < st.procs.length := fun hl => hp ⟨hpi, hl⟩
        simp [hp, RunState.proc, List.getElem?_eq_none (Nat.le_of_not_lt hlen)]
      · simp [hp, hother hpi]

/-- Function `Start` assigns `cmd` a command without a process and starts no
process itself. -/
theorem Start_state (v : Vars) (conf : Conf) (st : RunState) (n : String) :
    (Start v conf st n).1.procs = st.procs ∧ (Start v conf st n).1.tracked = none ∧
    (Start v conf st n).1.made = st.made + 1 ∧
    ∃ c, (Start v conf st n).1.cmd = some c ∧ c.addr = st.made ∧ c.Process = none :=
  ⟨rfl, rfl, rfl, _, rfl, rfl, rfl⟩

/-- After `Start` on a state without a running process, the program its
`cmd.Run()` starts is the only one running, and it is the tracked one. -/
theorem cmdRun_after_dead (v : Vars) (conf : Conf) (spawn : Option Proc) (st : RunState)
    (n : String) (hdead : ∀ i, (st.proc i).alive = false) :
    (cmdRun spawn (Start v conf st n).1 st.made).live ≤ 1 ∧
    (cmdRun spawn (Start v conf st n).1 st.made).OnlyTracked := by
  have h0 : (st.procs.filter (fun p => p.alive)) = [] := by
    have := live_eq_zero st hdead
    simpa [RunState.live] using this
  cases spawn with
  | none =>
    constructor
    · simp [cmdRun, Start, RunState.live, h0]
    · intro pid hp
      have := hdead pid
      simp [cmdRun, Start, RunState.proc] at hp this
      simp [this] at hp
  | some p =>
    constructor
    · simp only [cmdRun, Start, RunState.live, List.filter_append, h0, List.nil_append]
      by_cases hp : p.alive = true <;> simp [List.filter_cons, hp]
    · intro pid hp
      simp only [cmdRun, Start, RunState.proc] at hp
      simp only [cmdRun, Start, RunState.tracked, Option.map_some', if_true]
      by_cases hlt : pid < st.procs.length
      · have := hdead pid
        simp only [RunState.proc] at this
        rw [List.getElem?_append_left hlt] at hp
        rw [this] at hp
        exact Bool.noConfusion hp
      · by_cases heq : pid = st.procs.length
        · rw [heq]
        · have hgt : (st.procs ++ [p]).length ≤ pid := by simp; omega
          rw [List.getElem?_eq_none hgt] at hp
          simp at hp

/-- C6 (as amended): in `Restart` the effects of `Kill` all precede the statement
`go Start`, and `Start` works on the state `Kill` leaves. `Start` assigns `cmd` a
command without a process and leaves the program to `go cmd.Run()`: a `Kill`
that runs before that goroutine finds nothing to kill. When no process but the
tracked one runs and the tracked one is gone within 10 seconds of the signal,
at most one child process runs before `Kill`, none when it returns, none after
`Start`, and at most one, the tracked one, once `cmd.Run()` has started the
program. -/
theorem restart_kill_then_start (v : Vars) (conf : Conf) (spawn : Option Proc)
    (st : RunState) (n : String) :
    (Restart v st n).2 =
      [.call "Restart" [n], .log "Debug" "Kill running process"] ++ (Kill v st).2 ++
        [.go (.Start n)] ∧
    (Restart v st n).1 = (Kill v st).1 ∧
    (Start v conf (Restart v st n).1 n).1.tracked = none ∧
    Kill v (Start v conf (Restart v st n).1 n).1 =
      ((Start v conf (Restart v st n).1 n).1, [.call "Kill" []]) ∧
    (st.OnlyTracked →
      (∀ pid, st.tracked = some pid → (Kill.inTime v (st.proc pid)).isSome = true) →
      st.live ≤ 1 ∧
      (Restart v st n).1.live = 0 ∧
      (Start v conf (Restart v st n).1 n).1.live = 0 ∧
      (cmdRun spawn (Start v conf (Restart v st n).1 n).1 (Restart v st n).1.made).live ≤ 1 ∧
      (cmdRun spawn (Start v conf (Restart v st n).1 n).1
        (Restart v st n).1.made).OnlyTracked) := by
  refine ⟨rfl, rfl, rfl, Kill_untracked v _ rfl, ?_⟩
  intro honly hgrace
  have hdead := Kill_graceful_dead v st honly hgrace
  have hrun := cmdRun_after_dead v conf spawn (Kill v st).1 n hdead
  exact ⟨live_le_one st honly, live_eq_zero _ hdead, live_eq_zero _ hdead, hrun.1, hrun.2⟩

theorem exRunning_onlyTracked : exRunning.OnlyTracked := by
  intro pid h
  match pid with
  | 0 => rfl
  | k + 1 => simp [RunState.proc, exRunning] at h

/-- Witness of `restart_kill_then_start`: a running process that exits on the
signal. -/
theorem restart_kill_then_start_witness :
    exRunning.OnlyTracked ∧
    (∀ pid, exRunning.tracked = some pid →
      (Kill.inTime exVars (exRunning.proc pid)).isSome = true) ∧
    exRunning.live ≤ 1 ∧
    (Restart exVars exRunning "app").1.live = 0 ∧
    (Start exVars exConf (Restart exVars exRunning "app").1 "app").1.live = 0 ∧
    (cmdRun (some exProc) (Start exVars exConf (Restart exVars exRunning "app").1 "app").1
      (Restart exVars exRunning "app").1.made).live ≤ 1 ∧
    (cmdRun (some exProc) (Start exVars exConf (Restart exVars exRunning "app").1 "app").1
      (Restart exVars exRunning "app").1.made).OnlyTracked :=
  ⟨exRunning_onlyTracked,
   (fun pid h => by
      have h0 : pid = 0 := (Option.some.inj h).symm
      subst h0
      rfl),
   (restart_kill_then_start exVars exConf (some exProc) exRunning "app").2.2.2.2
    exRunning_onlyTracked
    (fun pid h => by
      have h0 : pid = 0 := (Option.some.inj h).symm
      subst h0
      rfl)⟩

/-- C6 as stated fails: two builds follow each other, and the second `Restart`
runs after the first `Start` has assigned `cmd` and before its `go cmd.Run()`
has started the program. `cmd.Process` is nil, so `Kill` signals nothing; in
the end both programs run, the first one out of reach of `cmd`. -/
theorem restart_two_live :
    (ProcSys.run exVars exConf exAllGood (some exProc) 0 exProcSys (exRace.take 2)).map
        (fun s => (s.st.live, s.st.tracked, (Kill exVars s.st).2)) =
      some (0, none, [.call "Kill" []]) ∧
    (ProcSys.run exVars exConf exAllGood (some exProc) 0 exProcSys exRace).map
        (fun s => (s.st.live, s.st.tracked, s.pending)) = some (2, some 1, []) := by
  decide

/-! ## The build lock -/

theorem building_quiet_append (a b : List Effect) (ha : quiet a = true) :
    building (a ++ b) = building b := by
  induction a with
  | nil => rfl
  | cons e a ih =>
    simp only [quiet, List.all_cons, Bool.and_eq_true, bne_iff_ne, ne_eq] at ha
    have ih2 := ih (by simpa [quiet] using ha.2)
    simp [building, ha.1.1, ha.1.2, ih2]

theorem waiting_quiet_append (a b : List Effect) (ha : quiet a = true) :
    waiting (a ++ b) = waiting b := by
  induction a with
  | nil => rfl
  | cons e a ih =>
    simp only [quiet, List.all_cons, Bool.and_eq_true, bne_iff_ne, ne_eq] at ha
    have ih2 := ih (by simpa [quiet] using ha.2)
    simp [waiting, ha.1.1, ha.1.2, ih2]

theorem building_of_quiet (t : List Effect) (h : quiet t = true) : building t = false := by
  induction t with
  | nil => rfl
  | cons e t ih =>
    simp only [quiet, List.all_cons, Bool.and_eq_true, bne_iff_ne, ne_eq] at h
    have ih2 := ih (by simpa [quiet] using h.2)
    simp [building, h.1.1, h.1.2, ih2]

theorem building_of_waiting (t : List Effect) (h : waiting t = true) : building t = false := by
  induction t with
  | nil => rfl
  | cons e t ih =>
    by_cases hl : e = .lock
    · subst hl
      simp [building]
    · by_cases hu : e = .unlock
      · subst hu
        simp [waiting] at h
      · simp only [waiting, hl, if_false, Bool.and_eq_true] at h
        simp [building, hu, hl, ih h.2]

theorem quiet_iff (t : List Effect) :
    quiet t = true ↔ ∀ e ∈ t, e ≠ Effect.lock ∧ e ≠ Effect.unlock := by
  simp [quiet, List.all_eq_true]

theorem Kill_quiet (v : Vars) (st : RunState) : quiet (Kill v st).2 = true := by
  rw [quiet_iff]
  intro e he
  have h := Kill_effects v st e he
  cases e <;> simp_all [isKillEffect]

theorem Restart_quiet (v : Vars) (st : RunState) (n : String) :
    quiet (Restart v st n).2 = true := by
  rw [quiet_iff]
  have hk := (quiet_iff _).mp (Kill_quiet v st)
  intro e he
  simp only [Restart, List.mem_append, List.mem_cons, List.mem_singleton,
    List.not_mem_nil, or_false] at he
  rcases he with ((h1 | h1) | h1) | h1
  · subst h1; simp
  · subst h1; simp
  · exact hk e h1
  · subst h1; simp

theorem AutoBuild_body_quiet (v : Vars) (conf : Conf) (o : BuildOutcome) (st : RunState)
    (files : List String) (isgenerate : Bool) :
    quiet (AutoBuild.body v conf o st files isgenerate).2 = true := by
  have hr := fun n => (quiet_iff _).mp (Restart_quiet v st n)
  rw [quiet_iff]
  cases isgenerate <;> cases hg : conf.GoInstall <;> cases hd : o.docsErr <;>
    cases hb : o.buildErr <;>
    simp [AutoBuild.body, hg, hd, hb] <;>
    exact hr _

/-- Function `AutoBuild` takes the lock before anything else and gives it back last. -/
theorem AutoBuild_locked_span (v : Vars) (conf : Conf) (o : BuildOutcome) (st : RunState)
    (files : List String) (isgenerate : Bool) :
    ∃ body, (AutoBuild v conf o st files isgenerate).2 =
        [.call "AutoBuild" [], .lock] ++ body ++ [.unlock] ∧ quiet body = true :=
  ⟨_, rfl, AutoBuild_body_quiet v conf o st files isgenerate⟩

theorem AutoBuild_waiting (v : Vars) (conf : Conf) (o : BuildOutcome) (st : RunState)
    (files : List String) (isgenerate : Bool) :
    waiting (AutoBuild v conf o st files isgenerate).2 = true := by
  have hq := AutoBuild_body_quiet v conf o st files isgenerate
  simp only [AutoBuild, List.cons_append, List.nil_append, waiting, List.append_assoc]
  simp [building_quiet_append _ _ hq, building, quiet]

theorem delayedBuild_waiting (v : Vars) (conf : Conf) (o : BuildOutcome) (now : Nat)
    (st : RunState) (files : List String) (isgenerate : Bool) (e : FsEvent) :
    waiting (NewWatcher.delayedBuild v conf o now st files isgenerate e).2 = true := by
  have hq := AutoBuild_body_quiet v conf o st files isgenerate
  have htail : quiet (if conf.EnableReload = true then Effect.sleep 100 :: sendReload e.desc
      else []) = true := by
    cases conf.EnableReload <;> simp [quiet, sendReload]
  simp only [NewWatcher.delayedBuild, AutoBuild, List.cons_append, List.nil_append, waiting,
    List.append_assoc]
  simp [building_quiet_append _ _ hq, building, htail]

theorem waiting_of_buildRun (t : List Effect) (h : IsBuildRun t) : waiting t = true := by
  rcases h with ⟨v, conf, o, st, files, g, rfl⟩ | ⟨v, conf, o, now, st, files, g, e, rfl⟩
  · exact AutoBuild_waiting v conf o st files g
  · exact delayedBuild_waiting v conf o now st files g e

theorem phase_cons (e : Effect) (t : List Effect) (hl : e ≠ .lock) (hu : e ≠ .unlock) :
    quiet (e :: t) = quiet t ∧ building (e :: t) = building t ∧
      waiting (e :: t) = waiting t := by
  simp [quiet, building, waiting, hl, hu]

theorem LockInv_init (rest : Nat → List Effect) (h : ∀ i, rest i = [] ∨ IsBuildRun (rest i)) :
    LockInv { locked := false, rest := rest } := by
  have hb : ∀ i, building (rest i) = false := by
    intro i
    rcases h i with h0 | h1
    · rw [h0]; rfl
    · exact building_of_waiting _ (waiting_of_buildRun _ h1)
  refine ⟨?_, fun _ => hb, ?_⟩
  · intro i
    rcases h i with h0 | h1
    · left; simp [h0, quiet]
    · right; right; exact waiting_of_buildRun _ h1
  · intro i j hi
    rw [hb i] at hi
    exact Bool.noConfusion hi

theorem LockInv_step (s s2 : Sys) (i : Nat) (hinv : LockInv s) (h : s.step i = some s2) :
    LockInv s2 := by
  obtain ⟨hphase, hfree, huniq⟩ := hinv
  unfold Sys.step at h
  cases hr : s.rest i with
  | nil => simp [hr] at h
  | cons e t =>
    rw [hr] at h
    have hpi := hphase i
    rw [hr] at hpi
    by_cases hl : e = .lock
    · subst hl
      by_cases hlk : s.locked = true
      · simp [hlk] at h
      · have hlk2 : s.locked = false := by simpa using hlk
        simp only [hlk2] at h
        have hs2 : s2 = { locked := true, rest := Function.update s.rest i t } := by
          simpa using h.symm
        subst hs2
        have hbt : building t = true := by simpa [quiet, building, waiting] using hpi
        have hothers : ∀ a, a ≠ i → building (Function.update s.rest i t a) = false := by
          intro a hne
          simp only [Function.update_noteq hne]
          exact hfree hlk2 a
        refine ⟨?_, fun hc => by simp at hc, ?_⟩
        · intro a
          by_cases ha : a = i
          · subst ha; simp [hbt]
          · simpa [Function.update_noteq ha] using hphase a
        · intro a b ha hb
          have hA : a = i := by
            by_contra hne
            rw [hothers a hne] at ha
            exact Bool.noConfusion ha
          have hB : b = i := by
            by_contra hne
            rw [hothers b hne] at hb
            exact Bool.noConfusion hb
          rw [hA, hB]
    · by_cases hu : e = .unlock
      · subst hu
        have hs2 : s2 = { locked := false, rest := Function.update s.rest i t } := by
          simpa using h.symm
        subst hs2
        have hqt : quiet t = true := by simpa [quiet, building, waiting] using hpi
        have hbi : building (s.rest i) = true := by simp [hr, building, hqt]
        have hnone : ∀ a, building (Function.update s.rest i t a) = false := by
          intro a
          by_cases ha : a = i
          · subst ha
            simpa using building_of_quiet t hqt
          · simp only [Function.update_noteq ha]
            by_contra hc
            exact ha (huniq a i (by simpa using hc) hbi)
        refine ⟨?_, fun _ => hnone, ?_⟩
        · intro a
          by_cases ha : a = i
          · subst ha; simp [hqt]
          · simpa [Function.update_noteq ha] using hphase a
        · intro a b ha
          rw [hnone a] at ha
          exact Bool.noConfusion ha
      · have hs2 : s2 = { s with rest := Function.update s.rest i t } := by
          cases e <;> simp_all
        subst hs2
        obtain ⟨hq, hb, hw⟩ := phase_cons e t hl hu
        have hsame : ∀ a, building (Function.update s.rest i t a) = building (s.rest a) := by
          intro a
          by_cases ha : a = i
          · subst ha; simp [hr, hb]
          · simp [Function.update_noteq ha]
        refine ⟨?_, ?_, ?_⟩
        · intro a
          by_cases ha : a = i
          · subst ha
            rw [hq, hb, hw] at hpi
            simpa using hpi
          · simpa [Function.update_noteq ha] using hphase a
        · intro hlk a
          simp only [hsame]
          exact hfree hlk a
        · intro a b ha hb2
          simp only [hsame] at ha hb2
          exact huniq a b ha hb2

theorem LockInv_reachable (s : Sys) (h : Reachable s) : LockInv s := by
  induction h with
  | init rest h => exact LockInv_init rest h
  | step s s2 i _ hstep ih => exact LockInv_step s s2 i ih hstep

/-- C7: builds never overlap. In every state the goroutines can reach, at most
one goroutine is inside `AutoBuild` (between its lock and its unlock), the
mutex is held exactly then, a goroutine arriving at `state.Lock()` meanwhile
cannot proceed, and can once the mutex is free; every `AutoBuild` run takes
the lock first and gives it back last. -/
theorem builds_never_overlap (s : Sys) (hs : Reachable s) :
    (∀ i j, building (s.rest i) = true → building (s.rest j) = true → i = j) ∧
    (∀ i, building (s.rest i) = true → s.locked = true) ∧
    (∀ i j t, building (s.rest i) = true → s.rest j = .lock :: t → s.step j = none) ∧
    (∀ j t, s.locked = false → s.rest j = .lock :: t → (s.step j).isSome = true) ∧
    (∀ v conf o st files isgenerate, ∃ body,
      (AutoBuild v conf o st files isgenerate).2 =
        [.call "AutoBuild" [], .lock] ++ body ++ [.unlock] ∧ quiet body = true) := by
  obtain ⟨_, hfree, huniq⟩ := LockInv_reachable s hs
  have hheld : ∀ i, building (s.rest i) = true → s.locked = true := by
    intro i hb
    by_contra hc
    have := hfree (by simpa using hc) i
    rw [hb] at this
    exact Bool.noConfusion this
  refine ⟨huniq, hheld, ?_, ?_, AutoBuild_locked_span⟩
  · intro i j t hb hj
    simp [Sys.step, hj, hheld i hb]
  · intro j t hl hj
    simp [Sys.step, hj, hl]

theorem exSys0_reachable : Reachable exSys0 := by
  apply Reachable.init
  intro i
  by_cases hi : i < 2
  · right
    left
    exact ⟨exVars, exConf, exCompileFails, exRunning, [], false, by simp [hi]⟩
  · left
    simp [hi]

theorem exSys3_reachable : Reachable exSys3 := by
  have h01 : exSys0.step 0 = some exSys1 := by
    have hs : (exSys0.step 0).isSome = true := by decide
    obtain ⟨x, hx⟩ := Option.isSome_iff_exists.mp hs
    simp [exSys1, hx]
  have h12 : exSys1.step 0 = some exSys2 := by
    have hs : (exSys1.step 0).isSome = true := by decide
    obtain ⟨x, hx⟩ := Option.isSome_iff_exists.mp hs
    simp [exSys2, hx]
  have h23 : exSys2.step 1 = some exSys3 := by
    have hs : (exSys2.step 1).isSome = true := by decide
    obtain ⟨x, hx⟩ := Option.isSome_iff_exists.mp hs
    simp [exSys3, hx]
  exact Reachable.step exSys2 exSys3 1
    (Reachable.step exSys1 exSys2 0 (Reachable.step exSys0 exSys1 0 exSys0_reachable h01) h12)
    h23

/-- In `exSys3` goroutine 0 builds and goroutine 1 is blocked at the lock. -/
theorem exSys3_blocked :
    building (exSys3.rest 0) = true ∧ waiting (exSys3.rest 1) = true ∧
      (exSys3.rest 1).head? = some Effect.lock ∧
      (exSys3.step 1).isNone = true ∧ (exSys3.step 0).isSome = true := by
  decide

/-- Witness of `builds_never_overlap`: two goroutines, one holding the lock,
the other at `state.Lock()`. -/
theorem builds_never_overlap_witness :
    Reachable exSys3 ∧
    ((∀ i j, building (exSys3.rest i) = true → building (exSys3.rest j) = true → i = j) ∧
    (∀ i, building (exSys3.rest i) = true → exSys3.locked = true) ∧
    (∀ i j t, building (exSys3.rest i) = true → exSys3.rest j = .lock :: t →
      exSys3.step j = none) ∧
    (∀ j t, exSys3.locked = false → exSys3.rest j = .lock :: t →
      (exSys3.step j).isSome = true) ∧
    (∀ v conf o st files isgenerate, ∃ body,
      (AutoBuild v conf o st files isgenerate).2 =
        [.call "AutoBuild" [], .lock] ++ body ++ [.unlock] ∧ quiet body = true)) :=
  ⟨exSys3_reachable, builds_never_overlap exSys3 exSys3_reachable⟩

/-! ## The watcher -/

theorem onEvent_source (pv : Vars) (conf : Conf) (files : List String) (isgenerate : Bool)
    (modTime : String → Int) (eventTime : EventTime) (e : FsEvent)
    (hstatic : (ifStaticFile pv e.Name && conf.EnableReload) = false)
    (hign : shouldIgnoreFile e.Name = false)
    (hext : shouldWatchFileWithExtension pv e.Name = true) :
    NewWatcher.onEvent pv conf files isgenerate modTime eventTime e =
      if modTime e.Name = eventTime.get e.Name then
        (eventTime.set e.Name (modTime e.Name), [.log "Hint" ("Skipping: " ++ e.desc)])
      else
        (eventTime.set e.Name (modTime e.Name),
          [.log "Hint" ("Event fired: " ++ e.desc), .go (.delayedBuild files isgenerate e)]) := by
  unfold NewWatcher.onEvent
  rw [hstatic, hign, hext]
  by_cases h : modTime e.Name = eventTime.get e.Name <;> simp [h]

/-- C8: a qualifying source event whose modification time equals the recorded
value (absent reads as 0) starts no goroutine and sends no reload; what the
table records is unchanged: the path's entry is rewritten with the value it
read, so every path reads as before, the entries of the other paths are
untouched, and the table is the same table when the path had an entry. -/
theorem echo_event_is_noop (pv : Vars) (conf : Conf) (files : List String) (isgenerate : Bool)
    (modTime : String → Int) (eventTime : EventTime) (e : FsEvent)
    (hstatic : (ifStaticFile pv e.Name && conf.EnableReload) = false)
    (hign : shouldIgnoreFile e.Name = false)
    (hext : shouldWatchFileWithExtension pv e.Name = true)
    (hecho : modTime e.Name = eventTime.get e.Name) :
    (NewWatcher.onEvent pv conf files isgenerate modTime eventTime e).2 =
        [.log "Hint" ("Skipping: " ++ e.desc)] ∧
    (∀ x ∈ (NewWatcher.onEvent pv conf files isgenerate modTime eventTime e).2,
        isGo x = false ∧ isReload x = false) ∧
    (NewWatcher.onEvent pv conf files isgenerate modTime eventTime e).1 =
        eventTime.set e.Name (eventTime.get e.Name) ∧
    (∀ q, (NewWatcher.onEvent pv conf files isgenerate modTime eventTime e).1.get q =
        eventTime.get q) ∧
    (∀ q, q ≠ e.Name →
      (NewWatcher.onEvent pv conf files isgenerate modTime eventTime e).1 q = eventTime q) ∧
    ((eventTime e.Name).isSome = true →
      (NewWatcher.onEvent pv conf files isgenerate modTime eventTime e).1 = eventTime) := by
  rw [onEvent_source pv conf files isgenerate modTime eventTime e hstatic hign hext]
  simp only [hecho, if_true]
  refine ⟨trivial, ?_, trivial, ?_, ?_, ?_⟩
  · simp [isGo, isReload]
  · intro q
    by_cases hq : q = e.Name
    · subst hq
      simp [EventTime.get, EventTime.set]
    · simp [EventTime.get, EventTime.set, Function.update_noteq hq]
  · intro q hq
    simp [EventTime.set, Function.update_noteq hq]
  · intro hsome
    obtain ⟨x, hx⟩ := Option.isSome_iff_exists.mp hsome
    funext q
    by_cases hq : q = e.Name
    · subst hq
      simp [EventTime.get, EventTime.set, hx]
    · simp [EventTime.set, Function.update_noteq hq]

/-- Witness of `echo_event_is_noop`: `main.go` again with the recorded time. -/
theorem echo_event_is_noop_witness :
    (ifStaticFile exVars exEvent.Name && exConf.EnableReload) = false ∧
    shouldIgnoreFile exEvent.Name = false ∧
    shouldWatchFileWithExtension exVars exEvent.Name = true ∧
    (fun _ => (7 : Int)) exEvent.Name = exTable.get exEvent.Name ∧
    ((NewWatcher.onEvent exVars exConf ["main.go"] false (fun _ => 7) exTable exEvent).2 =
        [.log "Hint" ("Skipping: " ++ exEvent.desc)] ∧
    (∀ x ∈ (NewWatcher.onEvent exVars exConf ["main.go"] false (fun _ => 7) exTable exEvent).2,
        isGo x = false ∧ isReload x = false) ∧
    (NewWatcher.onEvent exVars exConf ["main.go"] false (fun _ => 7) exTable exEvent).1 =
        exTable.set exEvent.Name (exTable.get exEvent.Name) ∧
    (∀ q, (NewWatcher.onEvent exVars exConf ["main.go"] false (fun _ => 7) exTable exEvent).1.get q =
        exTable.get q) ∧
    (∀ q, q ≠ exEvent.Name →
      (NewWatcher.onEvent exVars exConf ["main.go"] false (fun _ => 7) exTable exEvent).1 q =
        exTable q) ∧
    ((exTable exEvent.Name).isSome = true →
      (NewWatcher.onEvent exVars exConf ["main.go"] false (fun _ => 7) exTable exEvent).1 =
        exTable)) :=
  ⟨by decide, by decide, by decide, by decide,
    echo_event_is_noop exVars exConf ["main.go"] false (fun _ => 7) exTable exEvent
      (by decide) (by decide) (by decide) (by decide)⟩

/-- C9: a qualifying source event whose modification time differs from the
recorded value leaves the table mapping the path to the new time and every
other entry as it was, and starts exactly one goroutine, the delayed build,
which sleeps one second and then runs `AutoBuild` with the watcher's file list
and documentation flag. -/
theorem changed_event_schedules_build (pv : Vars) (conf : Conf) (files : List String) (isgenerate : Bool)
    (modTime : String → Int) (eventTime : EventTime) (e : FsEvent)
    (hstatic : (ifStaticFile pv e.Name && conf.EnableReload) = false)
    (hign : shouldIgnoreFile e.Name = false)
    (hext : shouldWatchFileWithExtension pv e.Name = true)
    (hchg : modTime e.Name ≠ eventTime.get e.Name) :
    (NewWatcher.onEvent pv conf files isgenerate modTime eventTime e).1 e.Name =
        some (modTime e.Name) ∧
    (NewWatcher.onEvent pv conf files isgenerate modTime eventTime e).1.get e.Name =
        modTime e.Name ∧
    (∀ q, q ≠ e.Name →
      (NewWatcher.onEvent pv conf files isgenerate modTime eventTime e).1 q = eventTime q) ∧
    (NewWatcher.onEvent pv conf files isgenerate modTime eventTime e).2.filter isGo =
        [.go (.delayedBuild files isgenerate e)] ∧
    (∀ v o spawn now st,
      Task.run v conf o spawn now st (.delayedBuild files isgenerate e) =
        ((AutoBuild v conf o st files isgenerate).1,
          [.schedule (now + 1000), .sleep 1000] ++ (AutoBuild v conf o st files isgenerate).2 ++
            (if conf.EnableReload then [.sleep 100] ++ sendReload e.desc else []))) := by
  rw [onEvent_source pv conf files isgenerate modTime eventTime e hstatic hign hext]
  simp only [hchg, if_false]
  refine ⟨?_, ?_, ?_, ?_, ?_⟩
  · simp [EventTime.set]
  · simp [EventTime.get, EventTime.set]
  · intro q hq
    simp [EventTime.set, Function.update_noteq hq]
  · simp [isGo, List.filter_cons]
  · intro v o spawn now st
    simp [Task.run, NewWatcher.delayedBuild]

/-- Witness of `changed_event_schedules_build`: `main.go` with a new time. -/
theorem changed_event_schedules_build_witness :
    (ifStaticFile exVars exEvent.Name && exConf.EnableReload) = false ∧
    shouldIgnoreFile exEvent.Name = false ∧
    shouldWatchFileWithExtension exVars exEvent.Name = true ∧
    (fun _ => (9 : Int)) exEvent.Name ≠ exTable.get exEvent.Name ∧
    ((NewWatcher.onEvent exVars exConf ["main.go"] false (fun _ => 9) exTable exEvent).1 exEvent.Name =
        some ((fun _ => (9 : Int)) exEvent.Name) ∧
    (NewWatcher.onEvent exVars exConf ["main.go"] false (fun _ => 9) exTable exEvent).1.get
        exEvent.Name = (fun _ => (9 : Int)) exEvent.Name ∧
    (∀ q, q ≠ exEvent.Name →
      (NewWatcher.onEvent exVars exConf ["main.go"] false (fun _ => 9) exTable exEvent).1 q =
        exTable q) ∧
    (NewWatcher.onEvent exVars exConf ["main.go"] false (fun _ => 9) exTable exEvent).2.filter isGo =
        [.go (.delayedBuild ["main.go"] false exEvent)] ∧
    (∀ v o spawn now st,
      Task.run v exConf o spawn now st (.delayedBuild ["main.go"] false exEvent) =
        ((AutoBuild v exConf o st ["main.go"] false).1,
          [.schedule (now + 1000), .sleep 1000] ++
            (AutoBuild v exConf o st ["main.go"] false).2 ++
            (if exConf.EnableReload then [.sleep 100] ++ sendReload exEvent.desc else [])))) :=
  ⟨by decide, by decide, by decide, by decide,
    changed_event_schedules_build exVars exConf ["main.go"] false (fun _ => 9) exTable exEvent
      (by decide) (by decide) (by decide) (by decide)⟩


/-! ## The watcher: filtering and classification -/

theorem onEvent_static (pv : Vars) (conf : Conf) (files : List String) (isgenerate : Bool)
    (modTime : String → Int) (eventTime : EventTime) (e : FsEvent)
    (hstatic : (ifStaticFile pv e.Name && conf.EnableReload) = true) :
    NewWatcher.onEvent pv conf files isgenerate modTime eventTime e =
      (eventTime, sendReload e.desc) := by
  unfold NewWatcher.onEvent
  rw [hstatic]
  simp

theorem onEvent_ignored (pv : Vars) (conf : Conf) (files : List String) (isgenerate : Bool)
    (modTime : String → Int) (eventTime : EventTime) (e : FsEvent)
    (hstatic : (ifStaticFile pv e.Name && conf.EnableReload) = false)
    (hign : shouldIgnoreFile e.Name = true) :
    NewWatcher.onEvent pv conf files isgenerate modTime eventTime e = (eventTime, []) := by
  unfold NewWatcher.onEvent
  rw [hstatic, hign]
  simp

theorem onEvent_unwatched (pv : Vars) (conf : Conf) (files : List String) (isgenerate : Bool)
    (modTime : String → Int) (eventTime : EventTime) (e : FsEvent)
    (hstatic : (ifStaticFile pv e.Name && conf.EnableReload) = false)
    (hext : shouldWatchFileWithExtension pv e.Name = false) :
    NewWatcher.onEvent pv conf files isgenerate modTime eventTime e = (eventTime, []) := by
  unfold NewWatcher.onEvent
  rw [hstatic, hext]
  cases shouldIgnoreFile e.Name <;> simp

/-- The two classifiers test the suffixes held by the package variables. -/
theorem classifiers_test_package_lists (pv : Vars) (name : String) :
    (ifStaticFile pv name = true ↔ ∃ s ∈ pv.watchExtsStatic, HasSuffix name s = true) ∧
    (shouldWatchFileWithExtension pv name = true ↔
      ∃ s ∈ pv.watchExts, HasSuffix name s = true) := by
  simp [ifStaticFile, shouldWatchFileWithExtension, List.any_eq_true]

/-- An event on a path that ends with an extension held by the package variable
`watchExtsStatic`, with live-reload enabled, sends exactly one reload
broadcast, carrying the (trimmed) description of the event, starts no
goroutine and so no build, and leaves the table unchanged. -/
theorem static_list_event_reloads (pv : Vars) (conf : Conf) (files : List String)
    (isgenerate : Bool) (modTime : String → Int) (eventTime : EventTime) (e : FsEvent)
    (hsuffix : ∃ s ∈ pv.watchExtsStatic, HasSuffix e.Name s = true)
    (hreload : conf.EnableReload = true) :
    (NewWatcher.onEvent pv conf files isgenerate modTime eventTime e).2 =
        [.call "sendReload" [e.desc], .broadcast (TrimSpace e.desc)] ∧
    (NewWatcher.onEvent pv conf files isgenerate modTime eventTime e).2.filter isBroadcast =
        [.broadcast (TrimSpace e.desc)] ∧
    (∀ x ∈ (NewWatcher.onEvent pv conf files isgenerate modTime eventTime e).2,
        isGo x = false ∧ x ≠ Effect.call "AutoBuild" []) ∧
    (NewWatcher.onEvent pv conf files isgenerate modTime eventTime e).1 = eventTime := by
  have hst : ifStaticFile pv e.Name = true := by
    simpa [ifStaticFile, List.any_eq_true] using hsuffix
  simp [NewWatcher.onEvent, hst, hreload, sendReload, isBroadcast, isGo, List.filter_cons]

/-- C10: with `watch_ext_static: [".vue"]` and `enable_reload: true` in a `Beefile`
the path `app.vue` ends with a configured static extension and live-reload is
enabled, yet the event sends no reload and does nothing at all: `ifStaticFile`
tests the package variable `watchExtsStatic`, which still holds the list
declared in conf.go. An event on `index.html`, whose extension the
configuration no longer lists, is broadcast. -/
theorem configured_static_event_dropped :
    (∃ s ∈ exConfBeefile.WatchExtsStatic, HasSuffix exVueEvent.Name s = true) ∧
    exConfBeefile.EnableReload = true ∧
    exVarsBeefile.watchExtsStatic = [".html", ".tpl", ".js", ".css"] ∧
    (NewWatcher.onEvent exVarsBeefile exConfBeefile ["main.go"] false (fun _ => 9) exTable
      exVueEvent).2 = [] ∧
    (¬ ∃ s ∈ exConfBeefile.WatchExtsStatic, HasSuffix exStaticEvent.Name s = true) ∧
    (NewWatcher.onEvent exVarsBeefile exConfBeefile ["main.go"] false (fun _ => 9) exTable
      exStaticEvent).2 =
        [.call "sendReload" [exStaticEvent.desc], .broadcast (TrimSpace exStaticEvent.desc)] := by
  decide

/-- C11 (as amended): an event whose path matches an ignore pattern starts no
goroutine, so no build, and leaves the table unchanged, whatever the lists of
the watcher and the live-reload flag are; it sends no reload unless the path
is static-classified (it ends with an extension held by the package variable
`watchExtsStatic` and live-reload is enabled), in which case the static check,
which comes first, sends the one reload. -/
theorem ignored_event_no_build (pv : Vars) (conf : Conf) (files : List String)
    (isgenerate : Bool) (modTime : String → Int) (eventTime : EventTime) (e : FsEvent)
    (hign : shouldIgnoreFile e.Name = true) :
    (∀ x ∈ (NewWatcher.onEvent pv conf files isgenerate modTime eventTime e).2,
      isGo x = false) ∧
    (NewWatcher.onEvent pv conf files isgenerate modTime eventTime e).1 = eventTime ∧
    (¬ ((∃ s ∈ pv.watchExtsStatic, HasSuffix e.Name s = true) ∧ conf.EnableReload = true) →
      NewWatcher.onEvent pv conf files isgenerate modTime eventTime e = (eventTime, [])) ∧
    ((∃ s ∈ pv.watchExtsStatic, HasSuffix e.Name s = true) ∧ conf.EnableReload = true →
      (NewWatcher.onEvent pv conf files isgenerate modTime eventTime e).2 =
        [.call "sendReload" [e.desc], .broadcast (TrimSpace e.desc)]) := by
  have hcl := (classifiers_test_package_lists pv e.Name).1
  cases hs : (ifStaticFile pv e.Name && conf.EnableReload) with
  | false =>
    rw [onEvent_ignored pv conf files isgenerate modTime eventTime e hs hign]
    refine ⟨by simp, rfl, fun _ => rfl, ?_⟩
    intro h
    have : (ifStaticFile pv e.Name && conf.EnableReload) = true := by
      rw [hcl.mpr h.1, h.2]
      rfl
    rw [hs] at this
    exact Bool.noConfusion this
  | true =>
    rw [onEvent_static pv conf files isgenerate modTime eventTime e hs]
    refine ⟨by simp [sendReload, isGo], rfl, ?_, fun _ => rfl⟩
    intro h
    exfalso
    apply h
    simp only [Bool.and_eq_true] at hs
    exact ⟨hcl.mp hs.1, hs.2⟩

/-- Witness of `ignored_event_no_build`: `a.tmp` with the lists as declared. -/
theorem ignored_event_no_build_witness :
    shouldIgnoreFile exTmpEvent.Name = true ∧
    (NewWatcher.onEvent exVars exConf [] false (fun _ => 1) exTable exTmpEvent).1 = exTable ∧
    NewWatcher.onEvent exVars exConf [] false (fun _ => 1) exTable exTmpEvent =
      (exTable, []) :=
  ⟨by decide,
    (ignored_event_no_build exVars exConf [] false (fun _ => 1) exTable exTmpEvent
      (by decide)).2.1,
    (ignored_event_no_build exVars exConf [] false (fun _ => 1) exTable exTmpEvent
      (by decide)).2.2.1 (by decide)⟩

/-- C11 as stated fails: a `bee.json` with `"watch_ext_static": [".tmp"]` and
`"enable_reload": true` is decoded into the array the package variable shares,
so the watcher holds `.tmp` as a static extension; the path `a.tmp` matches an
ignore pattern, and its event triggers a reload broadcast. -/
theorem ignored_static_event_reloads :
    exVarsTmp.watchExtsStatic = [".tmp", ".tpl", ".js", ".css"] ∧
    exConfTmp.EnableReload = true ∧
    shouldIgnoreFile exTmpEvent.Name = true ∧
    Effect.broadcast (TrimSpace exTmpEvent.desc) ∈
      (NewWatcher.onEvent exVarsTmp exConfTmp [] false (fun _ => 1) exTable exTmpEvent).2 := by
  decide

/-- C12: with `watch_ext: [".go", ".tmpl"]` in a `Beefile` the path
`views/index.tmpl` ends with a configured watched extension and the event is
neither static-classified nor ignored, yet it is dropped instead of being
treated as a source event: `shouldWatchFileWithExtension` tests the package
variable `watchExts`, which still holds the list declared in conf.go. -/
theorem configured_watched_event_dropped :
    (∃ s ∈ exConfBeefile.WatchExts, HasSuffix exTmplEvent.Name s = true) ∧
    (ifStaticFile exVarsBeefile exTmplEvent.Name && exConfBeefile.EnableReload) = false ∧
    shouldIgnoreFile exTmplEvent.Name = false ∧
    exVarsBeefile.watchExts = [".go"] ∧
    (NewWatcher.onEvent exVarsBeefile exConfBeefile ["main.go"] false (fun _ => 9) exTable
      exTmplEvent).2 = [] ∧
    (NewWatcher.onEvent exVarsBeefile exConfBeefile ["main.go"] false (fun _ => 9) exTable
      exEvent).2 =
        [.log "Hint" ("Event fired: " ++ exEvent.desc),
          .go (.delayedBuild ["main.go"] false exEvent)] := by
  decide

/-! ## The delayed build and its reload -/

theorem Restart_no_broadcast (v : Vars) (st : RunState) (n : String) :
    ∀ e ∈ (Restart v st n).2, isBroadcast e = false := by
  intro e he
  simp only [Restart, List.mem_append, List.mem_cons, List.mem_singleton,
    List.not_mem_nil, or_false] at he
  rcases he with ((h1 | h1) | h1) | h1
  · subst h1; rfl
  · subst h1; rfl
  · have h := Kill_effects v st e h1
    cases e <;> simp_all [isKillEffect, isBroadcast]
  · subst h1; rfl

theorem AutoBuild_no_broadcast (v : Vars) (conf : Conf) (o : BuildOutcome) (st : RunState)
    (files : List String) (isgenerate : Bool) :
    (AutoBuild v conf o st files isgenerate).2.filter isBroadcast = [] := by
  have hr : ∀ n, (Restart v st n).2.filter isBroadcast = [] := fun n =>
    List.filter_eq_nil_iff.mpr (fun e he => by simp [Restart_no_broadcast v st n e he])
  cases isgenerate <;> cases hg : conf.GoInstall <;> cases hd : o.docsErr <;>
    cases hb : o.buildErr <;>
    simp [AutoBuild, AutoBuild.body, hg, hd, hb, List.filter_append, List.filter_cons,
      isBroadcast, hr]

/-- C13 (as amended): the delayed-build task sends a reload broadcast for its
event if and only if live-reload is enabled, whatever the outcome of the
build: the trace is the one-second wait, `AutoBuild`, and, when live-reload is
enabled, a 100 ms wait and the one broadcast of the trimmed event text. -/
theorem delayed_build_reload (v : Vars) (conf : Conf) (o : BuildOutcome) (now : Nat)
    (st : RunState) (files : List String) (isgenerate : Bool) (e : FsEvent) :
    (NewWatcher.delayedBuild v conf o now st files isgenerate e).2 =
      [.schedule (now + 1000), .sleep 1000] ++ (AutoBuild v conf o st files isgenerate).2 ++
        (if conf.EnableReload then
          [.sleep 100, .call "sendReload" [e.desc], .broadcast (TrimSpace e.desc)]
         else []) ∧
    (NewWatcher.delayedBuild v conf o now st files isgenerate e).2.filter isBroadcast =
      (if conf.EnableReload then [.broadcast (TrimSpace e.desc)] else []) ∧
    (Effect.broadcast (TrimSpace e.desc) ∈
        (NewWatcher.delayedBuild v conf o now st files isgenerate e).2 ↔
      conf.EnableReload = true) := by
  have hb := AutoBuild_no_broadcast v conf o st files isgenerate
  have hshape : (NewWatcher.delayedBuild v conf o now st files isgenerate e).2 =
      [.schedule (now + 1000), .sleep 1000] ++ (AutoBuild v conf o st files isgenerate).2 ++
        (if conf.EnableReload then
          [.sleep 100, .call "sendReload" [e.desc], .broadcast (TrimSpace e.desc)]
         else []) := by
    cases hr : conf.EnableReload <;> simp [NewWatcher.delayedBuild, sendReload, hr]
  have hfilter : (NewWatcher.delayedBuild v conf o now st files isgenerate e).2.filter
      isBroadcast = (if conf.EnableReload then [.broadcast (TrimSpace e.desc)] else []) := by
    rw [hshape]
    cases hr : conf.EnableReload <;>
      simp [List.filter_append, hb, isBroadcast, List.filter_cons]
  refine ⟨hshape, hfilter, ?_⟩
  constructor
  · intro hmem
    have hin : Effect.broadcast (TrimSpace e.desc) ∈
        (NewWatcher.delayedBuild v conf o now st files isgenerate e).2.filter isBroadcast :=
      List.mem_filter.mpr ⟨hmem, rfl⟩
    rw [hfilter] at hin
    cases hr : conf.EnableReload
    · simp [hr] at hin
    · rfl
  · intro hr
    have hin : Effect.broadcast (TrimSpace e.desc) ∈
        (NewWatcher.delayedBuild v conf o now st files isgenerate e).2.filter isBroadcast := by
      rw [hfilter, hr]
      simp
    exact (List.mem_filter.mp hin).1

/-- C13 as stated fails: live-reload is on and the compile step fails, yet the
reload for the event is broadcast. -/
theorem failed_build_still_reloads :
    buildSucceeded exCompileFails false = false ∧ exConf.EnableReload = true ∧
    Effect.broadcast (TrimSpace exEvent.desc) ∈
      (NewWatcher.delayedBuild exVars exConf exCompileFails 0 exRunning ["main.go"] false
        exEvent).2 := by
  decide

/-! ## The ignore patterns -/

theorem matchMany1_isSome (p : Char → Bool) (k : List Char → Option (List Char))
    (rest : List Char) (hk : (k rest).isSome = true) :
    ∀ w : List Char, w ≠ [] → (∀ c ∈ w, p c = true) →
      (matchMany1 p k (w ++ rest)).isSome = true := by
  intro w
  induction w with
  | nil => intro h; exact absurd rfl h
  | cons c w ih =>
    intro _ hall
    have hc : p c = true := hall c (List.mem_cons_self c w)
    simp only [List.cons_append, matchMany1, hc, if_true]
    cases w with
    | nil =>
      cases hm : matchMany1 p k ([] ++ rest) with
      | some r => rfl
      | none => simpa using hk
    | cons d w2 =>
      have hrec := ih (by simp) (fun x hx => hall x (List.mem_cons_of_mem c hx))
      cases hm : matchMany1 p k (d :: w2 ++ rest) with
      | some r => rfl
      | none => rw [hm] at hrec; exact absurd hrec (by simp)

theorem reAny_of_reWord (c : Char) (h : reWord c = true) : reAny c = true := by
  by_cases hc : c = '\n'
  · subst hc
    exact absurd h (by decide)
  · simp [reAny, hc]

theorem MatchString_of_suffix (re : Regexp) (pre t : List Char)
    (h : (matchAt re t).isSome = true) : MatchString re (String.mk (pre ++ t)) = true := by
  unfold MatchString
  rw [List.any_eq_true]
  exact ⟨t, (List.mem_tails t (pre ++ t)).mpr (List.suffix_append pre t), h⟩

theorem matchAt_single (alt : List Atom) (t : List Char) :
    matchAt [alt] t = matchSeq alt t := by
  unfold matchAt
  cases h : matchSeq alt t <;> simp [List.findSome?, h]

theorem string_eq_mk (s : String) (l : List Char) (h : s.data = l) : s = String.mk l := by
  apply String.ext
  simpa using h

theorem ignore_emacs (pre name : List Char) (hne : name ≠ [])
    (hall : ∀ c ∈ name, reWord c = true) :
    shouldIgnoreFile (String.mk (pre ++ ('.' :: '#' :: (name ++ ".go".data)))) = true := by
  unfold shouldIgnoreFile ignoredFilesRegExps
  simp only [List.any_cons, Bool.or_eq_true]
  left
  apply MatchString_of_suffix
  rw [matchAt_single]
  show (matchMany1 reWord (matchSeq ([.one reAny] ++ reLits "go" ++ [.eot]))
    (name ++ ".go".data)).isSome = true
  exact matchMany1_isSome _ _ _ (by decide) name hne hall

theorem ignore_swp (pre name : List Char) (x : Char) (hx : x ≠ '\n') (hne : name ≠ [])
    (hall : ∀ c ∈ name, reWord c = true) :
    shouldIgnoreFile (String.mk (pre ++ (x :: (name ++ ".go.swp".data)))) = true := by
  unfold shouldIgnoreFile ignoredFilesRegExps
  simp only [List.any_cons, Bool.or_eq_true]
  right; left
  apply MatchString_of_suffix
  rw [matchAt_single]
  have hx2 : reAny x = true := by simp [reAny, hx]
  show (if reAny x = true then
      matchMany1 reWord (matchSeq ([.one reAny] ++ reLits "go" ++ [.one reAny] ++
        reLits "swp" ++ [.eot])) (name ++ ".go.swp".data)
    else none).isSome = true
  rw [if_pos hx2]
  exact matchMany1_isSome _ _ _ (by decide) name hne hall

theorem ignore_backup (pre name : List Char) (hne : name ≠ [])
    (hall : ∀ c ∈ name, reWord c = true) :
    shouldIgnoreFile (String.mk (pre ++ (name ++ ".go~".data))) = true := by
  unfold shouldIgnoreFile ignoredFilesRegExps
  simp only [List.any_cons, Bool.or_eq_true]
  right; right; left
  apply MatchString_of_suffix
  rw [matchAt_single]
  show (matchMany1 reWord (matchSeq ([.one reAny] ++ reLits "go~" ++ [.eot]))
    (name ++ ".go~".data)).isSome = true
  exact matchMany1_isSome _ _ _ (by decide) name hne hall

theorem ignore_tmp (pre name : List Char) (hne : name ≠ [])
    (hall : ∀ c ∈ name, reWord c = true) :
    shouldIgnoreFile (String.mk (pre ++ (name ++ ".tmp".data))) = true := by
  unfold shouldIgnoreFile ignoredFilesRegExps
  simp only [List.any_cons, Bool.or_eq_true]
  right; right; right; left
  apply MatchString_of_suffix
  rw [matchAt_single]
  show (matchMany1 reWord (matchSeq ([.one reAny] ++ reLits "tmp" ++ [.eot]))
    (name ++ ".tmp".data)).isSome = true
  exact matchMany1_isSome _ _ _ (by decide) name hne hall

theorem ignore_router (pre : List Char) :
    shouldIgnoreFile (String.mk (pre ++ "commentsRouter_controllers.go".data)) = true := by
  unfold shouldIgnoreFile ignoredFilesRegExps
  simp only [List.any_cons, Bool.or_eq_true]
  right; right; right; right; left
  apply MatchString_of_suffix
  rw [matchAt_single]
  decide

/-- C14 (as amended): for every non-empty name of ASCII letters, digits and
underscores and every text `pre` before it (empty, or a directory path),
`shouldIgnoreFile` is true for `.#name.go`, `name.go~` and `name.tmp`, for
every path ending in `commentsRouter_controllers.go`, and for `name.go.swp`
when the name has at least two characters or a character other than a newline
(a path separator, the dot of a vim swap file) stands right before it. -/
theorem ignore_patterns (pre name : String) (hne : name ≠ "")
    (hall : ∀ c ∈ name.data, reWord c = true) :
    shouldIgnoreFile (pre ++ ".#" ++ name ++ ".go") = true ∧
    shouldIgnoreFile (pre ++ name ++ ".go~") = true ∧
    shouldIgnoreFile (pre ++ name ++ ".tmp") = true ∧
    shouldIgnoreFile (pre ++ "commentsRouter_controllers.go") = true ∧
    (2 ≤ name.length → shouldIgnoreFile (pre ++ name ++ ".go.swp") = true) ∧
    (∀ x : Char, x ≠ '\n' →
      shouldIgnoreFile (pre ++ String.singleton x ++ name ++ ".go.swp") = true) := by
  have hne2 : name.data ≠ [] := by
    intro h
    apply hne
    apply String.ext
    simpa using h
  refine ⟨?_, ?_, ?_, ?_, ?_, ?_⟩
  · rw [string_eq_mk (pre ++ ".#" ++ name ++ ".go")
      (pre.data ++ ('.' :: '#' :: (name.data ++ ".go".data)))
      (by simp [String.data_append])]
    exact ignore_emacs pre.data name.data hne2 hall
  · rw [string_eq_mk (pre ++ name ++ ".go~") (pre.data ++ (name.data ++ ".go~".data))
      (by simp [String.data_append])]
    exact ignore_backup pre.data name.data hne2 hall
  · rw [string_eq_mk (pre ++ name ++ ".tmp") (pre.data ++ (name.data ++ ".tmp".data))
      (by simp [String.data_append])]
    exact ignore_tmp pre.data name.data hne2 hall
  · rw [string_eq_mk (pre ++ "commentsRouter_controllers.go")
      (pre.data ++ "commentsRouter_controllers.go".data) (by simp [String.data_append])]
    exact ignore_router pre.data
  · intro hlen
    have hl : 2 ≤ name.data.length := hlen
    match hd : name.data, hl with
    | c :: d :: w, _ =>
      have hc : reWord c = true := hall c (by simp [hd])
      have hcn : c ≠ '\n' := by
        intro h
        have := reAny_of_reWord c hc
        simp [reAny, h] at this
      rw [string_eq_mk (pre ++ name ++ ".go.swp")
        (pre.data ++ (c :: ((d :: w) ++ ".go.swp".data)))
        (by simp [String.data_append, hd])]
      exact ignore_swp pre.data (d :: w) c hcn (by simp)
        (fun x hx => hall x (by rw [hd]; exact List.mem_cons_of_mem c hx))
  · intro x hx
    rw [string_eq_mk (pre ++ String.singleton x ++ name ++ ".go.swp")
      (pre.data ++ (x :: (name.data ++ ".go.swp".data)))
      (by simp [String.data_append, String.singleton])]
    exact ignore_swp pre.data name.data x hx hne2 hall

/-- Witness of `ignore_patterns`: the name `main` under `src/`. -/
theorem ignore_patterns_witness :
    "main" ≠ "" ∧ (∀ c ∈ "main".data, reWord c = true) ∧
    (shouldIgnoreFile ("src/" ++ ".#" ++ "main" ++ ".go") = true ∧
    shouldIgnoreFile ("src/" ++ "main" ++ ".go~") = true ∧
    shouldIgnoreFile ("src/" ++ "main" ++ ".tmp") = true ∧
    shouldIgnoreFile ("src/" ++ "commentsRouter_controllers.go") = true ∧
    (2 ≤ "main".length → shouldIgnoreFile ("src/" ++ "main" ++ ".go.swp") = true) ∧
    (∀ x : Char, x ≠ '\n' →
      shouldIgnoreFile ("src/" ++ String.singleton x ++ "main" ++ ".go.swp") = true)) :=
  ⟨by decide, by decide, ignore_patterns "src/" "main" (by decide) (by decide)⟩

/-- C14 as stated fails: `a` is a name of one letter, and the file name
`a.go.swp`, with nothing before it, is not ignored. -/
theorem swp_single_letter_not_ignored :
    "a" ≠ "" ∧ (∀ c ∈ "a".data, reWord c = true) ∧
    shouldIgnoreFile ("" ++ "a" ++ ".go.swp") = false := by
  decide

/-! ## Kill and the tracked process -/

theorem Kill_inTime_of_gone (v : Vars) (p : Proc) (d : Nat) (h : Kill.gone v p = some d)
    (hd : d < killWait) : Kill.inTime v p = some d := by
  simp [Kill.inTime, h, hd]

theorem Kill_inTime_of_late (v : Vars) (p : Proc)
    (h : Kill.gone v p = none ∨ ∃ d, Kill.gone v p = some d ∧ killWait ≤ d) :
    Kill.inTime v p = none := by
  rcases h with h | ⟨d, h, hd⟩
  · simp [Kill.inTime, h]
  · have : ¬ d < killWait := by omega
    simp [Kill.inTime, h, this]

/-- C15: for a tracked process `Kill` first sends the graceful signal
(interrupt, kill on Windows); when the process is gone within 10 seconds it
returns without a forced kill; when not, the 10-second timer fires, `Kill`
force-kills the process and returns; so a running process that takes 12
seconds to react to the interrupt is force-killed at the 10-second mark. -/
theorem kill_graceful_then_forced (v : Vars) (st : RunState) (pid : Nat)
    (htracked : st.tracked = some pid) :
    (∃ more, (Kill v st).2 =
      .call "Kill" [] :: .signal pid (if v.GOOS = "windows" then "kill" else "interrupt") ::
        .go (.cmdWait pid) :: more) ∧
    (∀ d, Kill.gone v (st.proc pid) = some d → d < 10000 →
      (Kill v st).2 =
        [.call "Kill" [], .signal pid (if v.GOOS = "windows" then "kill" else "interrupt"),
          .go (.cmdWait pid), .exited pid d] ∧
      ∀ b, Effect.processKill pid b ∉ (Kill v st).2) ∧
    ((Kill.gone v (st.proc pid) = none ∨
        ∃ d, Kill.gone v (st.proc pid) = some d ∧ 10000 ≤ d) →
      (Kill v st).2 =
        [.call "Kill" [], .signal pid (if v.GOOS = "windows" then "kill" else "interrupt"),
          .go (.cmdWait pid), .timeout 10000, .log "Info" "Timeout. Force kill cmd process",
          .processKill pid (st.proc pid).killFails] ++
        (if (st.proc pid).killFails then
          [.log "Error" "Error while killing cmd process"] else [])) ∧
    (v.GOOS ≠ "windows" → (st.proc pid).alive = true →
      (st.proc pid).exitAfter = some 12000 →
      (Kill v st).2 =
        [.call "Kill" [], .signal pid "interrupt", .go (.cmdWait pid), .timeout 10000,
          .log "Info" "Timeout. Force kill cmd process",
          .processKill pid (st.proc pid).killFails] ++
        (if (st.proc pid).killFails then
          [.log "Error" "Error while killing cmd process"] else [])) := by
  have hlate : (Kill.gone v (st.proc pid) = none ∨
        ∃ d, Kill.gone v (st.proc pid) = some d ∧ 10000 ≤ d) →
      (Kill v st).2 =
        [.call "Kill" [], .signal pid (if v.GOOS = "windows" then "kill" else "interrupt"),
          .go (.cmdWait pid), .timeout 10000, .log "Info" "Timeout. Force kill cmd process",
          .processKill pid (st.proc pid).killFails] ++
        (if (st.proc pid).killFails then
          [.log "Error" "Error while killing cmd process"] else []) := by
    intro h
    rw [Kill_timeout v st pid htracked (Kill_inTime_of_late v _ h)]
    rfl
  refine ⟨?_, ?_, hlate, ?_⟩
  · cases hd : Kill.inTime v (st.proc pid) with
    | some d => exact ⟨_, by rw [Kill_exited v st pid d htracked hd]⟩
    | none => exact ⟨_, by rw [Kill_timeout v st pid htracked hd]; rfl⟩
  · intro d hg hd
    rw [Kill_exited v st pid d htracked (Kill_inTime_of_gone v _ d hg hd)]
    exact ⟨rfl, fun b => by simp⟩
  · intro hos halive hexit
    have hg : Kill.gone v (st.proc pid) = some 12000 := by
      simp [Kill.gone, halive, hos, hexit]
    have := hlate (Or.inr ⟨12000, hg, by omega⟩)
    simpa [hos] using this

/-- Witness of `kill_graceful_then_forced`: the process that needs 12 seconds. -/
theorem kill_graceful_then_forced_witness :
    exSlow.tracked = some 0 ∧
    ((∃ more, (Kill exVars exSlow).2 =
      .call "Kill" [] ::
        .signal 0 (if exVars.GOOS = "windows" then "kill" else "interrupt") ::
        .go (.cmdWait 0) :: more) ∧
    (∀ d, Kill.gone exVars (exSlow.proc 0) = some d → d < 10000 →
      (Kill exVars exSlow).2 =
        [.call "Kill" [],
          .signal 0 (if exVars.GOOS = "windows" then "kill" else "interrupt"),
          .go (.cmdWait 0), .exited 0 d] ∧
      ∀ b, Effect.processKill 0 b ∉ (Kill exVars exSlow).2) ∧
    ((Kill.gone exVars (exSlow.proc 0) = none ∨
        ∃ d, Kill.gone exVars (exSlow.proc 0) = some d ∧ 10000 ≤ d) →
      (Kill exVars exSlow).2 =
        [.call "Kill" [],
          .signal 0 (if exVars.GOOS = "windows" then "kill" else "interrupt"),
          .go (.cmdWait 0), .timeout 10000, .log "Info" "Timeout. Force kill cmd process",
          .processKill 0 (exSlow.proc 0).killFails] ++
        (if (exSlow.proc 0).killFails then
          [.log "Error" "Error while killing cmd process"] else [])) ∧
    (exVars.GOOS ≠ "windows" → (exSlow.proc 0).alive = true →
      (exSlow.proc 0).exitAfter = some 12000 →
      (Kill exVars exSlow).2 =
        [.call "Kill" [], .signal 0 "interrupt", .go (.cmdWait 0), .timeout 10000,
          .log "Info" "Timeout. Force kill cmd process",
          .processKill 0 (exSlow.proc 0).killFails] ++
        (if (exSlow.proc 0).killFails then
          [.log "Error" "Error while killing cmd process"] else []))) :=
  ⟨rfl, kill_graceful_then_forced exVars exSlow 0 rfl⟩

/-- The 12-second process is force-killed after the 10-second timeout, and a
process that exits at once is not. -/
theorem exSlow_forced :
    (Kill exVars exSlow).2 =
      [.call "Kill" [], .signal 0 "interrupt", .go (.cmdWait 0), .timeout 10000,
        .log "Info" "Timeout. Force kill cmd process", .processKill 0 false] ∧
    (Kill exVars exRunning).2 =
      [.call "Kill" [], .signal 0 "interrupt", .go (.cmdWait 0), .exited 0 0] := by
  decide

theorem setAlive_tracked (st : RunState) (pid : Nat) (b : Bool) :
    (st.setAlive pid b).cmd = st.cmd ∧ (st.setAlive pid b).tracked = st.tracked :=
  ⟨rfl, rfl⟩

theorem Kill_keeps_cmd (v : Vars) (st : RunState) :
    (Kill v st).1.cmd = st.cmd ∧ (Kill v st).1.tracked = st.tracked := by
  cases h : st.tracked with
  | none => rw [Kill_untracked v st h]; exact ⟨rfl, h⟩
  | some pid =>
    cases hd : Kill.inTime v (st.proc pid) with
    | some d => rw [Kill_exited v st pid d h hd]; exact ⟨rfl, h⟩
    | none => rw [Kill_timeout v st pid h hd]; exact ⟨rfl, h⟩

theorem setAlive_idem (st : RunState) (pid : Nat) (b : Bool) :
    (st.setAlive pid b).setAlive pid b = st.setAlive pid b := by
  unfold RunState.setAlive
  simp only [RunState.mk.injEq, true_and, and_true]
  apply List.ext_getElem?
  intro i
  simp only [List.getElem?_modify]
  cases st.procs[i]? with
  | none => rfl
  | some p => by_cases h : pid = i <;> simp [h]

/-- C16 (as amended): `Start` assigns `cmd` a new handle whose `Process` is nil; a
process is tracked once the goroutine `go cmd.Run()` has started the program,
and none is when the program cannot be started. `Kill` never resets `cmd`: after
it returns the same handle and the same process are tracked. `Kill` with no
tracked process (`cmd` or `cmd.Process` nil) sends no signal and changes
nothing. When the tracked process is gone within 10 seconds of the signal, it
no longer runs when `Kill` returns, and a `Kill` that follows at once signals
the same process again, finds it gone at once and changes nothing. -/
theorem tracked_process_cycle (v : Vars) (conf : Conf) (st : RunState) (n : String)
    (p : Proc) :
    (Start v conf st n).1.tracked = none ∧
    (cmdRun (some p) (Start v conf st n).1 st.made).tracked = some st.procs.length ∧
    (cmdRun (some p) (Start v conf st n).1 st.made).proc st.procs.length = p ∧
    (cmdRun none (Start v conf st n).1 st.made).tracked = none ∧
    (Kill v st).1.cmd = st.cmd ∧
    (Kill v st).1.tracked = st.tracked ∧
    (st.tracked = none → Kill v st = (st, [.call "Kill" []])) ∧
    (∀ pid, st.tracked = some pid → (Kill.inTime v (st.proc pid)).isSome = true →
      ((Kill v st).1.proc pid).alive = false ∧
      Kill v (Kill v st).1 =
        ((Kill v st).1,
          [.call "Kill" [],
            .signal pid (if v.GOOS = "windows" then "kill" else "interrupt"),
            .go (.cmdWait pid), .exited pid 0])) := by
  refine ⟨rfl, ?_, ?_, rfl, (Kill_keeps_cmd v st).1, (Kill_keeps_cmd v st).2,
    Kill_untracked v st, ?_⟩
  · simp [cmdRun, Start, RunState.tracked]
  · simp [cmdRun, Start, RunState.proc]
  · intro pid h hg
    obtain ⟨d, hd⟩ := Option.isSome_iff_exists.mp hg
    have hst : (Kill v st).1 = st.setAlive pid false := by
      rw [Kill_exited v st pid d h hd]
    have hdead : ((st.setAlive pid false).proc pid).alive = false := by
      rw [proc_setAlive]
      by_cases hl : pid < st.procs.length
      · simp [hl]
      · simp [hl, RunState.proc, List.getElem?_eq_none (Nat.le_of_not_lt hl)]
    rw [hst]
    refine ⟨hdead, ?_⟩
    have ht : (st.setAlive pid false).tracked = some pid := h
    have hin : Kill.inTime v ((st.setAlive pid false).proc pid) = some 0 := by
      simp [Kill.inTime, Kill.gone, hdead, killWait]
    rw [Kill_exited v (st.setAlive pid false) pid 0 ht hin, setAlive_idem]

/-- C16 as stated fails: after `Kill` returns the handle of the killed process
is still tracked, and a second `Kill` right after sends the signal again. -/
theorem kill_keeps_handle :
    (Kill exVars exRunning).1.tracked = some 0 ∧
    (Kill exVars exRunning).1.cmd = exRunning.cmd ∧
    Effect.signal 0 "interrupt" ∈ (Kill exVars (Kill exVars exRunning).1).2 := by
  decide

/-! ## Start: argument vector and tokenization -/

/-- C17: `Start` gives the child the argument vector made of the program path
(the application name, with "./" put before it unless it contains "./")
followed by the tokens of `runargs` when that string is not empty and by
`CmdArgs`, unchanged and in order, otherwise; the environment is the parent's
followed by the configured extra variables. -/
theorem start_argv (v : Vars) (conf : Conf) (st : RunState) (n : String) :
    ∃ c, (Start v conf st n).1.cmd = some c ∧
      c.Path = (if Contains n "./" then n else "./" ++ n) ∧
      (v.runargs ≠ "" → c.Args = c.Path :: FindAllString runargsRegexp v.runargs) ∧
      (v.runargs = "" → c.Args = c.Path :: conf.CmdArgs) ∧
      c.Env = v.environ ++ conf.Envs := by
  refine ⟨_, rfl, ?_, ?_, ?_, rfl⟩
  · cases h : Contains n "./" <;> simp [h]
  · intro hr; simp [hr]
  · intro hr; simp [hr]

theorem findAllFrom_skip (re : Regexp) (b : List Char) :
    ∀ a : List Char, findAllFrom re (a ++ b) a.length = findAllFrom re b 0 := by
  intro a
  induction a with
  | nil => rfl
  | cons c a ih => simpa [findAllFrom] using ih

theorem findAllFrom_match (re : Regexp) (c : Char) (s r : List Char)
    (hm : matchAt re (c :: s) = some r) :
    findAllFrom re (c :: s) 0 =
      if (c :: s).length - r.length = 0 then findAllFrom re s 0
      else String.mk ((c :: s).take ((c :: s).length - r.length)) ::
        findAllFrom re s ((c :: s).length - r.length - 1) := by
  rw [findAllFrom, hm]

theorem findAllFrom_nomatch (re : Regexp) (c : Char) (s : List Char)
    (hm : matchAt re (c :: s) = none) : findAllFrom re (c :: s) 0 = findAllFrom re s 0 := by
  rw [findAllFrom, hm]

theorem findAllFrom_token (re : Regexp) (t more : List Char) (ht : t ≠ [])
    (hm : matchAt re (t ++ more) = some more) :
    findAllFrom re (t ++ more) 0 = String.mk t :: findAllFrom re more 0 := by
  cases t with
  | nil => exact absurd rfl ht
  | cons c t =>
    have hm2 : matchAt re (c :: (t ++ more)) = some more := hm
    have hn : (c :: (t ++ more)).length - more.length = t.length + 1 := by
      simp only [List.length_cons, List.length_append]
      omega
    have htake : List.take (t.length + 1) (c :: (t ++ more)) = c :: t := by
      simp [List.take_succ_cons]
    rw [List.cons_append, findAllFrom_match re c (t ++ more) more hm2, hn, htake,
      if_neg (Nat.succ_ne_zero _), Nat.add_sub_cancel, findAllFrom_skip]

theorem matchMany1_cons (p : Char → Bool) (k : List Char → Option (List Char)) (c : Char)
    (s : List Char) (hc : p c = true) :
    matchMany1 p k (c :: s) =
      match matchMany1 p k s with
      | some r => some r
      | none => k s := by
  rw [matchMany1, if_pos hc]

theorem matchMany1_stop (p : Char → Bool) (k : List Char → Option (List Char)) (c : Char)
    (s : List Char) (hc : p c = false) : matchMany1 p k (c :: s) = none := by
  rw [matchMany1, if_neg (by simp [hc])]

theorem matchMany1_all (p : Char → Bool) (more : List Char)
    (hmore : more = [] ∨ ∃ d r, more = d :: r ∧ p d = false) :
    ∀ w : List Char, w ≠ [] → (∀ c ∈ w, p c = true) →
      matchMany1 p (fun s => some s) (w ++ more) = some more := by
  have hstop : matchMany1 p (fun s => some s) more = none := by
    rcases hmore with h | ⟨d, r, h, hd⟩
    · subst h; rfl
    · subst h; exact matchMany1_stop p _ d r hd
  intro w
  induction w with
  | nil => intro h; exact absurd rfl h
  | cons c w ih =>
    intro _ hall
    have hc : p c = true := hall c (List.mem_cons_self c w)
    rw [List.cons_append, matchMany1_cons p _ c (w ++ more) hc]
    cases w with
    | nil => rw [List.nil_append, hstop]
    | cons d w2 =>
      rw [ih (by simp) (fun x hx => hall x (List.mem_cons_of_mem c hx))]

theorem matchSeq_lit_ne (q : Char) (more : List Char) (hq : q ∉ more) :
    matchSeq [reLit q] more = none := by
  cases more with
  | nil => rfl
  | cons e r2 =>
    have he : e ≠ q := fun h => hq (by simp [h])
    simp [matchSeq, reLit, he]

theorem matchMany1_noquote (q : Char) :
    ∀ more : List Char, q ∉ more →
      matchMany1 reAny (matchSeq [reLit q]) more = none := by
  intro more
  induction more with
  | nil => intro _; rfl
  | cons d r ih =>
    intro hq
    have hr : q ∉ r := fun h => hq (List.mem_cons_of_mem d h)
    cases hd : reAny d with
    | false => exact matchMany1_stop _ _ d r hd
    | true => rw [matchMany1_cons _ _ d r hd, ih hr, matchSeq_lit_ne q r hr]

theorem matchMany1_quoted (q : Char) (hq : reAny q = true) (more : List Char)
    (hmore : q ∉ more) :
    ∀ body : List Char, body ≠ [] → (∀ c ∈ body, reAny c = true) →
      matchMany1 reAny (matchSeq [reLit q]) (body ++ q :: more) = some more := by
  have hinner : matchMany1 reAny (matchSeq [reLit q]) (q :: more) = none := by
    rw [matchMany1_cons _ _ q more hq, matchMany1_noquote q more hmore,
      matchSeq_lit_ne q more hmore]
  have hclose : matchSeq [reLit q] (q :: more) = some more := by
    simp [matchSeq, reLit]
  intro body
  induction body with
  | nil => intro h; exact absurd rfl h
  | cons c b ih =>
    intro _ hall
    have hc : reAny c = true := hall c (List.mem_cons_self c b)
    rw [List.cons_append, matchMany1_cons _ _ c (b ++ q :: more) hc]
    cases b with
    | nil => rw [List.nil_append, hinner, hclose]
    | cons d b2 =>
      rw [ih (by simp) (fun x hx => hall x (List.mem_cons_of_mem c hx))]

theorem matchAt_runargs (s : List Char) :
    matchAt runargsRegexp s =
      match matchSeq [reLit '\'', .many1 reAny, reLit '\''] s with
      | some r => some r
      | none =>
        match matchSeq [reLit '"', .many1 reAny, reLit '"'] s with
        | some r => some r
        | none => matchSeq [.many1 reNonSpace] s := by
  unfold matchAt runargsRegexp
  cases h1 : matchSeq [reLit '\'', .many1 reAny, reLit '\''] s <;>
    cases h2 : matchSeq [reLit '"', .many1 reAny, reLit '"'] s <;>
    cases h3 : matchSeq [.many1 reNonSpace] s <;>
    simp [List.findSome?, h1, h2, h3]

theorem matchSeq_lit_head (q c : Char) (as : List Atom) (s : List Char) :
    matchSeq (reLit q :: as) (c :: s) = if c = q then matchSeq as s else none := by
  simp [matchSeq, reLit]

theorem matchAt_runargs_space (c : Char) (s : List Char) (hc : reNonSpace c = false) :
    matchAt runargsRegexp (c :: s) = none := by
  have h1 : c ≠ '\'' := by
    intro h; subst h; exact absurd hc (by decide)
  have h2 : c ≠ '"' := by
    intro h; subst h; exact absurd hc (by decide)
  have h3 : matchSeq [.many1 reNonSpace] (c :: s) = none :=
    matchMany1_stop reNonSpace _ c s hc
  rw [matchAt_runargs, matchSeq_lit_head, matchSeq_lit_head, if_neg h1, if_neg h2, h3]

theorem matchAt_runargs_word (c : Char) (w more : List Char) (h1 : c ≠ '\'') (h2 : c ≠ '"')
    (hall : ∀ x ∈ c :: w, reNonSpace x = true)
    (hmore : more = [] ∨ ∃ d r, more = d :: r ∧ reNonSpace d = false) :
    matchAt runargsRegexp ((c :: w) ++ more) = some more := by
  have h3 : matchSeq [.many1 reNonSpace] ((c :: w) ++ more) = some more :=
    matchMany1_all reNonSpace more hmore (c :: w) (by simp) hall
  rw [matchAt_runargs, h3, List.cons_append, matchSeq_lit_head, matchSeq_lit_head,
    if_neg h1, if_neg h2]

theorem matchAt_runargs_quoted (q : Char) (hq : q = '\'' ∨ q = '"') (body more : List Char)
    (hbody : body ≠ []) (hline : ∀ c ∈ body, c ≠ '\n') (hmore : q ∉ more) :
    matchAt runargsRegexp (q :: (body ++ q :: more)) = some more := by
  have hall : ∀ c ∈ body, reAny c = true := fun c hc => by simp [reAny, hline c hc]
  rcases hq with h | h
  · subst h
    have hm := matchMany1_quoted '\'' (by decide) more hmore body hbody hall
    have hseq : matchSeq [reLit '\'', .many1 reAny, reLit '\''] ('\'' :: (body ++ '\'' :: more)) =
        some more := by
      rw [matchSeq_lit_head, if_pos rfl]
      exact hm
    rw [matchAt_runargs, hseq]
  · subst h
    have hm := matchMany1_quoted '"' (by decide) more hmore body hbody hall
    have hseq : matchSeq [reLit '"', .many1 reAny, reLit '"'] ('"' :: (body ++ '"' :: more)) =
        some more := by
      rw [matchSeq_lit_head, if_pos rfl]
      exact hm
    have hne : ('"' : Char) ≠ '\'' := by decide
    rw [matchAt_runargs, matchSeq_lit_head, if_neg hne, hseq]

/-- C18 (as amended): the tokenization of `runargs` by `Start` skips white
space (`[\t\n\f\r ]`); a run of other characters that does not begin with a
quote is one argument up to the next white space, whatever quotes it has
inside, so white space inside quotes that open within an argument, as in
`--name="a b"`, does split; a quoted substring that begins an argument, with a
body on one line, is one argument with its quotes and its white space when no
quote of the same kind follows its closing quote. -/
theorem runargs_tokens :
    FindAllString runargsRegexp "" = [] ∧
    (∀ (c : Char) (more : List Char), reNonSpace c = false →
      FindAllString runargsRegexp (String.mk (c :: more)) =
        FindAllString runargsRegexp (String.mk more)) ∧
    (∀ (c : Char) (w more : List Char), c ≠ '\'' → c ≠ '"' →
      (∀ x ∈ c :: w, reNonSpace x = true) →
      (more = [] ∨ ∃ d r, more = d :: r ∧ reNonSpace d = false) →
      FindAllString runargsRegexp (String.mk ((c :: w) ++ more)) =
        String.mk (c :: w) :: FindAllString runargsRegexp (String.mk more)) ∧
    (∀ (q : Char) (body more : List Char), (q = '\'' ∨ q = '"') → body ≠ [] →
      (∀ x ∈ body, x ≠ '\n') → q ∉ more →
      FindAllString runargsRegexp (String.mk (q :: (body ++ q :: more))) =
        String.mk (q :: (body ++ [q])) :: FindAllString runargsRegexp (String.mk more)) ∧
    FindAllString runargsRegexp "--name=\"a b\"" = ["--name=\"a", "b\""] ∧
    FindAllString runargsRegexp "'a b'" = ["'a b'"] ∧
    FindAllString runargsRegexp "-x \"a b\" y" = ["-x", "\"a b\"", "y"] := by
  refine ⟨rfl, ?_, ?_, ?_, by decide, by decide, by decide⟩
  · intro c more hc
    exact findAllFrom_nomatch runargsRegexp c more (matchAt_runargs_space c more hc)
  · intro c w more h1 h2 hall hmore
    exact findAllFrom_token runargsRegexp (c :: w) more (by simp)
      (matchAt_runargs_word c w more h1 h2 hall hmore)
  · intro q body more hq hbody hline hmore
    have hm := matchAt_runargs_quoted q hq body more hbody hline hmore
    have heq : q :: (body ++ q :: more) = (q :: (body ++ [q])) ++ more := by simp
    show findAllFrom runargsRegexp (q :: (body ++ q :: more)) 0 = _
    rw [heq] at hm ⊢
    exact findAllFrom_token runargsRegexp (q :: (body ++ [q])) more (by simp) hm

/-- C18 as stated fails: white space inside quotes that open within an
argument splits the argument, and two quoted substrings separated by white
space come out as one argument. -/
theorem runargs_quotes_not_respected :
    FindAllString runargsRegexp "--name=\"a b\"" = ["--name=\"a", "b\""] ∧
    FindAllString runargsRegexp "'a b' 'c d'" = ["'a b' 'c d'"] := by
  decide

/-! ## The outbound pump -/

theorem drain_all (arrived : List Message) :
    ∀ (ms : List Message) (w : String),
      writePump.drain ms.length (ms ++ arrived) w =
        some (w ++ writePump.framed ms, arrived) := by
  intro ms
  induction ms with
  | nil => intro w; simp [writePump.drain, writePump.framed]
  | cons x ms ih =>
    intro w
    have hstep : writePump.drain (x :: ms).length ((x :: ms) ++ arrived) w =
        writePump.drain ms.length (ms ++ arrived) (w ++ writePump.separator ++ x) := rfl
    have hframed : writePump.framed (x :: ms) =
        writePump.separator ++ x ++ writePump.framed ms := rfl
    rw [hstep, ih, hframed]
    simp only [String.append_assoc]

/-- C19 (as amended): when the pump takes `m` while `queued` further messages
are in the queue, it removes exactly those from the queue (messages arriving
later stay) and writes one text frame whose payload is `m` followed, for each
queued message in queue order, by the separator "/n" and that message; with
nothing further queued the payload is `m`. -/
theorem writePump_frame (ch : Chan) (m : Message) (queued arrived : List Message)
    (hbuf : ch.buf = m :: queued) :
    wsClient.writePump ch arrived =
      some (m ++ writePump.framed queued, { ch with buf := arrived }) ∧
    writePump.framed [] = "" ∧
    (∀ x xs, writePump.framed (x :: xs) = "/n" ++ x ++ writePump.framed xs) := by
  refine ⟨?_, rfl, fun _ _ => rfl⟩
  simp [wsClient.writePump, hbuf, drain_all]

/-- Witness of `writePump_frame`: the queue `a`, `b`. -/
theorem writePump_frame_witness :
    exQueueAB.buf = "a" :: ["b"] ∧
    (wsClient.writePump exQueueAB ["c"] =
      some ("a" ++ writePump.framed ["b"], { exQueueAB with buf := ["c"] }) ∧
    writePump.framed [] = "" ∧
    (∀ x xs, writePump.framed (x :: xs) = "/n" ++ x ++ writePump.framed xs)) :=
  ⟨rfl, writePump_frame exQueueAB "a" ["b"] ["c"] rfl⟩

/-- C19 as stated fails: with `b` queued behind `a` the payload is `a/nb`, not
the concatenation `ab`. -/
theorem writePump_separator_in_payload :
    (wsClient.writePump exQueueAB []).map (fun r => r.1) = some "a/nb" ∧
    concatMessages ["a", "b"] = "ab" ∧
    (wsClient.writePump exQueueAB []).map (fun r => r.1) ≠
      some (concatMessages ["a", "b"]) := by
  decide

/-! ## Order of delivery -/

theorem broadcastTo_cases (m : Message) (h h1 : HubState) (a : wsClient)
    (hb : broadcastTo m h a = some h1) :
    h1 = { h with send := Function.update h.send a ((h.send a).push m) } ∨
    h1 = { clients := deleteClient h.clients a,
           send := Function.update h.send a (h.send a).shut } := by
  unfold broadcastTo Chan.trySend Chan.close at hb
  by_cases hc : (h.send a).closed = true
  · simp [hc] at hb
  · by_cases hl : (h.send a).buf.length < (h.send a).cap
    · left
      simp [hc, hl] at hb
      exact hb.symm
    · right
      simp [hc, hl] at hb
      exact hb.symm

theorem deleteClient_sublist (cs : List wsClient) (a : wsClient) :
    (deleteClient cs a).Sublist cs := List.filter_sublist cs

/-- What a broadcast loop over the clients `l` that does not panic leaves. -/
theorem foldlM_broadcastTo_outcome (m : Message) (l : List wsClient) :
    ∀ h h2 : HubState, l.Nodup → l.foldlM (broadcastTo m) h = some h2 →
      h2.clients.Sublist h.clients ∧
      (∀ x, x ∉ l → h2.send x = h.send x ∧ (x ∈ h2.clients ↔ x ∈ h.clients)) ∧
      (∀ x, x ∈ l →
        (h2.send x = (h.send x).push m ∧ (x ∈ h2.clients ↔ x ∈ h.clients)) ∨
        (h2.send x = (h.send x).shut ∧ x ∉ h2.clients)) := by
  induction l with
  | nil =>
    intro h h2 _ hrun
    have : h2 = h := by simpa using hrun.symm
    subst this
    exact ⟨List.Sublist.refl _, fun x _ => ⟨rfl, Iff.rfl⟩, fun x hx => absurd hx (by simp)⟩
  | cons a l ih =>
    intro h h2 hnd hrun
    have hal : a ∉ l := (List.nodup_cons.mp hnd).1
    have hnd2 : l.Nodup := (List.nodup_cons.mp hnd).2
    rw [List.foldlM_cons] at hrun
    cases hb : broadcastTo m h a with
    | none => simp [hb] at hrun
    | some h1 =>
      rw [hb] at hrun
      have hrun2 : l.foldlM (broadcastTo m) h1 = some h2 := by simpa using hrun
      obtain ⟨hsub, hout, hin⟩ := ih h1 h2 hnd2 hrun2
      have ha := hout a hal
      rcases broadcastTo_cases m h h1 a hb with h1eq | h1eq
      · have hcl : h1.clients = h.clients := by rw [h1eq]
        have hsend : ∀ x, x ≠ a → h1.send x = h.send x := by
          intro x hx; rw [h1eq]; exact Function.update_noteq hx _ _
        have hsa : h1.send a = (h.send a).push m := by
          rw [h1eq]; exact Function.update_same _ _ _
        refine ⟨hcl ▸ hsub, ?_, ?_⟩
        · intro x hx
          have hxa : x ≠ a := fun e => hx (e ▸ List.mem_cons_self a l)
          have hxl : x ∉ l := fun e => hx (List.mem_cons_of_mem a e)
          have := hout x hxl
          rw [hsend x hxa, hcl] at this
          exact this
        · intro x hx
          rcases List.mem_cons.mp hx with hxa | hxl
          · subst hxa
            left
            rw [hsa, hcl] at ha
            exact ha
          · have hxa : x ≠ a := fun e => hal (e ▸ hxl)
            have := hin x hxl
            rw [hsend x hxa, hcl] at this
            exact this
      · have hcl : ∀ x, x ∈ h1.clients ↔ x ∈ h.clients ∧ x ≠ a := by
          intro x; rw [h1eq]; exact mem_deleteClient h.clients a x
        have hsend : ∀ x, x ≠ a → h1.send x = h.send x := by
          intro x hx; rw [h1eq]; exact Function.update_noteq hx _ _
        have hsa : h1.send a = (h.send a).shut := by
          rw [h1eq]; exact Function.update_same _ _ _
        have hsub1 : h1.clients.Sublist h.clients := by
          rw [h1eq]; exact deleteClient_sublist h.clients a
        refine ⟨hsub.trans hsub1, ?_, ?_⟩
        · intro x hx
          have hxa : x ≠ a := fun e => hx (e ▸ List.mem_cons_self a l)
          have hxl : x ∉ l := fun e => hx (List.mem_cons_of_mem a e)
          have := hout x hxl
          rw [hsend x hxa] at this
          refine ⟨this.1, this.2.trans ?_⟩
          rw [hcl x]
          exact ⟨fun hh => hh.1, fun hh => ⟨hh, hxa⟩⟩
        · intro x hx
          rcases List.mem_cons.mp hx with hxa | hxl
          · subst hxa
            right
            refine ⟨ha.1.trans hsa, ?_⟩
            intro hmem
            exact ((hcl x).mp (ha.2.mp hmem)).2 rfl
          · have hxa : x ≠ a := fun e => hal (e ▸ hxl)
            have := hin x hxl
            rw [hsend x hxa] at this
            rcases this with ⟨hs, hm⟩ | ⟨hs, hm⟩
            · left
              refine ⟨hs, hm.trans ?_⟩
              rw [hcl x]
              exact ⟨fun hh => hh.1, fun hh => ⟨hh, hxa⟩⟩
            · right
              exact ⟨hs, hm⟩

theorem broadcastsOf_cons (ev : HubEvent) (evs : List HubEvent) :
    broadcastsOf (ev :: evs) = broadcastsOf [ev] ++ broadcastsOf evs := by
  cases ev with
  | intent i => cases i <;> rfl
  | recv c => rfl

theorem HubRun.step_effect (s s1 : HubRun) (ev : HubEvent) (c : wsClient)
    (hnd : s.hub.clients.Nodup) (hev : ev ≠ .intent (.register c))
    (hstep : s.step ev = some s1) :
    s1.hub.clients.Nodup ∧
    (c ∈ s1.hub.clients → c ∈ s.hub.clients) ∧
    (c ∈ s.hub.clients → c ∈ s1.hub.clients →
      s1.placed c = s.placed c ++ broadcastsOf [ev]) ∧
    (c ∉ s1.hub.clients → s1.placed c = s.placed c) := by
  cases ev with
  | recv d =>
    simp only [HubRun.step] at hstep
    cases hbuf : (s.hub.send d).buf with
    | nil => simp [hbuf] at hstep
    | cons m tl =>
      rw [hbuf] at hstep
      have hs1 : s1 =
          { hub := { clients := s.hub.clients,
                     send := Function.update s.hub.send d (s.hub.send d).pop },
            taken := Function.update s.taken d (s.taken d ++ [m]) } := by
        simpa using hstep.symm
      have hplaced : s1.placed c = s.placed c := by
        subst hs1
        by_cases hdc : c = d
        · subst hdc
          simp [HubRun.placed, Chan.pop, hbuf]
        · simp [HubRun.placed, Function.update_noteq hdc]
      subst hs1
      refine ⟨hnd, fun h => h, fun _ _ => ?_, fun _ => hplaced⟩
      rw [hplaced]
      simp [broadcastsOf]
  | intent i =>
    simp only [HubRun.step] at hstep
    cases hr : wsBroker.runStep s.hub i with
    | none => simp [hr] at hstep
    | some h =>
      rw [hr] at hstep
      have hs1 : s1 = { s with hub := h } := by simpa using hstep.symm
      subst hs1
      cases i with
      | register d =>
        have hdc : c ≠ d := by
          intro e
          apply hev
          rw [e]
        have hh : h =
            { clients := if d ∈ s.hub.clients then s.hub.clients else s.hub.clients ++ [d],
              send := s.hub.send } := by
          simpa [wsBroker.runStep] using hr.symm
        subst hh
        have hmem : c ∈ (if d ∈ s.hub.clients then s.hub.clients else s.hub.clients ++ [d]) →
            c ∈ s.hub.clients := by
          by_cases hd : d ∈ s.hub.clients
          · simp [hd]
          · simp [hd, hdc]
        refine ⟨?_, hmem, fun _ _ => ?_, fun _ => rfl⟩
        · by_cases hd : d ∈ s.hub.clients
          · simpa [hd] using hnd
          · simp only [hd, if_false]
            exact List.Nodup.append hnd (List.nodup_singleton d)
              (by simpa [List.disjoint_singleton] using hd)
        · simp [HubRun.placed, broadcastsOf]
      | unregister d =>
        by_cases hd : d ∈ s.hub.clients
        · have hopen : (s.hub.send d).closed = false := by
            by_contra hc
            simp [wsBroker.runStep, hd, Chan.close, hc] at hr
          have hh : h =
              { clients := deleteClient s.hub.clients d,
                send := Function.update s.hub.send d (s.hub.send d).shut } := by
            simpa [wsBroker.runStep, hd, Chan.close, hopen] using hr.symm
          subst hh
          have hplaced : HubRun.placed
              { hub := { clients := deleteClient s.hub.clients d,
                         send := Function.update s.hub.send d (s.hub.send d).shut },
                taken := s.taken } c =
              s.placed c := by
            by_cases hcd : c = d
            · subst hcd
              simp [HubRun.placed, Chan.shut]
            · simp [HubRun.placed, Function.update_noteq hcd]
          refine ⟨(deleteClient_sublist s.hub.clients d).nodup hnd, ?_, fun _ _ => ?_,
            fun _ => hplaced⟩
          · intro hm
            exact ((mem_deleteClient s.hub.clients d c).mp hm).1
          · rw [hplaced]
            simp [broadcastsOf]
        · have hh : h = s.hub := by simpa [wsBroker.runStep, hd] using hr.symm
          subst hh
          refine ⟨hnd, fun hm => hm, fun _ _ => ?_, fun _ => rfl⟩
          simp [HubRun.placed, broadcastsOf]
      | broadcast m =>
        have hrun : s.hub.clients.foldlM (broadcastTo m) s.hub = some h := hr
        obtain ⟨hsub, hout, hin⟩ :=
          foldlM_broadcastTo_outcome m s.hub.clients s.hub h hnd hrun
        refine ⟨hsub.nodup hnd, fun hm => hsub.subset hm, ?_, ?_⟩
        · intro hc hc1
          rcases hin c hc with ⟨hs, _⟩ | ⟨_, hno⟩
          · simp [HubRun.placed, hs, Chan.push, broadcastsOf]
          · exact absurd hc1 hno
        · intro hc1
          by_cases hc : c ∈ s.hub.clients
          · rcases hin c hc with ⟨_, hm⟩ | ⟨hs, _⟩
            · exact absurd (hm.mpr hc) hc1
            · simp [HubRun.placed, hs, Chan.shut]
          · simp [HubRun.placed, (hout c hc).1]

theorem HubRun.run_cons (s : HubRun) (ev : HubEvent) (evs : List HubEvent) :
    s.run (ev :: evs) =
      match s.step ev with
      | none => none
      | some s1 => s1.run evs := by
  unfold HubRun.run
  rw [List.foldlM_cons]
  cases s.step ev <;> rfl

theorem HubRun.run_placed (c : wsClient) (evs : List HubEvent) :
    ∀ s s2 : HubRun, s.hub.clients.Nodup → HubEvent.intent (.register c) ∉ evs →
      s.run evs = some s2 →
      (c ∈ s.hub.clients →
        (c ∈ s2.hub.clients → s2.placed c = s.placed c ++ broadcastsOf evs) ∧
        (c ∉ s2.hub.clients →
          ∃ k, s2.placed c = s.placed c ++ (broadcastsOf evs).take k)) ∧
      (c ∉ s.hub.clients → c ∉ s2.hub.clients ∧ s2.placed c = s.placed c) := by
  induction evs with
  | nil =>
    intro s s2 _ _ hrun
    have hs : s2 = s := by simpa [HubRun.run] using hrun.symm
    subst hs
    refine ⟨fun _ => ⟨fun _ => by simp [broadcastsOf], fun _ => ⟨0, by simp⟩⟩,
      fun h => ⟨h, rfl⟩⟩
  | cons ev evs ih =>
    intro s s2 hnd hno hrun
    have hev : ev ≠ .intent (.register c) := fun e => hno (e ▸ List.mem_cons_self ev evs)
    have hno2 : HubEvent.intent (.register c) ∉ evs := fun h => hno (List.mem_cons_of_mem ev h)
    rw [HubRun.run_cons] at hrun
    cases hstep : s.step ev with
    | none => simp [hstep] at hrun
    | some s1 =>
      rw [hstep] at hrun
      have hrun2 : s1.run evs = some s2 := hrun
      obtain ⟨hnd1, hback, hkeep, hgone⟩ := HubRun.step_effect s s1 ev c hnd hev hstep
      obtain ⟨hin, hout⟩ := ih s1 s2 hnd1 hno2 hrun2
      rw [broadcastsOf_cons]
      constructor
      · intro hc
        by_cases hc1 : c ∈ s1.hub.clients
        · obtain ⟨hall, hpre⟩ := hin hc1
          constructor
          · intro hc2
            rw [hall hc2, hkeep hc hc1, List.append_assoc]
          · intro hc2
            obtain ⟨k, hk⟩ := hpre hc2
            refine ⟨(broadcastsOf [ev]).length + k, ?_⟩
            rw [hk, hkeep hc hc1, List.append_assoc, List.take_append]
        · obtain ⟨hc2, hsame⟩ := hout hc1
          constructor
          · intro h
            exact absurd h hc2
          · intro _
            refine ⟨0, ?_⟩
            rw [hsame, hgone hc1]
            simp
      · intro hc
        have hc1 : c ∉ s1.hub.clients := fun h => hc (hback h)
        obtain ⟨hc2, hsame⟩ := hout hc1
        exact ⟨hc2, by rw [hsame, hgone hc1]⟩

/-- C20: for every sequence of intents handled by the hub without a panic,
interleaved with receives by the pumps, and every client registered at the
start and not registered again, the messages placed on its queue (received
by its pump or still queued) grow by exactly the messages broadcast, in
broadcast order, as long as it stays registered; a client no longer
registered got a prefix of them: every broadcast up to its removal, none
after. -/
theorem hub_delivers_in_order (s s2 : HubRun) (evs : List HubEvent) (c : wsClient)
    (hnd : s.hub.clients.Nodup) (hc : c ∈ s.hub.clients)
    (hno : HubEvent.intent (.register c) ∉ evs) (hrun : s.run evs = some s2) :
    (c ∈ s2.hub.clients → s2.placed c = s.placed c ++ broadcastsOf evs) ∧
    (c ∉ s2.hub.clients → ∃ k, s2.placed c = s.placed c ++ (broadcastsOf evs).take k) :=
  (HubRun.run_placed c evs s s2 hnd hno hrun).1 hc

theorem exHubRun_run : exHubRun.run exEvents = some exHubRunEnd := by
  have hs : (exHubRun.run exEvents).isSome = true := by decide
  obtain ⟨x, hx⟩ := Option.isSome_iff_exists.mp hs
  simp [exHubRunEnd, hx]

/-- In the example client 0 has been handed `a` and `b`, in this order, and
client 1, unregistered after `a`, only `a`. -/
theorem exHubRunEnd_placed :
    exHubRunEnd.hub.clients = [0] ∧ exHubRunEnd.placed 0 = ["a", "b"] ∧
    exHubRunEnd.taken 0 = ["a"] ∧ exHubRunEnd.placed 1 = ["a"] := by
  decide

/-- Witness of `hub_delivers_in_order`: client 0 in the example run. -/
theorem hub_delivers_in_order_witness :
    exHubRun.hub.clients.Nodup ∧ 0 ∈ exHubRun.hub.clients ∧
    HubEvent.intent (.register 0) ∉ exEvents ∧ exHubRun.run exEvents = some exHubRunEnd ∧
    ((0 ∈ exHubRunEnd.hub.clients →
      exHubRunEnd.placed 0 = exHubRun.placed 0 ++ broadcastsOf exEvents) ∧
    (0 ∉ exHubRunEnd.hub.clients →
      ∃ k, exHubRunEnd.placed 0 = exHubRun.placed 0 ++ (broadcastsOf exEvents).take k)) :=
  ⟨by decide, by decide, by decide, exHubRun_run,
    hub_delivers_in_order exHubRun exHubRunEnd exEvents 0 (by decide) (by decide) (by decide)
      exHubRun_run⟩

/-! ## sendReload: the payload is trimmed -/

/-- What `dropWhile` leaves does not begin with a dropped character. -/
theorem head_dropWhile_isSpace (l : List Char) (c : Char)
    (h : (l.dropWhile isSpace).head? = some c) : isSpace c = false := by
  induction l with
  | nil => simp at h
  | cons a l ih =>
    by_cases ha : isSpace a = true
    · rw [List.dropWhile_cons_of_pos ha] at h
      exact ih h
    · rw [List.dropWhile_cons_of_neg ha] at h
      simp only [List.head?_cons, Option.some.injEq] at h
      subst h
      simpa using ha

/-- A text whose first character, if any, is not white space loses nothing at
the front. -/
theorem dropWhile_isSpace_self (l : List Char)
    (h : ∀ c, l.head? = some c → isSpace c = false) : l.dropWhile isSpace = l := by
  cases l with
  | nil => rfl
  | cons a l =>
    have ha : ¬ isSpace a = true := by
      rw [h a rfl]
      simp
    exact List.dropWhile_cons_of_neg ha

/-- The characters of a trimmed text. -/
theorem TrimSpace_data (s : String) :
    (TrimSpace s).data = ((s.data.dropWhile isSpace).reverse.dropWhile isSpace).reverse := rfl

/-- The first and the last character of a trimmed text are not white space. -/
theorem TrimSpace_ends (s : String) :
    (∀ c, (TrimSpace s).data.head? = some c → isSpace c = false) ∧
    (∀ c, (TrimSpace s).data.getLast? = some c → isSpace c = false) := by
  rw [TrimSpace_data]
  have hlast : ∀ c, ((s.data.dropWhile isSpace).reverse.dropWhile isSpace).reverse.getLast?
      = some c → isSpace c = false := by
    intro c hc
    rw [List.getLast?_reverse] at hc
    exact head_dropWhile_isSpace _ c hc
  refine ⟨?_, hlast⟩
  intro c hc
  -- the trimmed text is a prefix of the text without its leading white space
  have hsplit := List.takeWhile_append_dropWhile isSpace (s.data.dropWhile isSpace).reverse
  have hrev : s.data.dropWhile isSpace =
      ((s.data.dropWhile isSpace).reverse.dropWhile isSpace).reverse ++
        ((s.data.dropWhile isSpace).reverse.takeWhile isSpace).reverse := by
    rw [← List.reverse_append, hsplit, List.reverse_reverse]
  generalize ((s.data.dropWhile isSpace).reverse.dropWhile isSpace).reverse = b at hc hrev
  cases b with
  | nil => simp at hc
  | cons x b =>
    simp only [List.head?_cons, Option.some.injEq] at hc
    subst hc
    apply head_dropWhile_isSpace s.data x
    rw [hrev]
    rfl

/-- Trimming keeps the interior: the text is white space, the trimmed text,
white space. -/
theorem TrimSpace_interior (s : String) :
    ∃ pre post : List Char, s.data = pre ++ (TrimSpace s).data ++ post ∧
      (∀ c ∈ pre, isSpace c = true) ∧ (∀ c ∈ post, isSpace c = true) := by
  refine ⟨s.data.takeWhile isSpace,
    ((s.data.dropWhile isSpace).reverse.takeWhile isSpace).reverse, ?_, ?_, ?_⟩
  · rw [TrimSpace_data, List.append_assoc, ← List.reverse_append,
      List.takeWhile_append_dropWhile, List.reverse_reverse, List.takeWhile_append_dropWhile]
  · intro c hc
    exact List.mem_takeWhile_imp hc
  · intro c hc
    exact List.mem_takeWhile_imp (List.mem_reverse.mp hc)

/-- Trimming a trimmed text changes nothing. -/
theorem TrimSpace_idem (s : String) : TrimSpace (TrimSpace s) = TrimSpace s := by
  have h := TrimSpace_ends s
  apply String.ext
  rw [TrimSpace_data (TrimSpace s)]
  rw [dropWhile_isSpace_self _ h.1]
  rw [dropWhile_isSpace_self (TrimSpace s).data.reverse, List.reverse_reverse]
  intro c hc
  rw [List.head?_reverse] at hc
  exact h.2 c hc

/-- C21: the message `sendReload` hands to the hub is the payload without its
leading and trailing white space: the payload is white space, then the message,
then white space; the message neither begins nor ends with a white-space
character; and trimming the message again changes nothing. -/
theorem sendReload_trims (payload : String) :
    ∃ m : Message,
      sendReload payload = [.call "sendReload" [payload], .broadcast m] ∧
      m = TrimSpace payload ∧
      (∃ pre post : List Char, payload.data = pre ++ m.data ++ post ∧
        (∀ c ∈ pre, isSpace c = true) ∧ (∀ c ∈ post, isSpace c = true)) ∧
      (∀ c, m.data.head? = some c → isSpace c = false) ∧
      (∀ c, m.data.getLast? = some c → isSpace c = false) ∧
      TrimSpace m = m :=
  ⟨TrimSpace payload, rfl, rfl, TrimSpace_interior payload, (TrimSpace_ends payload).1,
    (TrimSpace_ends payload).2, TrimSpace_idem payload⟩

/-! ## AutoBuild: the argument vector of the compile step -/

/-- C22: the argument vector of the compile step is `build`, `-o` and the output
name, then `-tags` and the tags exactly when the tags are not empty, then
`-ldflags` and the flags exactly when the flags are not empty, then the files in
their order; the output name is the application name, with `.exe` appended
on Windows; and this is the vector `AutoBuild` runs `go` with whenever the docs
step does not fail. -/
theorem compile_argv (v : Vars) (conf : Conf) (o : BuildOutcome) (st : RunState)
    (files : List String) (isgenerate : Bool) :
    buildArgs v files =
      ["build", "-o", binaryName v] ++
        (if v.buildTags ≠ "" then ["-tags", v.buildTags] else []) ++
        (if v.buildLDFlags ≠ "" then ["-ldflags", v.buildLDFlags] else []) ++ files ∧
    binaryName v = (if v.GOOS = "windows" then v.appname ++ ".exe" else v.appname) ∧
    ((isgenerate && o.docsErr) = false →
      .run "go" (buildArgs v files) (v.environ ++ ["GOGC=off"]) o.buildErr ∈
        (AutoBuild v conf o st files isgenerate).2) := by
  refine ⟨?_, rfl, ?_⟩
  · unfold buildArgs
    by_cases ht : v.buildTags = "" <;> by_cases hl : v.buildLDFlags = "" <;> simp [ht, hl]
  · intro hd
    cases hg : isgenerate <;> cases hb : o.buildErr <;>
      simp_all [AutoBuild, AutoBuild.body]

/-! ## The hub never panics -/

/-- One iteration of the broker loop on an admitted sequence succeeds and
leaves a state that admits the rest. -/
theorem runStep_admits (h : HubState) (i : Intent) (rest : List Intent)
    (hj : h.Admits (i :: rest)) :
    ∃ h1, wsBroker.runStep h i = some h1 ∧ h1.Admits rest := by
  obtain ⟨⟨hnd, hsafe⟩, hreg, hfresh⟩ := hj
  cases i with
  | register c =>
    simp only [registersOf, List.nodup_cons, List.mem_cons, forall_eq_or_imp] at hreg hfresh
    obtain ⟨⟨hc, hco, hcc, hcl⟩, hfresh⟩ := hfresh
    refine ⟨_, rfl, ⟨?_, ?_⟩, hreg.2, ?_⟩
    · simp only [hc, if_false]
      exact List.Nodup.append hnd (List.nodup_singleton c) (by simpa using hc)
    · intro d hd
      simp only [hc, if_false, List.mem_append, List.mem_singleton] at hd
      rcases hd with hd | hd
      · exact hsafe d hd
      · subst hd
        exact ⟨hco, hcc, hcl⟩
    · intro d hd
      have hdc : d ≠ c := fun e => hreg.1 (e ▸ hd)
      obtain ⟨h1, h2⟩ := hfresh d hd
      refine ⟨?_, h2⟩
      simp only [hc, if_false, List.mem_append, List.mem_singleton, not_or]
      exact ⟨h1, hdc⟩
  | unregister c =>
    simp only [registersOf] at hreg hfresh
    by_cases hc : c ∈ h.clients
    · have ho := (hsafe c hc).1
      refine ⟨{ clients := deleteClient h.clients c,
                send := Function.update h.send c (h.send c).shut }, ?_, ⟨?_, ?_⟩, hreg, ?_⟩
      · simp [wsBroker.runStep, hc, Chan.close, ho]
      · exact List.Nodup.filter _ hnd
      · intro d hd
        have hd2 := (mem_deleteClient h.clients c d).mp hd
        have hdc : d ≠ c := hd2.2
        simp only [Function.update_noteq hdc]
        exact hsafe d hd2.1
      · intro d hd
        obtain ⟨h1, h2⟩ := hfresh d hd
        have hdc : d ≠ c := fun e => h1 (e ▸ hc)
        refine ⟨fun hm => h1 ((mem_deleteClient h.clients c d).mp hm).1, ?_⟩
        simp only [Function.update_noteq hdc]
        exact h2
    · refine ⟨h, ?_, ⟨hnd, hsafe⟩, hreg, hfresh⟩
      simp [wsBroker.runStep, hc]
  | broadcast m =>
    simp only [registersOf] at hreg hfresh
    refine ⟨broadcastAll m h h.clients, ?_, ⟨?_, ?_⟩, hreg, ?_⟩
    · exact foldlM_broadcastTo m h.clients h hnd (fun c hc => ⟨(hsafe c hc).1, (hsafe c hc).2.1⟩)
    · exact List.Nodup.filter _ hnd
    · intro d hd
      simp only [broadcastAll, List.mem_filter, Bool.not_eq_true', Bool.and_eq_false_imp,
        decide_eq_true_eq, Bool.not_eq_false', ] at hd
      obtain ⟨hd1, hd2⟩ := hd
      have hlt := hd2 hd1
      simp only [decide_eq_true_eq] at hlt
      obtain ⟨ho, hcap, _⟩ := hsafe d hd1
      simp only [broadcastAll, hd1, hlt, if_true, Chan.push, List.length_append,
        List.length_singleton]
      exact ⟨ho, hcap, hlt⟩
    · intro d hd
      obtain ⟨h1, h2⟩ := hfresh d hd
      refine ⟨fun hm => h1 (List.mem_of_mem_filter hm), ?_⟩
      simp only [broadcastAll, h1, if_false]
      exact h2

/-- The broker loop on an admitted sequence runs to its end and leaves a safe
state. -/
theorem run_admits (is : List Intent) :
    ∀ h : HubState, h.Admits is → ∃ h1, wsBroker.run h is = some h1 ∧ h1.Safe := by
  induction is with
  | nil =>
    intro h hj
    exact ⟨h, rfl, hj.1⟩
  | cons i rest ih =>
    intro h hj
    obtain ⟨h1, hs, hj1⟩ := runStep_admits h i rest hj
    obtain ⟨h2, hr, hs2⟩ := ih h1 hj1
    refine ⟨h2, ?_, hs2⟩
    simp only [wsBroker.run, List.foldlM_cons, hs, Option.bind_eq_bind, Option.some_bind]
    exact hr

/-- The clients registered by a prefix are among those registered by the whole
sequence, in the same order. -/
theorem registersOf_take (is : List Intent) :
    ∀ n, (registersOf (is.take n)).Sublist (registersOf is) := by
  induction is with
  | nil => intro n; simp [registersOf]
  | cons i rest ih =>
    intro n
    cases n with
    | zero => simp [registersOf]
    | succ n =>
      cases i with
      | register c =>
        simp only [List.take_succ_cons, registersOf]
        exact (ih n).cons₂ c
      | unregister c => simpa only [List.take_succ_cons, registersOf] using ih n
      | broadcast m => simpa only [List.take_succ_cons, registersOf] using ih n

/-- C27: when no client is registered twice and every client comes with an
open queue of capacity 256, the broker loop gets through every prefix of the
intents without a panic (it never closes a closed queue and never sends on a
closed queue), and in the state reached every registered client has an open
queue holding at most 256 messages. -/
theorem hub_never_panics (h : HubState) (is : List Intent) (hs : h.Safe)
    (hreg : (registersOf is).Nodup)
    (hfresh : ∀ c ∈ registersOf is, c ∉ h.clients ∧ (h.send c).closed = false ∧
      (h.send c).cap = sendCap ∧ (h.send c).buf.length ≤ sendCap) :
    ∀ n, ∃ h1, wsBroker.run h (is.take n) = some h1 ∧ h1.clients.Nodup ∧
      ∀ c ∈ h1.clients, (h1.send c).closed = false ∧ (h1.send c).cap = 256 ∧
        (h1.send c).buf.length ≤ 256 := by
  intro n
  have hsub := registersOf_take is n
  exact run_admits (is.take n) h
    ⟨hs, hsub.nodup hreg, fun c hc => hfresh c (hsub.subset hc)⟩

theorem hub_never_panics_witness :
    ∃ h1, wsBroker.run hubStart (exIntents.take 7) = some h1 ∧ h1.clients.Nodup ∧
      ∀ c ∈ h1.clients, (h1.send c).closed = false ∧ (h1.send c).cap = 256 ∧
        (h1.send c).buf.length ≤ 256 :=
  hub_never_panics hubStart exIntents
    ⟨List.nodup_nil, fun c hc => (nomatch hc)⟩ (by decide)
    (fun c _ => ⟨(fun hc => nomatch hc), rfl, rfl, Nat.zero_le _⟩) 7

/-! ## ParseDSN -/

/-- The character right after a stretch `a` is found at index `a.length`. -/
theorem getElem?_mid (a : List Char) (x : Char) (b : List Char) :
    (a ++ x :: b)[a.length]? = some x := by
  rw [List.getElem?_append_right (Nat.le_refl _)]
  simp

/-- A downward scan that starts right after a stretch without `c` stops at the
`c` before that stretch. -/
theorem scanDown_found (a b : List Char) (c : Char) (hc : c ∉ b) :
    ∀ rest : List Char,
      scanDown (a ++ c :: (b ++ rest)) c (a.length + 1 + b.length) = some a.length := by
  induction b using List.reverseRecOn with
  | nil =>
    intro rest
    show scanDown (a ++ c :: ([] ++ rest)) c (a.length + 0 + 1) = some a.length
    rw [scanDown, List.nil_append, getElem?_mid]
    simp
  | append_singleton b x ih =>
    intro rest
    have hx : x ≠ c := fun e => hc (by simp [e])
    have hb : c ∉ b := fun e => hc (by simp [e])
    have hlen : a.length + 1 + (b ++ [x]).length = (a.length + 1 + b.length) + 1 := by
      simp only [List.length_append, List.length_singleton]
      omega
    rw [hlen, scanDown]
    have hget : (a ++ c :: (b ++ [x] ++ rest))[a.length + 1 + b.length]? = some x := by
      have e : a ++ c :: (b ++ [x] ++ rest) = (a ++ c :: b) ++ (x :: rest) := by simp
      have e2 : a.length + 1 + b.length = (a ++ c :: b).length := by
        simp only [List.length_append, List.length_cons]
        omega
      rw [e, e2]
      exact getElem?_mid _ _ _
    rw [hget]
    simp only [Option.some.injEq, hx, if_false]
    have e3 : a ++ c :: (b ++ [x] ++ rest) = a ++ c :: (b ++ ([x] ++ rest)) := by simp
    rw [e3]
    exact ih hb ([x] ++ rest)

/-- A downward scan over a text without `c` runs to the end. -/
theorem scanDown_none (s : List Char) (c : Char) (hc : c ∉ s) :
    ∀ n, scanDown s c n = none := by
  intro n
  induction n with
  | zero => rfl
  | succ n ih =>
    rw [scanDown]
    have : s[n]? ≠ some c := by
      intro h
      obtain ⟨hlt, he⟩ := List.getElem?_eq_some.mp h
      exact hc (he ▸ List.getElem_mem hlt)
    simp only [this, if_false]
    exact ih

/-- A downward scan stops only at an index holding `c`. -/
theorem scanDown_some (s : List Char) (c : Char) :
    ∀ n i, scanDown s c n = some i → s[i]? = some c := by
  intro n
  induction n with
  | zero => intro i h; simp [scanDown] at h
  | succ n ih =>
    intro i h
    rw [scanDown] at h
    by_cases hn : s[n]? = some c
    · simp only [hn, if_true, Option.some.injEq] at h
      subst h
      exact hn
    · simp only [hn, if_false] at h
      exact ih i h

/-- An upward scan stops at the first `c`. -/
theorem scanUp_found (seg : List Char) (c : Char) (hc : c ∉ seg) :
    ∀ (s a b : List Char) (fuel lo : Nat), s = a ++ (seg ++ c :: b) → lo = a.length →
      seg.length < fuel → scanUp s c fuel lo = a.length + seg.length := by
  induction seg with
  | nil =>
    intro s a b fuel lo hs hlo hf
    subst hs hlo
    obtain ⟨f, rfl⟩ : ∃ f, fuel = f + 1 := ⟨fuel - 1, by simp at hf; omega⟩
    rw [scanUp, List.nil_append, getElem?_mid]
    simp
  | cons x seg ih =>
    intro s a b fuel lo hs hlo hf
    subst hs hlo
    obtain ⟨f, rfl⟩ : ∃ f, fuel = f + 1 := ⟨fuel - 1, by simp at hf; omega⟩
    have hx : x ≠ c := fun e => hc (by simp [e])
    have hseg : c ∉ seg := fun e => hc (by simp [e])
    rw [scanUp]
    have hget : (a ++ (x :: seg ++ c :: b))[a.length]? = some x := getElem?_mid _ _ _
    rw [hget]
    simp only [Option.some.injEq, hx, if_false]
    have := ih hseg (a ++ (x :: seg ++ c :: b)) (a ++ [x]) b f (a.length + 1) (by simp)
      (by simp) (by simp only [List.length_cons] at hf; omega)
    rw [this]
    simp only [List.length_append, List.length_cons, List.length_nil]
    omega

/-- An upward scan over a stretch without `c` runs to its bound. -/
theorem scanUp_end (seg : List Char) (c : Char) (hc : c ∉ seg) :
    ∀ (s a b : List Char) (fuel lo : Nat), s = a ++ (seg ++ b) → lo = a.length →
      fuel = seg.length → scanUp s c fuel lo = a.length + seg.length := by
  induction seg with
  | nil =>
    intro s a b fuel lo hs hlo hf
    subst hs hlo hf
    simp [scanUp]
  | cons x seg ih =>
    intro s a b fuel lo hs hlo hf
    subst hs hlo hf
    have hx : x ≠ c := fun e => hc (by simp [e])
    have hseg : c ∉ seg := fun e => hc (by simp [e])
    rw [List.length_cons, scanUp]
    have hget : (a ++ (x :: seg ++ b))[a.length]? = some x := getElem?_mid _ _ _
    rw [hget]
    simp only [Option.some.injEq, hx, if_false]
    have := ih hseg (a ++ (x :: seg ++ b)) (a ++ [x]) b seg.length (a.length + 1) (by simp)
      (by simp) rfl
    rw [this]
    simp only [List.length_append, List.length_cons, List.length_nil]
    omega

/-- The slice between two stretches of known length. -/
theorem slice_mid (s a m b : List Char) (lo hi : Nat) (hs : s = a ++ (m ++ b))
    (hlo : lo = a.length) (hhi : hi = a.length + m.length) : slice s lo hi = String.mk m := by
  subst hs hlo hhi
  simp [slice]

/-- The left part of `user:password@net(addr)/dbname` yields the four fields. -/
theorem ParseDSN_left_format (U P N A D : List Char) (hu : ':' ∉ U) (hn1 : '(' ∉ N)
    (hn2 : '@' ∉ N) (ha : '@' ∉ A) :
    ParseDSN.left (U ++ ':' :: (P ++ '@' :: (N ++ '(' :: (A ++ ')' :: '/' :: D))))
        (U.length + 1 + P.length + 1 + N.length + 1 + A.length + 1) =
      .ok { User := String.mk U, Passwd := String.mk P, Net := String.mk N,
            Addr := String.mk A } := by
  generalize hs : U ++ ':' :: (P ++ '@' :: (N ++ '(' :: (A ++ ')' :: '/' :: D))) = s
  generalize hi : U.length + 1 + P.length + 1 + N.length + 1 + A.length + 1 = i
  have hat : scanDown s '@' (i + 1) = some (U.length + 1 + P.length) := by
    have hb : '@' ∉ N ++ '(' :: (A ++ [')', '/']) := by
      simp [hn2, ha]
    have h := scanDown_found (U ++ ':' :: P) (N ++ '(' :: (A ++ [')', '/'])) '@' hb D
    have e1 : (U ++ ':' :: P) ++ '@' :: ((N ++ '(' :: (A ++ [')', '/'])) ++ D) = s := by
      rw [← hs]
      simp
    have e2 : (U ++ ':' :: P).length + 1 + (N ++ '(' :: (A ++ [')', '/'])).length = i + 1 := by
      rw [← hi]
      simp only [List.length_append, List.length_cons, List.length_nil]
      omega
    have e3 : (U ++ ':' :: P).length = U.length + 1 + P.length := by
      simp only [List.length_append, List.length_cons]
      omega
    rw [e1, e2, e3] at h
    exact h
  have hcolon : scanUp s ':' (U.length + 1 + P.length) 0 = U.length := by
    have h := scanUp_found U ':' hu s [] (P ++ '@' :: (N ++ '(' :: (A ++ ')' :: '/' :: D)))
      (U.length + 1 + P.length) 0 (by rw [← hs]; simp) rfl (by omega)
    simpa using h
  have hpass : slice s (U.length + 1) (U.length + 1 + P.length) = String.mk P :=
    slice_mid s (U ++ [':']) P ('@' :: (N ++ '(' :: (A ++ ')' :: '/' :: D))) _ _
      (by rw [← hs]; simp) (by simp) (by simp)
  have huser : slice s 0 U.length = String.mk U :=
    slice_mid s [] U (':' :: (P ++ '@' :: (N ++ '(' :: (A ++ ')' :: '/' :: D)))) _ _
      (by rw [← hs]; simp) rfl (by simp)
  have hparen : scanUp s '(' (i - (U.length + 1 + P.length + 1)) (U.length + 1 + P.length + 1)
      = U.length + 1 + P.length + 1 + N.length := by
    have h := scanUp_found N '(' hn1 s (U ++ ':' :: (P ++ ['@'])) (A ++ ')' :: '/' :: D)
      (i - (U.length + 1 + P.length + 1)) (U.length + 1 + P.length + 1)
      (by rw [← hs]; simp)
      (by simp only [List.length_append, List.length_cons, List.length_nil]; omega)
      (by omega)
    rw [h]
    simp only [List.length_append, List.length_cons, List.length_nil]
    omega
  have hnet : slice s (U.length + 1 + P.length + 1) (U.length + 1 + P.length + 1 + N.length)
      = String.mk N :=
    slice_mid s (U ++ ':' :: (P ++ ['@'])) N ('(' :: (A ++ ')' :: '/' :: D)) _ _
      (by rw [← hs]; simp)
      (by simp only [List.length_append, List.length_cons, List.length_nil]; omega)
      (by simp only [List.length_append, List.length_cons, List.length_nil]; omega)
  have haddr : slice s (U.length + 1 + P.length + 1 + N.length + 1) (i - 1) = String.mk A :=
    slice_mid s (U ++ ':' :: (P ++ '@' :: (N ++ ['(']))) A (')' :: '/' :: D) _ _
      (by rw [← hs]; simp)
      (by simp only [List.length_append, List.length_cons, List.length_nil]; omega)
      (by simp only [List.length_append, List.length_cons, List.length_nil]; omega)
  have hclose : s[i - 1]? = some ')' := by
    have h := getElem?_mid (U ++ ':' :: (P ++ '@' :: (N ++ '(' :: A))) ')' ('/' :: D)
    have e1 : (U ++ ':' :: (P ++ '@' :: (N ++ '(' :: A))) ++ ')' :: '/' :: D = s := by
      rw [← hs]
      simp
    have e2 : (U ++ ':' :: (P ++ '@' :: (N ++ '(' :: A))).length = i - 1 := by
      simp only [List.length_append, List.length_cons, List.length_nil]
      omega
    rw [e1, e2] at h
    exact h
  have hlt1 : U.length < U.length + 1 + P.length := by omega
  have hlt2 : U.length + 1 + P.length + 1 + N.length < i := by omega
  unfold ParseDSN.left
  simp only [hat, hcolon, hlt1, if_true, hpass, huser, hparen, hlt2, hclose, ne_eq,
    not_true_eq_false, if_false, hnet, haddr]

/-- The whole of `user:password@net(addr)/dbname`, as characters. -/
theorem ParseDSN_chars (unescape : String → Option String) (U P N A D : List Char)
    (hu : ':' ∉ U) (hn1 : '(' ∉ N) (hn2 : '@' ∉ N) (ha : '@' ∉ A) (hd1 : '/' ∉ D)
    (hd2 : '?' ∉ D) :
    ParseDSN unescape
        (String.mk (U ++ ':' :: (P ++ '@' :: (N ++ '(' :: (A ++ ')' :: '/' :: D))))) =
      (some { User := String.mk U, Passwd := String.mk P, Net := String.mk N,
              Addr := String.mk A, DBName := String.mk D, Params := none }, none) := by
  have hleft := ParseDSN_left_format U P N A D hu hn1 hn2 ha
  generalize hs : U ++ ':' :: (P ++ '@' :: (N ++ '(' :: (A ++ ')' :: '/' :: D))) = s at hleft
  generalize hi : U.length + 1 + P.length + 1 + N.length + 1 + A.length + 1 = i at hleft
  have hlen : s.length = i + 1 + D.length := by
    rw [← hs, ← hi]
    simp only [List.length_append, List.length_cons]
    omega
  have hslash : scanDown s '/' (i + 1 + D.length) = some i := by
    have h := scanDown_found (U ++ ':' :: (P ++ '@' :: (N ++ '(' :: (A ++ [')'])))) D '/' hd1 []
    have e1 : (U ++ ':' :: (P ++ '@' :: (N ++ '(' :: (A ++ [')'])))) ++ '/' :: (D ++ []) = s := by
      rw [← hs]
      simp
    have e2 : (U ++ ':' :: (P ++ '@' :: (N ++ '(' :: (A ++ [')'])))).length = i := by
      rw [← hi]
      simp only [List.length_append, List.length_cons, List.length_nil]
      omega
    rw [e1, e2] at h
    exact h
  have hq : scanUp s '?' (i + 1 + D.length - (i + 1)) (i + 1) = i + 1 + D.length := by
    have h := scanUp_end D '?' hd2 s
      (U ++ ':' :: (P ++ '@' :: (N ++ '(' :: (A ++ [')', '/'])))) []
      (i + 1 + D.length - (i + 1)) (i + 1)
      (by rw [← hs]; simp)
      (by rw [← hi]; simp only [List.length_append, List.length_cons, List.length_nil]; omega)
      (by omega)
    rw [h, ← hi]
    simp only [List.length_append, List.length_cons, List.length_nil]
    omega
  have hdb : slice s (i + 1) (i + 1 + D.length) = String.mk D :=
    slice_mid s (U ++ ':' :: (P ++ '@' :: (N ++ '(' :: (A ++ [')', '/'])))) D [] _ _
      (by rw [← hs]; simp)
      (by rw [← hi]; simp only [List.length_append, List.length_cons, List.length_nil]; omega)
      (by rw [← hi]; simp only [List.length_append, List.length_cons, List.length_nil]; omega)
  have hpos : 0 < i := by omega
  unfold ParseDSN
  simp only [hlen, hslash, hpos, if_true, hleft, hq, Nat.lt_irrefl, if_false, hdb]

/-- C23: for a user without `:`, any password, a network without `(` or `@`,
an address without `@` and a database name without `/` or `?`, parsing
`user:password@net(addr)/dbname` succeeds with exactly these five fields and no
parameters. -/
theorem ParseDSN_format (unescape : String → Option String)
    (user password net addr dbname : String)
    (hu : ':' ∉ user.data) (hn1 : '(' ∉ net.data) (hn2 : '@' ∉ net.data)
    (ha : '@' ∉ addr.data) (hd1 : '/' ∉ dbname.data) (hd2 : '?' ∉ dbname.data) :
    ParseDSN unescape
        (user ++ ":" ++ password ++ "@" ++ net ++ "(" ++ addr ++ ")" ++ "/" ++ dbname) =
      (some { User := user, Passwd := password, Net := net, Addr := addr, DBName := dbname,
              Params := none }, none) := by
  have h := ParseDSN_chars unescape user.data password.data net.data addr.data dbname.data
    hu hn1 hn2 ha hd1 hd2
  have e : user ++ ":" ++ password ++ "@" ++ net ++ "(" ++ addr ++ ")" ++ "/" ++ dbname =
      String.mk (user.data ++ ':' :: (password.data ++ '@' :: (net.data ++ '(' ::
        (addr.data ++ ')' :: '/' :: dbname.data)))) := by
    apply String.ext
    simp [String.data_append]
  rw [e]
  exact h

theorem ParseDSN_format_witness :
    ParseDSN exUnescape ("root" ++ ":" ++ "p@ss:w/rd" ++ "@" ++ "unix" ++ "(" ++
        "/tmp/my(1).sock" ++ ")" ++ "/" ++ "shop@db") =
      (some { User := "root", Passwd := "p@ss:w/rd", Net := "unix",
              Addr := "/tmp/my(1).sock", DBName := "shop@db", Params := none }, none) :=
  ParseDSN_format exUnescape "root" "p@ss:w/rd" "unix" "/tmp/my(1).sock" "shop@db"
    (by decide) (by decide) (by decide) (by decide) (by decide) (by decide)

/-- The loop of `parseDSNParams` returns no error but that of the decoder. -/
theorem parseDSNParams_loop_err (unescape : String → Option String) (l : List String) :
    ∀ cfg : DSN, (parseDSNParams.loop unescape cfg l).2 ≠ some .errInvalidDSNNoSlash := by
  induction l with
  | nil => intro cfg; simp [parseDSNParams.loop]
  | cons v rest ih =>
    intro cfg
    rw [parseDSNParams.loop]
    cases hsp : splitEq v.data [] with
    | none => exact ih cfg
    | some kv =>
      obtain ⟨key, value⟩ := kv
      cases hun : unescape value with
      | none => simp [hun]
      | some val =>
        simp only [hun]
        exact ih _

/-- The left part returns no missing-slash error. -/
theorem ParseDSN_left_err (s : List Char) (i : Nat) :
    ParseDSN.left s i ≠ .error .errInvalidDSNNoSlash := by
  unfold ParseDSN.left
  simp only
  split
  · split
    · split <;> simp
    · simp
  · simp

/-- A downward scan that runs to the end has seen no `c`. -/
theorem scanDown_none_imp (s : List Char) (c : Char) :
    ∀ n, scanDown s c n = none → ∀ k, k < n → s[k]? ≠ some c := by
  intro n
  induction n with
  | zero => intro _ k hk; omega
  | succ n ih =>
    intro h k hk
    rw [scanDown] at h
    by_cases hn : s[n]? = some c
    · simp [hn] at h
    · simp only [hn, if_false] at h
      by_cases hkn : k = n
      · subst hkn
        exact hn
      · exact ih h k (by omega)

/-- A downward scan from the end of a text holding `c` stops. -/
theorem scanDown_mem (s : List Char) (c : Char) (hc : c ∈ s) :
    ∃ i, scanDown s c s.length = some i := by
  cases h : scanDown s c s.length with
  | some i => exact ⟨i, rfl⟩
  | none =>
    obtain ⟨k, hk, he⟩ := List.getElem_of_mem hc
    have := scanDown_none_imp s c s.length h k hk
    rw [List.getElem?_eq_getElem hk, he] at this
    exact absurd rfl this

/-- C24: the error of `ParseDSN` is `errInvalidDSNNoSlash` exactly when the
text is not empty and holds no `/`; the empty text parses, without error, to a
DSN whose fields are all empty. -/
theorem ParseDSN_no_slash (unescape : String → Option String) (dsn : String) :
    ((ParseDSN unescape dsn).2 = some .errInvalidDSNNoSlash ↔ dsn ≠ "" ∧ '/' ∉ dsn.data) ∧
    ParseDSN unescape "" =
      (some { User := "", Passwd := "", Net := "", Addr := "", DBName := "", Params := none },
        none) := by
  refine ⟨?_, rfl⟩
  by_cases hsl : '/' ∈ dsn.data
  · -- a slash is found: the loop stops there and the error, if any, is another one
    obtain ⟨i, hi⟩ := scanDown_mem dsn.data '/' hsl
    have hne : (ParseDSN unescape dsn).2 ≠ some .errInvalidDSNNoSlash := by
      unfold ParseDSN
      simp only [hi]
      cases hl : (if i > 0 then ParseDSN.left dsn.data i else .ok {}) with
      | error e =>
        have he : e ≠ .errInvalidDSNNoSlash := by
          intro he
          subst he
          by_cases hpos : i > 0
          · simp only [hpos, if_true] at hl
            exact ParseDSN_left_err _ _ hl
          · simp [hpos] at hl
        simpa using he
      | ok cfg =>
        simp only
        split
        · have hp := parseDSNParams_loop_err unescape
            (Split (slice dsn.data (scanUp dsn.data '?' (dsn.data.length - (i + 1)) (i + 1) + 1)
              dsn.data.length) "&") cfg
          unfold parseDSNParams
          split
          · rename_i cfg2 e heq
            rw [heq] at hp
            simpa using hp
          · simp
        · simp
    simp [hne, hsl]
  · have hnone := scanDown_none dsn.data '/' hsl dsn.data.length
    unfold ParseDSN
    simp only [hnone, hsl, not_false_eq_true, and_true]
    by_cases he : dsn = ""
    · subst he
      simp
    · have hpos : dsn.data.length > 0 := by
        cases hd : dsn.data with
        | nil => exact absurd (String.ext hd) he
        | cons c l => simp
      simp only [hpos, if_true, ne_eq, he, not_false_eq_true]

/-! ## VerCompare -/

/-- C25: a component of five digits is not padded to the width of the others,
so `VerCompare` puts `10000` below `9999`: the padded texts are `10000` and
`9999` and the comparison of texts decides on the first character. With
components below `10000`, as in `1.10.2` against `1.9.3`, the greater version
wins. -/
theorem VerCompare_wide_component :
    VerCompare "10000" "9999" = -1 ∧
    VerCompare.pad ["10000"] = "10000" ∧ VerCompare.pad ["9999"] = "9999" ∧
    VerCompare "v1.10.2" "v1.9.3" = 1 := by
  decide

/-! ## Command.Out -/

/-- C26: after `SetOutput(nil)` the field points to a nil writer and `Out` returns
that nil writer, not the standard error stream; a command whose output was
never set gets the colour writer around the standard error stream, and after
`SetOutput(w)` with a writer `w` it gets `w`. -/
theorem Out_after_SetOutput_nil (c : Command) :
    (c.SetOutput none).Out = none ∧
    Command.zero.Out = some (.colorWriter .stderr) ∧
    ∀ w : Writer, (c.SetOutput (some w)).Out = some w :=
  ⟨rfl, rfl, fun _ => rfl⟩

/-! ## MacOSVersionSupport -/

/-- C28: on the output `10.9` followed by a newline the minor component read is
`9` with the newline, which `strconv.Atoi` rejects, so the minor version counts
as `0` and `MacOSVersionSupport` returns false; with a patch component the
newline ends up there and `10.9.0` is supported. -/
theorem MacOSVersionSupport_two_components :
    MacOSVersionSupport "10.9\n" = some false ∧
    Split "10.9\n" "." = ["10", "9\n"] ∧ Atoi "9\n" = 0 ∧
    MacOSVersionSupport "10.9.0\n" = some true := by
  decide

/-! ## isExcluded -/

/-- C29: with `/a/foo` excluded, `isExcluded` reports the sibling `/a/foobar` as
excluded, because the test is a comparison of the leading characters. -/
theorem isExcluded_sibling :
    isExcluded absOfClean ["/a/foo"] "/a/foobar" = true ∧
    isExcluded absOfClean ["/a/foo"] "/a/foo/x.go" = true ∧
    isExcluded absOfClean ["/a/foo"] "/a/bar" = false := by
  decide

/-! ## bale: resource names -/

/-- C30: the path `a_1_b` is converted to `a_0_1_0_b`, in which `getFilePath` first
replaces the inner `_1_` by a dot: the path restored is `a_0.0_b`, not `a_1_b`. -/
theorem getFilePath_not_inverse :
    walkFn.convert "linux" "a_1_b" = "a_0_1_0_b" ∧
    getFilePath (walkFn.convert "linux" "a_1_b") = "a_0.0_b" ∧
    getFilePath (walkFn.convert "linux" "static/js/app-1.min_x y.js") =
      "static/js/app-1.min_x y.js" := by
  decide
end Bee
